import Mathlib

/-!
# goamf: a shallow embedding of the AMF0 / AMF3 codec

The development follows the four source files of the package:

* `defines.go`  : markers, the `Writer` / `Reader` interfaces, `Undefined`, `Object`,
  the `stringValues` sorting wrapper;
* `errors.go`   : the error types;
* `amf0.go`     : the AMF0 writers and readers;
* `amf3.go`     : the AMF3 writers and readers.

Conventions of the embedding.

* A byte is a natural number; every conversion `byte(x)` of the source is written `x % 256`.
  A Go `string` / `[]byte` is a list of bytes (`Bytes`); `len` is `List.length`.
* `uint16(x)`, `uint32(x)`, `int32(x)` are written with explicit `% 2 ^ 16`, `% 2 ^ 32`.
  Go `int` is 64 bits wide; byte counts are natural numbers.
* A `float64` is its IEEE-754 bit pattern, a natural number below `2 ^ 64`.
* Functions returning `(n int, err error)` return a record holding `n`, `err` and the sink
  after the call; readers return the value, `err` and the source after the call.
* The sink is an in-memory buffer with an optional capacity: without a capacity it never
  fails (`bytes.Buffer`); with capacity `c` it accepts `c` more bytes and then reports
  `Error.sink`.
* The source is an in-memory buffer (`bytes.Buffer`): the list of bytes still unread.
* A call that does not return, because reflection panics or because the runtime aborts the
  program for want of memory, is a result whose error is `reflectPanic` or `outOfMemory`,
  with the sink or source as the call left it.
* The number of bytes the runtime can obtain for one slice is a parameter of the readers
  (`Machine`); the statements about the readers hold on every machine.
-/

namespace Goamf

/-! ## defines.go : markers -/

abbrev Bytes := List Nat

def Amf0NumberMarker : Nat := 0x00
def Amf0BooleanMarker : Nat := 0x01
def Amf0StringMarker : Nat := 0x02
def Amf0ObjectMarker : Nat := 0x03
def Amf0MovieclipMarker : Nat := 0x04
def Amf0NullMarker : Nat := 0x05
def Amf0UndefinedMarker : Nat := 0x06
def Amf0ReferenceMarker : Nat := 0x07
def Amf0EcmaArrayMarker : Nat := 0x08
def Amf0ObjectEndMarker : Nat := 0x09
def Amf0StrictArrayMarker : Nat := 0x0a
def Amf0DateMarker : Nat := 0x0b
def Amf0LongStringMarker : Nat := 0x0c
def Amf0UnsupportedMarker : Nat := 0x0d
def Amf0RecordsetMarker : Nat := 0x0e
def Amf0XMLDocumentMarker : Nat := 0x0f
def Amf0TypedObjectMarker : Nat := 0x10
def Amf0AvmplusObjectMarker : Nat := 0x11

def Amf0MaxStringLen : Nat := 0xFFFF

def Amf3UndefinedMarker : Nat := 0x00
def Amf3NullMarker : Nat := 0x01
def Amf3FalseMarker : Nat := 0x02
def Amf3TrueMarker : Nat := 0x03
def Amf3IntegerMarker : Nat := 0x04
def Amf3DoubleMarker : Nat := 0x05
def Amf3StringMarker : Nat := 0x06
def Amf3XMLDocMarker : Nat := 0x07
def Amf3DateMarker : Nat := 0x08
def Amf3ArrayMarker : Nat := 0x09
def Amf3ObjectMarker : Nat := 0x0a
def Amf3XMLMarker : Nat := 0x0b
def Amf3ByteArrayMarker : Nat := 0x0c

/-! ## errors.go -/

/-- The error values of the package, together with the errors of the sink and the source
(`eof` is `io.EOF`, `unexpectedEOF` is `io.ErrUnexpectedEOF`, `sink` is a failed write,
`binaryWrite` is the error of `binary.Write` on a value that is not fixed-size) and the two
ways in which a call ends without returning: `reflectPanic`, a run-time panic of the
reflection package, and `outOfMemory`, the abort of the program by the runtime when an
allocation cannot be served (`fatal error: runtime: out of memory`). After either of them
the record holds what had been written or read when the call ended. -/
inductive Error where
  | eof
  | unexpectedEOF
  | sink
  | binaryWrite
  | unsupportedType (type : String)
  | unexpectedType (type : Nat)
  | expectedType (type : Nat)
  | propertyExist (name : Bytes)
  | readDate (err : String)
  | outOfRange
  | length (name : String)
  | reflectPanic (msg : String)
  | outOfMemory
  deriving DecidableEq, Repr

/-! ## defines.go : the `Writer` and `Reader` interfaces -/

/-- An in-memory sink: `buf` holds the bytes written so far; `cap = none` is a sink that
never fails, `cap = some c` fails once `c` more bytes have been accepted. -/
structure Writer where
  buf : Bytes
  cap : Option Nat
  deriving DecidableEq, Repr

/-- Result `(n int, err error)` of a write function, with the sink after the call. -/
structure WRes where
  n : Nat
  err : Option Error
  w : Writer
  deriving DecidableEq, Repr

/-- The method `WriteByte(c byte) error`; the count is the number of bytes accepted. -/
def Writer.WriteByte (w : Writer) (c : Nat) : WRes :=
  match w.cap with
  | none => { n := 1, err := none, w := { w with buf := w.buf ++ [c] } }
  | some 0 => { n := 0, err := some Error.sink, w := w }
  | some (k + 1) => { n := 1, err := none, w := { buf := w.buf ++ [c], cap := some k } }

/-- The method `Write(p []byte) (n int, err error)`: a sink with too little room accepts the
bytes that fit and reports the failure. -/
def Writer.Write (w : Writer) (p : Bytes) : WRes :=
  match w.cap with
  | none => { n := p.length, err := none, w := { w with buf := w.buf ++ p } }
  | some c =>
    if p.length ≤ c then
      { n := p.length, err := none, w := { buf := w.buf ++ p, cap := some (c - p.length) } }
    else
      { n := c, err := some Error.sink, w := { buf := w.buf ++ p.take c, cap := some 0 } }

/-- The empty sink that never fails. -/
def Writer.empty : Writer := { buf := [], cap := none }

abbrev Reader := Bytes

/-- Result of a read function: the value, the error and the source after the call. -/
structure RRes (α : Type) where
  val : α
  err : Option Error
  r : Reader
  deriving DecidableEq, Repr

/-- The method `ReadByte() (c byte, err error)`. -/
def ReadByte (r : Reader) : RRes Nat :=
  match r with
  | [] => { val := 0, err := some Error.eof, r := [] }
  | b :: rest => { val := b, err := none, r := rest }

/-- The method `Read(p []byte) (n int, err error)` for a buffer `p` of `len` bytes, as
`bytes.Buffer` implements it: an empty source reports `io.EOF` (unless `len = 0`); otherwise
the bytes at hand are copied, however few, and no error is reported. The value is the pair
of the buffer `p` after the call (its unfilled tail is still zero) and the count `n`. -/
def Read (r : Reader) (len : Nat) : RRes (Bytes × Nat) :=
  match r with
  | [] =>
    if len = 0 then { val := ([], 0), err := none, r := [] }
    else { val := (List.replicate len 0, 0), err := some Error.eof, r := [] }
  | _ :: _ =>
    { val := (r.take len ++ List.replicate (len - r.length) 0, min len r.length),
      err := none, r := r.drop len }

/-- The call `binary.Read(r, binary.BigEndian, &x)` for a fixed-size `x` of `size` bytes:
`io.ReadFull` either delivers all `size` bytes or fails. -/
def binaryRead (r : Reader) (size : Nat) : RRes Bytes :=
  if size ≤ r.length then { val := r.take size, err := none, r := r.drop size }
  else if r = [] then { val := [], err := some Error.eof, r := [] }
  else { val := [], err := some Error.unexpectedEOF, r := [] }

/-- Big-endian bytes of `x`, `size` of them (the low `8 * size` bits of `x`). -/
def bigEndian : Nat → Nat → Bytes
  | 0, _ => []
  | size + 1, x => (x / 256 ^ size) % 256 :: bigEndian size x

/-- The unsigned integer whose big-endian bytes are `bs`. -/
def fromBigEndian (bs : Bytes) : Nat := bs.foldl (fun acc b => acc * 256 + b) 0

/-- The call `binary.Write(w, binary.BigEndian, x)` for a fixed-size `x` of `size` bytes:
one `Write` of the encoded bytes; only the error is returned. -/
def binaryWrite (w : Writer) (size : Nat) (x : Nat) : WRes :=
  w.Write (bigEndian size x)

/-! ## amf3.go : U29 -/

/-- Source function `Amf3WriteU29(w Writer, n uint32)`. -/
def Amf3WriteU29 (w : Writer) (n : Nat) : WRes :=
  if n ≤ 0x7F then
    let res := w.WriteByte (n % 256)
    match res.err with
    | some e => { n := 0, err := some e, w := res.w }
    | none => { n := 1, err := none, w := res.w }
  else if n ≤ 0x3FFF then
    w.Write [(n >>> 7 ||| 0x80) % 256, (n &&& 0x7F) % 256]
  else if n ≤ 0x1FFFFF then
    w.Write [(n >>> 14 ||| 0x80) % 256, (n >>> 7 &&& 0x7F ||| 0x80) % 256, (n &&& 0x7F) % 256]
  else if n ≤ 0x3FFFFFFF then
    w.Write [(n >>> 22 ||| 0x80) % 256, (n >>> 15 &&& 0x7f ||| 0x80) % 256,
             (n >>> 8 &&& 0x7F ||| 0x80) % 256, (n &&& 0xFF) % 256]
  else
    { n := 0, err := some Error.outOfRange, w := w }

/-- The loop `for i := 0; i < 3; i++` of `Amf3ReadU29`, with `k` iterations left and the
accumulator `n`; after the loop the fourth byte is read. Arithmetic is `uint32`. -/
def Amf3ReadU29.loop : Nat → Nat → Reader → RRes Nat
  | 0, n, r =>
    let rb := ReadByte r
    match rb.err with
    | some e => { val := n, err := some e, r := rb.r }
    | none => { val := ((n <<< 8) % 2 ^ 32 + rb.val) % 2 ^ 32, err := none, r := rb.r }
  | k + 1, n, r =>
    let rb := ReadByte r
    match rb.err with
    | some e => { val := n, err := some e, r := rb.r }
    | none =>
      let n1 := ((n <<< 7) % 2 ^ 32 + (rb.val &&& 0x7f)) % 2 ^ 32
      if rb.val &&& 0x80 = 0 then { val := n1, err := none, r := rb.r }
      else Amf3ReadU29.loop k n1 rb.r

/-- Source function `Amf3ReadU29(r Reader) (n uint32, err error)`. -/
def Amf3ReadU29 (r : Reader) : RRes Nat := Amf3ReadU29.loop 3 0 r

/-! ## defines.go : values

A value of type `interface{}` (or a `reflect.Value`) is described by its kind and contents.
-/

/-- The Go values the codec handles. `nil` is the nil interface; `undefined` is
`Undefined{}` (kind `Struct`, no fields); `int`, `uint`, `float` are the integer and float
kinds; `slice` is a slice and `array` an array `[N]T`, with the kind of the elements named
(`"uint8"` for `[]byte`, `"interface"` for `[]interface{}`); `map` carries the kind of its
key type (`"string"` for a string-keyed map), the name of its type (`"Object"` for `Object`),
whether it is the nil map, and its entries in iteration order; `nilPtr` and `ptr` are the
pointers; `struct` lists all its fields as (declared name, value of the `amf` tag, anonymous,
value), and the value of a field that is not exported (its name does not begin with an
upper-case letter) is wrapped in `unexported`: reflection hands such a value out read-only;
`iface` is a struct field of interface type holding a dynamic value; `time` is a `time.Time`
(`none` is the zero time, `some d` the time `ReadDate` computes from the float64 with bit
pattern `d`); `other` is any remaining kind (`"func"`, `"chan"`, ...) with the name of its
type. -/
inductive Value where
  | nil
  | undefined
  | bool (b : Bool)
  | int (i : Int)
  | uint (u : Nat)
  | float (bits : Nat)
  | string (s : Bytes)
  | slice (elemKind : String) (elems : List Value)
  | array (elemKind : String) (elems : List Value)
  | map (keyKind : String) (typeName : String) (isNil : Bool) (entries : List (Bytes × Value))
  | nilPtr
  | ptr (elem : Value)
  | struct (fields : List (Bytes × Bytes × Bool × Value))
  | iface (typeName : String) (dyn : Value)
  | unexported (v : Value)
  | time (d : Option Nat)
  | other (kind : String) (typeName : String)

/-- The type `Object`, a non-nil `map[string]interface{}`. -/
abbrev Value.object (entries : List (Bytes × Value)) : Value :=
  Value.map "string" "Object" false entries

/-- The nil map of type `Object`. -/
abbrev Value.nilObject : Value := Value.map "string" "Object" true []

/-! ## defines.go : `stringValues` -/

/-- Go string comparison `a < b`, the `Less` of `stringValues`: byte-wise lexicographic. -/
def strLess : Bytes → Bytes → Bool
  | [], [] => false
  | [], _ :: _ => true
  | _ :: _, [] => false
  | a :: as, b :: bs => decide (a < b) || (a == b && strLess as bs)

/-- The order `sort.Sort` establishes: `b` does not come before `a`. -/
def strLE (a b : Bytes) : Prop := strLess b a = false

instance : DecidableRel strLE := fun a b => inferInstanceAs (Decidable (strLess b a = false))

/-- The call `sort.Sort(sv)` on the keys of a map. The keys of a map are pairwise distinct,
so the ascending arrangement is unique and any sorting algorithm yields it. -/
def sortKeys (keys : List Bytes) : List Bytes := keys.insertionSort strLE

/-- The call `v.MapIndex(k)`: the entry stored under `k`. -/
def mapIndex {α : Type} (k : Bytes) : List (Bytes × α) → Option α
  | [] => none
  | (k1, a) :: rest => if k = k1 then some a else mapIndex k rest

/-! ## Conversions to float64 -/

/-- Position of the highest set bit of `m`, for `m < 2 ^ 65`. -/
def log2Fuel : Nat → Nat → Nat
  | 0, _ => 0
  | f + 1, m => if m < 2 then 0 else log2Fuel f (m / 2) + 1

/-- The conversion `float64(m)` of an unsigned 64-bit integer: the bit pattern of the
nearest float64, ties to even. -/
def float64OfNat (m : Nat) : Nat :=
  if m = 0 then 0
  else
    let e := log2Fuel 64 m
    if e ≤ 52 then (e + 1023) * 2 ^ 52 + (m * 2 ^ (52 - e) - 2 ^ 52)
    else
      let sh := e - 52
      let q := m / 2 ^ sh
      let rem := m % 2 ^ sh
      let half := 2 ^ (sh - 1)
      let q1 := if half < rem ∨ (rem = half ∧ q % 2 = 1) then q + 1 else q
      (e + 1023) * 2 ^ 52 + (q1 - 2 ^ 52)

/-- The conversion `float64(i)` of a signed 64-bit integer. -/
def float64OfInt (i : Int) : Nat :=
  if i < 0 then 2 ^ 63 + float64OfNat i.natAbs else float64OfNat i.toNat

/-- The text `fmt.Sprintf("%d", index)` for a non-negative index. -/
def decimal (index : Nat) : Bytes := (Nat.toDigits 10 index).map Char.toNat

/-! ## The arithmetic of `ReadDate`

`ReadDate` computes `d /= 1000.0; sec := int64(d); nsec := int64((d - float64(sec)) * 10e9)`
and `time.Unix(sec, nsec)`. Each float64 operation yields the float64 nearest to the exact
result, ties to even. -/

/-- A finite float64 as a number: `man * 2 ^ exp`, negated when `neg` is set. -/
structure Finite64 where
  neg : Bool
  man : Nat
  exp : Int
  deriving DecidableEq, Repr

/-- The float64 with the bit pattern `bits`; `none` is an infinity or a NaN. -/
def decodeFloat64 (bits : Nat) : Option Finite64 :=
  let e : Nat := (bits / 2 ^ 52) % 2048
  let f : Nat := bits % 2 ^ 52
  let s := decide ((bits / 2 ^ 63) % 2 = 1)
  if e = 2047 then none
  else if e = 0 then some { neg := s, man := f, exp := -1074 }
  else some { neg := s, man := 2 ^ 52 + f, exp := (e : Int) - 1075 }

/-- The float64 nearest to the rational `n / d` (`d` positive), ties to even, with the sign
`neg`; `none` when the result is an infinity. -/
def roundFloat64 (neg : Bool) (n d : Nat) : Option Finite64 :=
  if n = 0 then some { neg := neg, man := 0, exp := 0 }
  else
    let c : Int := (log2Fuel 1100 n : Int) - (log2Fuel 1100 d : Int)
    let e : Int := if d * 2 ^ c.toNat ≤ n * 2 ^ (-c).toNat then c else c - 1
    let p : Int := max e (-1022) - 52
    let q := (n * 2 ^ (-p).toNat) / (d * 2 ^ p.toNat)
    let r := (n * 2 ^ (-p).toNat) % (d * 2 ^ p.toNat)
    let m :=
      if 2 * r < d * 2 ^ p.toNat then q
      else if d * 2 ^ p.toNat < 2 * r then q + 1
      else if q % 2 = 0 then q else q + 1
    if 971 < p ∨ (p = 971 ∧ m = 2 ^ 53) then none
    else some { neg := neg, man := m, exp := p }

/-- The quotient `x / 1000.0`. -/
def div1000 : Option Finite64 → Option Finite64
  | some x => roundFloat64 x.neg (x.man * 2 ^ x.exp.toNat) (1000 * 2 ^ (-x.exp).toNat)
  | none => none

/-- The difference `x - y`. -/
def subFloat64 : Option Finite64 → Option Finite64 → Option Finite64
  | some x, some y =>
    let e := min x.exp y.exp
    let a : Int := (x.man * 2 ^ (x.exp - e).toNat : Nat)
    let b : Int := (y.man * 2 ^ (y.exp - e).toNat : Nat)
    let diff : Int := (if x.neg then -a else a) - (if y.neg then -b else b)
    roundFloat64 (decide (diff < 0)) (diff.natAbs * 2 ^ e.toNat) (2 ^ (-e).toNat)
  | _, _ => none

/-- The product `x * 10e9`. -/
def mul10e9 : Option Finite64 → Option Finite64
  | some x => roundFloat64 x.neg (x.man * 10 ^ 10 * 2 ^ x.exp.toNat) (2 ^ (-x.exp).toNat)
  | none => none

/-- The conversion `int64(x)` of a float64 as the amd64 instruction carries it out: the
fraction is dropped; an infinity, a NaN and a number outside the range of `int64` give
`-2 ^ 63`. -/
def int64OfFloat64 : Option Finite64 → Int
  | none => -2 ^ 63
  | some x =>
    let t : Int := ((x.man * 2 ^ x.exp.toNat) / 2 ^ (-x.exp).toNat : Nat)
    let i : Int := if x.neg then -t else t
    if i < -2 ^ 63 ∨ 2 ^ 63 ≤ i then -2 ^ 63 else i

/-- The value of an `int64` expression: `i` wrapped into the 64 bits. -/
def wrapInt64 (i : Int) : Int := (i + 2 ^ 63) % 2 ^ 64 - 2 ^ 63

/-- The fields `wall` and `ext` of the `time.Time` that `ReadDate` returns for the float64
with bit pattern `d`: the arithmetic of `ReadDate`, then `time.Unix(sec, nsec)`, which moves
whole seconds from `nsec` to `sec` and stores the nanoseconds in `wall` and the seconds since
the year 1 in `ext`. -/
def dateFields (d : Nat) : Nat × Int :=
  let d1 := div1000 (decodeFloat64 d)
  let sec := int64OfFloat64 d1
  let nsec := int64OfFloat64 (mul10e9 (subFloat64 d1 (decodeFloat64 (float64OfInt sec))))
  let n := if nsec < 0 ∨ 10 ^ 9 ≤ nsec then Int.tdiv nsec (10 ^ 9) else 0
  let sec1 := wrapInt64 (sec + n)
  let nsec1 := nsec - n * 10 ^ 9
  let sec2 := if nsec1 < 0 then wrapInt64 (sec1 - 1) else sec1
  let nsec2 := if nsec1 < 0 then nsec1 + 10 ^ 9 else nsec1
  (nsec2.toNat, wrapInt64 (sec2 + 62135596800))

/-! ## amf0.go : write functions -/

/-- Result of a function that returns only `error`, with the sink after the call. -/
structure ERes where
  err : Option Error
  w : Writer
  deriving DecidableEq, Repr

/-- Source function `WriteMarker`. -/
def WriteMarker (w : Writer) (mark : Nat) : WRes :=
  let res := w.WriteByte mark
  match res.err with
  | some e => { n := 0, err := some e, w := res.w }
  | none => { n := 1, err := none, w := res.w }

/-- Source function `WriteUTF8(w, s, length uint16) error`. -/
def WriteUTF8 (w : Writer) (s : Bytes) (length : Nat) : ERes :=
  let r1 := binaryWrite w 2 length
  match r1.err with
  | some e => { err := some e, w := r1.w }
  | none =>
    let r2 := r1.w.Write s
    { err := r2.err, w := r2.w }

/-- Source function `WriteUTF8Long(w, s, length uint32) error`. -/
def WriteUTF8Long (w : Writer) (s : Bytes) (length : Nat) : ERes :=
  let r1 := binaryWrite w 4 length
  match r1.err with
  | some e => { err := some e, w := r1.w }
  | none =>
    let r2 := r1.w.Write s
    { err := r2.err, w := r2.w }

/-- Source function `WriteString`; `length` is a `uint32` throughout. -/
def WriteString (w : Writer) (str : Bytes) : WRes :=
  let length := str.length % 2 ^ 32
  if length > Amf0MaxStringLen then
    let r1 := w.WriteByte Amf0LongStringMarker
    match r1.err with
    | some e => { n := 0, err := some e, w := r1.w }
    | none =>
      let r2 := WriteUTF8Long r1.w str length
      let length1 := (length + 5) % 2 ^ 32
      match r2.err with
      | some e => { n := 1, err := some e, w := r2.w }
      | none => { n := length1, err := none, w := r2.w }
  else
    let r1 := w.WriteByte Amf0StringMarker
    match r1.err with
    | some e => { n := 0, err := some e, w := r1.w }
    | none =>
      let r2 := WriteUTF8 r1.w str (length % 2 ^ 16)
      let length1 := (length + 3) % 2 ^ 32
      match r2.err with
      | some e => { n := 1, err := some e, w := r2.w }
      | none => { n := length1, err := none, w := r2.w }

/-- Source function `WriteDouble`; `num` is the bit pattern of the float64. -/
def WriteDouble (w : Writer) (num : Nat) : WRes :=
  let r1 := w.WriteByte Amf0NumberMarker
  match r1.err with
  | some e => { n := 0, err := some e, w := r1.w }
  | none =>
    let r2 := binaryWrite r1.w 8 num
    match r2.err with
    | some e => { n := 1, err := some e, w := r2.w }
    | none => { n := 9, err := none, w := r2.w }

/-- Source function `WriteBoolean`. -/
def WriteBoolean (w : Writer) (b : Bool) : WRes :=
  let r1 := w.WriteByte Amf0BooleanMarker
  match r1.err with
  | some e => { n := 0, err := some e, w := r1.w }
  | none =>
    let r2 := if b then r1.w.WriteByte 0x01 else r1.w.WriteByte 0x00
    match r2.err with
    | some e => { n := 1, err := some e, w := r2.w }
    | none => { n := 2, err := none, w := r2.w }

/-- Source function `WriteNull`. -/
def WriteNull (w : Writer) : WRes :=
  let res := w.WriteByte Amf0NullMarker
  match res.err with
  | some e => { n := 0, err := some e, w := res.w }
  | none => { n := 1, err := none, w := res.w }

/-- Source function `WriteUndefined`. -/
def WriteUndefined (w : Writer) : WRes :=
  let res := w.WriteByte Amf0UndefinedMarker
  match res.err with
  | some e => { n := 0, err := some e, w := res.w }
  | none => { n := 1, err := none, w := res.w }

/-- Source function `WriteObjectMarker`. -/
def WriteObjectMarker (w : Writer) : WRes := WriteMarker w Amf0ObjectMarker

/-- Source function `WriteObjectEndMarker`. -/
def WriteObjectEndMarker (w : Writer) : WRes := w.Write [0x00, 0x00, Amf0ObjectEndMarker]

/-- Source function `WriteObjectName`; `length + 2` is computed in `uint16`. -/
def WriteObjectName (w : Writer) (name : Bytes) : WRes :=
  let length := name.length % 2 ^ 16
  let res := WriteUTF8 w name length
  { n := (length + 2) % 2 ^ 16, err := res.err, w := res.w }

/-- Source function `WriteEcmaArray(w, arr []interface{})`. Its `length` has type `int`,
which is not a fixed-size type, so `binary.Write` rejects it without writing: the function
returns after the marker, whatever `arr` holds. -/
def WriteEcmaArray (w : Writer) (_arr : List Value) : WRes :=
  let r1 := WriteMarker w Amf0EcmaArrayMarker
  match r1.err with
  | some e => { n := r1.n, err := some e, w := r1.w }
  | none => { n := r1.n, err := some Error.binaryWrite, w := r1.w }

/-- The property loop shared by the object-shaped writers: for each (name, value writer)
pair write the name, then the value, adding the counts to `n`; an error returns at once with
the count reached; after the loop `fin` writes the terminator. -/
def propsLoop (nameW : Writer → Bytes → WRes) (fin : Writer → WRes) :
    List (Bytes × (Writer → WRes)) → Nat → Writer → WRes
  | [], n, w =>
    let r := fin w
    { n := n + r.n, err := r.err, w := r.w }
  | (name, valueW) :: rest, n, w =>
    let r1 := nameW w name
    match r1.err with
    | some e => { n := n, err := some e, w := r1.w }
    | none =>
      let r2 := valueW r1.w
      match r2.err with
      | some e => { n := n + r1.n, err := some e, w := r2.w }
      | none => propsLoop nameW fin rest (n + r1.n + r2.n) r2.w

/-- The pairs visited by `for _, k := range sv` after `sort.Sort(sv)`: each sorted key with
the writer of `v.MapIndex(k).Interface()`. -/
def sortedProps (ws : List (Bytes × (Writer → WRes))) : List (Bytes × (Writer → WRes)) :=
  (sortKeys (ws.map Prod.fst)).map fun k =>
    (k, fun w => match mapIndex k ws with
      | some f => f w
      | none => { n := 0, err := some (Error.reflectPanic "Interface on zero Value"), w := w })

/-- The pairs visited by `for index := int32(0); index < length; index++`: the decimal text
of each index with the writer of that element, starting at index `i`. -/
def indexedProps : Nat → List (Writer → WRes) → List (Bytes × (Writer → WRes))
  | _, [] => []
  | i, f :: fs => (decimal i, f) :: indexedProps (i + 1) fs

/-- The suffix `",omitempty"`. -/
def omitemptySuffix : Bytes := [44, 111, 109, 105, 116, 101, 109, 112, 116, 121]

/-- The panic of `Interface()` on a `reflect.Value` obtained from a field that is not
exported; nothing is written. -/
def roPanic (w : Writer) : WRes :=
  { n := 0, err := some (Error.reflectPanic "Interface on unexported field"), w := w }

/-- The fields of a `time.Time` as `WriteStruct` visits them, each name with the writer of
its value: `wall` (a `uint64`), `ext` (an `int64`) and `loc` (a `*Location`), none of them
exported. The zero time has `wall = 0`, `ext = 0` and a nil `loc`; the time of `ReadDate` has
the fields of `dateFields` and the location `Local`, a pointer that is not nil, on which
`v.Elem().Interface()` panics. -/
def timeProps : Option Nat → List (Bytes × (Writer → WRes))
  | none =>
    [([119, 97, 108, 108], fun w => WriteDouble w (float64OfNat 0)),
     ([101, 120, 116], fun w => WriteDouble w (float64OfInt 0)),
     ([108, 111, 99], WriteNull)]
  | some d =>
    [([119, 97, 108, 108], fun w => WriteDouble w (float64OfNat (dateFields d).1)),
     ([101, 120, 116], fun w => WriteDouble w (float64OfInt (dateFields d).2)),
     ([108, 111, 99], roPanic)]

/-- Source function `WriteStruct` on a `time.Time`: the loop over its three fields, from
the count `n`. -/
def WriteTimeFields (d : Option Nat) (n : Nat) (w : Writer) : WRes :=
  propsLoop WriteObjectName (fun w1 => { n := 0, err := none, w := w1 }) (timeProps d) n w

mutual
/-- Source functions `WriteValue` (`top = true`: the argument is an `interface{}`) and
`writeValue` (`top = false`: the argument is a `reflect.Value`, possibly of kind
`Interface`, possibly read-only). A value held in an `interface{}` is never read-only. -/
def writeValueAux : Bool → Value → Writer → WRes
  | top, Value.nil, w =>
    if top then WriteNull w
    else { n := 0, err := some (Error.reflectPanic "Interface on zero Value"), w := w }
  | _, Value.string s, w => WriteString w s
  | _, Value.bool b, w => WriteBoolean w b
  | _, Value.int i, w => WriteDouble w (float64OfInt i)
  | _, Value.uint u, w => WriteDouble w (float64OfNat u)
  | _, Value.float bits, w => WriteDouble w bits
  | _, Value.slice _ elems, w =>
    let r1 := WriteMarker w Amf0EcmaArrayMarker
    match r1.err with
    | some e => { n := r1.n, err := some e, w := r1.w }
    | none =>
      let length := elems.length % 2 ^ 32
      let r2 := binaryWrite r1.w 4 length
      match r2.err with
      | some e => { n := r1.n, err := some e, w := r2.w }
      | none =>
        let count := if length < 2 ^ 31 then length else 0
        propsLoop WriteObjectName WriteObjectEndMarker
          ((indexedProps 0 (writeElems elems)).take count) (r1.n + 4) r2.w
  | _, Value.array _ elems, w =>
    let r1 := WriteMarker w Amf0EcmaArrayMarker
    match r1.err with
    | some e => { n := r1.n, err := some e, w := r1.w }
    | none =>
      let length := elems.length % 2 ^ 32
      let r2 := binaryWrite r1.w 4 length
      match r2.err with
      | some e => { n := r1.n, err := some e, w := r2.w }
      | none =>
        let count := if length < 2 ^ 31 then length else 0
        propsLoop WriteObjectName WriteObjectEndMarker
          ((indexedProps 0 (writeElems elems)).take count) (r1.n + 4) r2.w
  | _, Value.map keyKind typeName isNil entries, w =>
    if keyKind ≠ "string" then
      { n := 0, err := some (Error.unsupportedType typeName), w := w }
    else if isNil then WriteNull w
    else
      let r1 := WriteObjectMarker w
      match r1.err with
      | some e => { n := r1.n, err := some e, w := r1.w }
      | none =>
        propsLoop WriteObjectName WriteObjectEndMarker
          (sortedProps (writeEntries entries)) r1.n r1.w
  | _, Value.nilPtr, w => WriteNull w
  | _, Value.ptr elem, w => writeValueAux true elem w
  | _, Value.struct fields, w =>
    let r1 := WriteObjectMarker w
    match r1.err with
    | some e => { n := r1.n, err := some e, w := r1.w }
    | none =>
      let r2 := WriteStruct fields 0 r1.w
      match r2.err with
      | some e => { n := r1.n, err := some e, w := r2.w }
      | none =>
        let r3 := WriteObjectEndMarker r2.w
        { n := r1.n + r2.n + r3.n, err := r3.err, w := r3.w }
  | _, Value.undefined, w =>
    let r1 := WriteObjectMarker w
    match r1.err with
    | some e => { n := r1.n, err := some e, w := r1.w }
    | none =>
      let r3 := WriteObjectEndMarker r1.w
      { n := r1.n + 0 + r3.n, err := r3.err, w := r3.w }
  | _, Value.time d, w =>
    let r1 := WriteObjectMarker w
    match r1.err with
    | some e => { n := r1.n, err := some e, w := r1.w }
    | none =>
      let r2 := WriteTimeFields d 0 r1.w
      match r2.err with
      | some e => { n := r1.n, err := some e, w := r2.w }
      | none =>
        let r3 := WriteObjectEndMarker r2.w
        { n := r1.n + r2.n + r3.n, err := r3.err, w := r3.w }
  | top, Value.unexported v, w =>
    if top then writeValueAux true v w else writeValueRO v w
  | top, Value.iface typeName dyn, w =>
    if top then writeValueAux true dyn w
    else
      match dyn with
      | Value.undefined => WriteUndefined w
      | Value.map "string" "Object" _ entries =>
        let r1 := WriteObjectMarker w
        match r1.err with
        | some e => { n := r1.n, err := some e, w := r1.w }
        | none =>
          propsLoop WriteObjectName WriteObjectEndMarker (writeEntries entries) r1.n r1.w
      | Value.slice "interface" elems => WriteEcmaArray w elems
      | _ => { n := 0, err := some (Error.unsupportedType typeName), w := w }
  | _, Value.other _ typeName, w =>
    { n := 0, err := some (Error.unsupportedType typeName), w := w }
/-- The writers `WriteValue(w, e)` of the elements of a slice. -/
def writeElems : List Value → List (Writer → WRes)
  | [] => []
  | v :: vs => writeValueAux true v :: writeElems vs
/-- The writers `WriteValue(w, value)` of the entries of a map, under their keys. -/
def writeEntries : List (Bytes × Value) → List (Bytes × (Writer → WRes))
  | [] => []
  | (k, v) :: es => (k, writeValueAux true v) :: writeEntries es
/-- Source function `WriteStruct`, over the fields still to visit and the count `n`, on a
struct that is not read-only. The check `value.IsNil()` of the `omitempty` branch is made on
the struct itself and panics, as `IsNil` does on a value of kind `Struct`. An embedded struct
is visited by `WriteStruct` whether its name is exported or not: the read-only flag of an
embedded field is not passed on to its fields. -/
def WriteStruct : List (Bytes × Bytes × Bool × Value) → Nat → Writer → WRes
  | [], n, w => { n := n, err := none, w := w }
  | (fieldName, tag, anonymous, value) :: rest, n, w =>
    if anonymous then
      match value with
      | Value.struct fields =>
        let r := WriteStruct fields 0 w
        match r.err with
        | some e => { n := n, err := some e, w := r.w }
        | none => WriteStruct rest (n + r.n) r.w
      | Value.undefined => WriteStruct rest n w
      | Value.time d =>
        let r := WriteTimeFields d 0 w
        match r.err with
        | some e => { n := n, err := some e, w := r.w }
        | none => WriteStruct rest (n + r.n) r.w
      | Value.unexported (Value.struct fields) =>
        let r := WriteStruct fields 0 w
        match r.err with
        | some e => { n := n, err := some e, w := r.w }
        | none => WriteStruct rest (n + r.n) r.w
      | Value.unexported Value.undefined => WriteStruct rest n w
      | Value.unexported (Value.time d) =>
        let r := WriteTimeFields d 0 w
        match r.err with
        | some e => { n := n, err := some e, w := r.w }
        | none => WriteStruct rest (n + r.n) r.w
      | _ => { n := n, err := some (Error.reflectPanic "NumField of non-struct"), w := w }
    else if tag = [45] then WriteStruct rest n w
    else if tag ≠ [] ∧ omitemptySuffix.isSuffixOf tag then
      { n := n, err := some (Error.reflectPanic "IsNil on struct Value"), w := w }
    else
      let name := if tag = [] then fieldName else tag
      let r1 := WriteObjectName w name
      match r1.err with
      | some e => { n := n, err := some e, w := r1.w }
      | none =>
        let r2 := writeValueAux false value r1.w
        match r2.err with
        | some e => { n := n + r1.n, err := some e, w := r2.w }
        | none => WriteStruct rest (n + r1.n + r2.n) r2.w
/-- Source function `writeValue` on a `reflect.Value` that is read-only: it was obtained
from a field that is not exported, or from a field of a struct that is read-only. The kind is
examined and the strings, booleans and numbers are read as usual; `Interface()` panics, so
the first element of a sequence, the first value of a map, the target of a pointer and every
value of another kind end the call once the bytes before them have been written. -/
def writeValueRO : Value → Writer → WRes
  | Value.nil, w =>
    { n := 0, err := some (Error.reflectPanic "Interface on zero Value"), w := w }
  | Value.string s, w => WriteString w s
  | Value.bool b, w => WriteBoolean w b
  | Value.int i, w => WriteDouble w (float64OfInt i)
  | Value.uint u, w => WriteDouble w (float64OfNat u)
  | Value.float bits, w => WriteDouble w bits
  | Value.slice _ elems, w =>
    let r1 := WriteMarker w Amf0EcmaArrayMarker
    match r1.err with
    | some e => { n := r1.n, err := some e, w := r1.w }
    | none =>
      let length := elems.length % 2 ^ 32
      let r2 := binaryWrite r1.w 4 length
      match r2.err with
      | some e => { n := r1.n, err := some e, w := r2.w }
      | none =>
        let count := if length < 2 ^ 31 then length else 0
        propsLoop WriteObjectName WriteObjectEndMarker
          ((indexedProps 0 (elems.map fun _ => roPanic)).take count) (r1.n + 4) r2.w
  | Value.array _ elems, w =>
    let r1 := WriteMarker w Amf0EcmaArrayMarker
    match r1.err with
    | some e => { n := r1.n, err := some e, w := r1.w }
    | none =>
      let length := elems.length % 2 ^ 32
      let r2 := binaryWrite r1.w 4 length
      match r2.err with
      | some e => { n := r1.n, err := some e, w := r2.w }
      | none =>
        let count := if length < 2 ^ 31 then length else 0
        propsLoop WriteObjectName WriteObjectEndMarker
          ((indexedProps 0 (elems.map fun _ => roPanic)).take count) (r1.n + 4) r2.w
  | Value.map keyKind typeName isNil entries, w =>
    if keyKind ≠ "string" then
      { n := 0, err := some (Error.unsupportedType typeName), w := w }
    else if isNil then WriteNull w
    else
      let r1 := WriteObjectMarker w
      match r1.err with
      | some e => { n := r1.n, err := some e, w := r1.w }
      | none =>
        propsLoop WriteObjectName WriteObjectEndMarker
          (sortedProps (entries.map fun e => (e.1, roPanic))) r1.n r1.w
  | Value.nilPtr, w => WriteNull w
  | Value.ptr _, w => roPanic w
  | Value.struct fields, w =>
    let r1 := WriteObjectMarker w
    match r1.err with
    | some e => { n := r1.n, err := some e, w := r1.w }
    | none =>
      let r2 := WriteStructRO fields 0 r1.w
      match r2.err with
      | some e => { n := r1.n, err := some e, w := r2.w }
      | none =>
        let r3 := WriteObjectEndMarker r2.w
        { n := r1.n + r2.n + r3.n, err := r3.err, w := r3.w }
  | Value.undefined, w =>
    let r1 := WriteObjectMarker w
    match r1.err with
    | some e => { n := r1.n, err := some e, w := r1.w }
    | none =>
      let r3 := WriteObjectEndMarker r1.w
      { n := r1.n + 0 + r3.n, err := r3.err, w := r3.w }
  | Value.time d, w =>
    let r1 := WriteObjectMarker w
    match r1.err with
    | some e => { n := r1.n, err := some e, w := r1.w }
    | none =>
      let r2 := WriteTimeFields d 0 r1.w
      match r2.err with
      | some e => { n := r1.n, err := some e, w := r2.w }
      | none =>
        let r3 := WriteObjectEndMarker r2.w
        { n := r1.n + r2.n + r3.n, err := r3.err, w := r3.w }
  | Value.unexported v, w => writeValueRO v w
  | Value.iface _ _, w => roPanic w
  | Value.other _ _, w => roPanic w
/-- Source function `WriteStruct` on a struct that is read-only: every field of it is
read-only, exported or not, and so is every field of a struct embedded in it. -/
def WriteStructRO : List (Bytes × Bytes × Bool × Value) → Nat → Writer → WRes
  | [], n, w => { n := n, err := none, w := w }
  | (fieldName, tag, anonymous, value) :: rest, n, w =>
    if anonymous then
      match value with
      | Value.struct fields =>
        let r := WriteStructRO fields 0 w
        match r.err with
        | some e => { n := n, err := some e, w := r.w }
        | none => WriteStructRO rest (n + r.n) r.w
      | Value.undefined => WriteStructRO rest n w
      | Value.time d =>
        let r := WriteTimeFields d 0 w
        match r.err with
        | some e => { n := n, err := some e, w := r.w }
        | none => WriteStructRO rest (n + r.n) r.w
      | Value.unexported (Value.struct fields) =>
        let r := WriteStructRO fields 0 w
        match r.err with
        | some e => { n := n, err := some e, w := r.w }
        | none => WriteStructRO rest (n + r.n) r.w
      | Value.unexported Value.undefined => WriteStructRO rest n w
      | Value.unexported (Value.time d) =>
        let r := WriteTimeFields d 0 w
        match r.err with
        | some e => { n := n, err := some e, w := r.w }
        | none => WriteStructRO rest (n + r.n) r.w
      | _ => { n := n, err := some (Error.reflectPanic "NumField of non-struct"), w := w }
    else if tag = [45] then WriteStructRO rest n w
    else if tag ≠ [] ∧ omitemptySuffix.isSuffixOf tag then
      { n := n, err := some (Error.reflectPanic "IsNil on struct Value"), w := w }
    else
      let name := if tag = [] then fieldName else tag
      let r1 := WriteObjectName w name
      match r1.err with
      | some e => { n := n, err := some e, w := r1.w }
      | none =>
        let r2 := writeValueRO value r1.w
        match r2.err with
        | some e => { n := n + r1.n, err := some e, w := r2.w }
        | none => WriteStructRO rest (n + r1.n + r2.n) r2.w
end

/-- Source function `WriteValue(w Writer, value interface{})`. -/
def WriteValue (w : Writer) (value : Value) : WRes := writeValueAux true value w

/-- Source function `writeValue(w Writer, v reflect.Value)`. -/
def writeValue (w : Writer) (v : Value) : WRes := writeValueAux false v w

/-- Source function `WriteObject(w, obj Object)`: the entries in iteration order. -/
def WriteObject (w : Writer) (obj : List (Bytes × Value)) : WRes :=
  let r1 := WriteObjectMarker w
  match r1.err with
  | some e => { n := r1.n, err := some e, w := r1.w }
  | none => propsLoop WriteObjectName WriteObjectEndMarker (writeEntries obj) r1.n r1.w

/-! ## amf3.go : write functions -/

/-- Source function `Amf3WriteUTF8`. The flagged length `uint32(length<<1) | 0x01` is a
`uint32`; when `Amf3WriteU29` fails the function returns `0, nil`. -/
def Amf3WriteUTF8 (w : Writer) (str : Bytes) : WRes :=
  let length := str.length
  if length = 0 then
    let res := w.WriteByte 0x01
    match res.err with
    | some e => { n := 0, err := some e, w := res.w }
    | none => { n := 1, err := none, w := res.w }
  else
    let u := ((length <<< 1) % 2 ^ 32) ||| 0x01
    let r1 := Amf3WriteU29 w u
    match r1.err with
    | some _ => { n := 0, err := none, w := r1.w }
    | none =>
      let r2 := r1.w.Write str
      match r2.err with
      | some e => { n := r1.n, err := some e, w := r2.w }
      | none => { n := r2.n + r1.n, err := none, w := r2.w }

/-- Source function `Amf3WriteString`. -/
def Amf3WriteString (w : Writer) (str : Bytes) : WRes :=
  let r1 := w.WriteByte Amf3StringMarker
  match r1.err with
  | some e => { n := 0, err := some e, w := r1.w }
  | none =>
    let r2 := Amf3WriteUTF8 r1.w str
    match r2.err with
    | some e => { n := 1, err := some e, w := r2.w }
    | none => { n := 1 + r2.n, err := none, w := r2.w }

/-- Source function `Amf3WriteDouble`. -/
def Amf3WriteDouble (w : Writer) (num : Nat) : WRes :=
  let r1 := w.WriteByte Amf3DoubleMarker
  match r1.err with
  | some e => { n := 0, err := some e, w := r1.w }
  | none =>
    let r2 := binaryWrite r1.w 8 num
    match r2.err with
    | some e => { n := 1, err := some e, w := r2.w }
    | none => { n := 9, err := none, w := r2.w }

/-- Source function `Amf3WriteBoolean`. -/
def Amf3WriteBoolean (w : Writer) (b : Bool) : WRes :=
  let res := if b then w.WriteByte Amf3TrueMarker else w.WriteByte Amf3FalseMarker
  match res.err with
  | some e => { n := 0, err := some e, w := res.w }
  | none => { n := 1, err := none, w := res.w }

/-- Source function `Amf3WriteNull`. -/
def Amf3WriteNull (w : Writer) : WRes :=
  let res := w.WriteByte Amf3NullMarker
  match res.err with
  | some e => { n := 0, err := some e, w := res.w }
  | none => { n := 1, err := none, w := res.w }

/-- Source function `Amf3WriteUndefined`. -/
def Amf3WriteUndefined (w : Writer) : WRes :=
  let res := w.WriteByte Amf3UndefinedMarker
  match res.err with
  | some e => { n := 0, err := some e, w := res.w }
  | none => { n := 1, err := none, w := res.w }

/-- Source function `Amf3WriteObjectMarker`. -/
def Amf3WriteObjectMarker (w : Writer) : WRes := WriteMarker w Amf3ObjectMarker

/-- Source function `Amf3WriteObjectEndMarker`. -/
def Amf3WriteObjectEndMarker (w : Writer) : WRes :=
  let res := w.WriteByte 0x01
  match res.err with
  | some e => { n := 0, err := some e, w := res.w }
  | none => { n := 1, err := none, w := res.w }

/-- Source function `Amf3WriteObjectName`. -/
def Amf3WriteObjectName (w : Writer) (name : Bytes) : WRes := Amf3WriteUTF8 w name

/-- The statements shared by `Amf3WriteObject` and the map case of `Amf3WriteValue`: the
object marker, the traits byte `0x0b`, the empty class name, the properties, the end. -/
def amf3ObjectBody (w : Writer) (props : List (Bytes × (Writer → WRes))) : WRes :=
  let r1 := Amf3WriteObjectMarker w
  match r1.err with
  | some e => { n := r1.n, err := some e, w := r1.w }
  | none =>
    let r2 := r1.w.WriteByte 0x0b
    match r2.err with
    | some e => { n := r1.n, err := some e, w := r2.w }
    | none =>
      let r3 := Amf3WriteUTF8 r2.w []
      match r3.err with
      | some e => { n := r1.n + 1, err := some e, w := r3.w }
      | none =>
        propsLoop Amf3WriteObjectName Amf3WriteObjectEndMarker props (r1.n + 1 + r3.n) r3.w

/-- The loop `for i := 0; i < length; i++` of the array case of `Amf3WriteValue`. -/
def amf3ElemsLoop : List (Writer → WRes) → Nat → Writer → WRes
  | [], n, w => { n := n, err := none, w := w }
  | f :: fs, n, w =>
    let r := f w
    match r.err with
    | some e => { n := n, err := some e, w := r.w }
    | none => amf3ElemsLoop fs (n + r.n) r.w

/-- The byte of an element of a `[]byte`. -/
def byteOf : Value → Nat
  | Value.uint u => u % 256
  | _ => 0

mutual
/-- Source function `Amf3WriteValue(w Writer, value interface{})`. The argument is an
`interface{}`, which is never read-only, and `reflect.ValueOf` does not make it addressable:
`v.Bytes()` panics on a byte array. -/
def Amf3WriteValue : Value → Writer → WRes
  | Value.nil, w => Amf3WriteNull w
  | Value.string s, w => Amf3WriteString w s
  | Value.bool b, w => Amf3WriteBoolean w b
  | Value.int i, w => Amf3WriteDouble w (float64OfInt i)
  | Value.uint u, w => Amf3WriteDouble w (float64OfNat u)
  | Value.float bits, w => Amf3WriteDouble w bits
  | Value.slice elemKind elems, w =>
    if elemKind = "uint8" then
      let r1 := WriteMarker w Amf3ByteArrayMarker
      match r1.err with
      | some e => { n := r1.n, err := some e, w := r1.w }
      | none =>
        let b := elems.map byteOf
        let u := ((b.length <<< 1) ||| 0x01) % 2 ^ 32
        let r2 := Amf3WriteU29 r1.w u
        match r2.err with
        | some e => { n := r1.n, err := some e, w := r2.w }
        | none =>
          let r3 := r2.w.Write b
          match r3.err with
          | some e => { n := r1.n + r2.n, err := some e, w := r3.w }
          | none => { n := r1.n + r2.n + r3.n, err := none, w := r3.w }
    else
      let r1 := WriteMarker w Amf3ArrayMarker
      match r1.err with
      | some e => { n := r1.n, err := some e, w := r1.w }
      | none =>
        let u := ((elems.length <<< 1) ||| 0x01) % 2 ^ 32
        let r2 := Amf3WriteU29 r1.w u
        match r2.err with
        | some e => { n := r1.n, err := some e, w := r2.w }
        | none =>
          let r3 := r2.w.WriteByte 0x01
          match r3.err with
          | some e => { n := r1.n + r2.n, err := some e, w := r3.w }
          | none => amf3ElemsLoop (amf3WriteElems elems) (r1.n + r2.n + 1) r3.w
  | Value.array elemKind elems, w =>
    if elemKind = "uint8" then
      let r1 := WriteMarker w Amf3ByteArrayMarker
      match r1.err with
      | some e => { n := r1.n, err := some e, w := r1.w }
      | none =>
        { n := r1.n, err := some (Error.reflectPanic "Bytes of unaddressable byte array"),
          w := r1.w }
    else
      let r1 := WriteMarker w Amf3ArrayMarker
      match r1.err with
      | some e => { n := r1.n, err := some e, w := r1.w }
      | none =>
        let u := ((elems.length <<< 1) ||| 0x01) % 2 ^ 32
        let r2 := Amf3WriteU29 r1.w u
        match r2.err with
        | some e => { n := r1.n, err := some e, w := r2.w }
        | none =>
          let r3 := r2.w.WriteByte 0x01
          match r3.err with
          | some e => { n := r1.n + r2.n, err := some e, w := r3.w }
          | none => amf3ElemsLoop (amf3WriteElems elems) (r1.n + r2.n + 1) r3.w
  | Value.map keyKind _ _ entries, w =>
    if keyKind ≠ "string" then
      { n := 0, err := some (Error.unsupportedType keyKind), w := w }
    else amf3ObjectBody w (sortedProps (amf3WriteEntries entries))
  | Value.undefined, w => Amf3WriteUndefined w
  | Value.nilPtr, w => { n := 0, err := some (Error.unsupportedType "ptr"), w := w }
  | Value.ptr _, w => { n := 0, err := some (Error.unsupportedType "ptr"), w := w }
  | Value.struct _, w => { n := 0, err := some (Error.unsupportedType "struct"), w := w }
  | Value.time _, w => { n := 0, err := some (Error.unsupportedType "struct"), w := w }
  | Value.iface _ dyn, w => Amf3WriteValue dyn w
  | Value.unexported v, w => Amf3WriteValue v w
  | Value.other kind _, w => { n := 0, err := some (Error.unsupportedType kind), w := w }
/-- The writers `Amf3WriteValue(w, e)` of the elements of a slice. -/
def amf3WriteElems : List Value → List (Writer → WRes)
  | [] => []
  | v :: vs => Amf3WriteValue v :: amf3WriteElems vs
/-- The writers `Amf3WriteValue(w, value)` of the entries of a map, under their keys. -/
def amf3WriteEntries : List (Bytes × Value) → List (Bytes × (Writer → WRes))
  | [] => []
  | (k, v) :: es => (k, Amf3WriteValue v) :: amf3WriteEntries es
end

/-- Source function `Amf3WriteObject(w, obj Object)`: the entries in iteration order. -/
def Amf3WriteObject (w : Writer) (obj : List (Bytes × Value)) : WRes :=
  amf3ObjectBody w (amf3WriteEntries obj)

/-! ## amf0.go and amf3.go : read functions -/

/-- Source function `ReadMarker`. -/
def ReadMarker (r : Reader) : RRes Nat := ReadByte r

/-- Source function `ReadUTF8`: the count returned by `r.Read(data)` is not examined. -/
def ReadUTF8 (r : Reader) : RRes Bytes :=
  let r1 := binaryRead r 2
  match r1.err with
  | some e => { val := [], err := some e, r := r1.r }
  | none =>
    let stringLength := fromBigEndian r1.val
    if stringLength = 0 then { val := [], err := none, r := r1.r }
    else
      let r2 := Read r1.r stringLength
      match r2.err with
      | some e => { val := [], err := some e, r := r2.r }
      | none => { val := r2.val.1, err := none, r := r2.r }

/-- Source function `ReadUTF8Long`. -/
def ReadUTF8Long (r : Reader) : RRes Bytes :=
  let r1 := binaryRead r 4
  match r1.err with
  | some e => { val := [], err := some e, r := r1.r }
  | none =>
    let stringLength := fromBigEndian r1.val
    if stringLength = 0 then { val := [], err := none, r := r1.r }
    else
      let r2 := Read r1.r stringLength
      match r2.err with
      | some e => { val := [], err := some e, r := r2.r }
      | none => { val := r2.val.1, err := none, r := r2.r }

/-- Source function `ReadString`. -/
def ReadString (r : Reader) : RRes Bytes :=
  let rm := ReadMarker r
  match rm.err with
  | some e => { val := [], err := some e, r := rm.r }
  | none =>
    if rm.val = Amf0StringMarker then ReadUTF8 rm.r
    else if rm.val = Amf0LongStringMarker then ReadUTF8Long rm.r
    else { val := [], err := some (Error.unexpectedType rm.val), r := rm.r }

/-- The statement `err = binary.Read(r, binary.BigEndian, &num)` for a float64 `num`
(zero before the call): the bit pattern read, or zero with the error. -/
def readFloat64 (r : Reader) : RRes Nat :=
  let r1 := binaryRead r 8
  match r1.err with
  | some e => { val := 0, err := some e, r := r1.r }
  | none => { val := fromBigEndian r1.val, err := none, r := r1.r }

/-- Source function `ReadDouble`. -/
def ReadDouble (r : Reader) : RRes Nat :=
  let rm := ReadMarker r
  match rm.err with
  | some e => { val := 0, err := some e, r := rm.r }
  | none =>
    if rm.val ≠ Amf0NumberMarker then
      { val := 0, err := some (Error.unexpectedType rm.val), r := rm.r }
    else readFloat64 rm.r

/-- Source function `ReadBoolean`. -/
def ReadBoolean (r : Reader) : RRes Bool :=
  let rm := ReadMarker r
  match rm.err with
  | some e => { val := false, err := some e, r := rm.r }
  | none =>
    if rm.val ≠ Amf0BooleanMarker then
      { val := false, err := some (Error.unexpectedType rm.val), r := rm.r }
    else
      let rb := ReadByte rm.r
      { val := decide (rb.val ≠ 0), err := rb.err, r := rb.r }

/-- Source function `ReadObjectName`. -/
def ReadObjectName (r : Reader) : RRes Bytes := ReadUTF8 r

/-- The text of a source error, as `%s` prints it. -/
def errorText : Error → String
  | Error.eof => "EOF"
  | Error.unexpectedEOF => "unexpected EOF"
  | _ => ""

/-- Source function `ReadDate`. The conversion of the milliseconds to a `time.Time` is
floating-point arithmetic on the float64 read; the result is recorded as `some d`, the time
computed from the bit pattern `d`, whose fields are those of `dateFields d`. The time zone is
read and not used. On an error the zero time is returned. -/
def ReadDate (r : Reader) : RRes (Option Nat) :=
  let r1 := binaryRead r 8
  match r1.err with
  | some e => { val := none, err := some (Error.readDate ("read double " ++ errorText e)),
                r := r1.r }
  | none =>
    let r2 := binaryRead r1.r 2
    match r2.err with
    | some e => { val := none, err := some (Error.readDate ("read time zone " ++ errorText e)),
                  r := r2.r }
    | none => { val := some (fromBigEndian r1.val), err := none, r := r2.r }

/-- Source function `Amf3ReadUTF8`. -/
def Amf3ReadUTF8 (r : Reader) : RRes Bytes :=
  let r1 := Amf3ReadU29 r
  match r1.err with
  | some e => { val := [], err := some e, r := r1.r }
  | none =>
    if r1.val &&& 0x01 ≠ 0x01 then
      { val := [], err := some (Error.unsupportedType "AMF3 string reference"), r := r1.r }
    else
      let length := r1.val >>> 1
      if length = 0 then { val := [], err := none, r := r1.r }
      else
        let r2 := Read r1.r length
        match r2.err with
        | some e => { val := [], err := some e, r := r2.r }
        | none => { val := r2.val.1, err := none, r := r2.r }

/-- Source function `Amf3ReadString`. -/
def Amf3ReadString (r : Reader) : RRes Bytes :=
  let rm := ReadMarker r
  match rm.err with
  | some e => { val := [], err := some e, r := rm.r }
  | none =>
    if rm.val ≠ Amf3StringMarker then
      { val := [], err := some (Error.unexpectedType rm.val), r := rm.r }
    else Amf3ReadUTF8 rm.r

/-- Source function `Amf3ReadInteger`. -/
def Amf3ReadInteger (r : Reader) : RRes Nat :=
  let rm := ReadMarker r
  match rm.err with
  | some e => { val := 0, err := some e, r := rm.r }
  | none =>
    if rm.val ≠ Amf3IntegerMarker then
      { val := 0, err := some (Error.unexpectedType rm.val), r := rm.r }
    else Amf3ReadU29 rm.r

/-- Source function `Amf3ReadDouble`. -/
def Amf3ReadDouble (r : Reader) : RRes Nat :=
  let rm := ReadMarker r
  match rm.err with
  | some e => { val := 0, err := some e, r := rm.r }
  | none =>
    if rm.val ≠ Amf3DoubleMarker then
      { val := 0, err := some (Error.unexpectedType rm.val), r := rm.r }
    else readFloat64 rm.r

/-- Source function `Amf3ReadObjectName`. -/
def Amf3ReadObjectName (r : Reader) : RRes Bytes := Amf3ReadUTF8 r

/-- Source function `Amf3readByteArray`; `none` is the nil slice. -/
def Amf3readByteArray (r : Reader) : RRes (Option Bytes) :=
  let r1 := Amf3ReadU29 r
  match r1.err with
  | some e => { val := none, err := some e, r := r1.r }
  | none =>
    if r1.val &&& 0x01 ≠ 0x01 then
      { val := none, err := some (Error.unsupportedType "AMF3 byte array reference"),
        r := r1.r }
    else
      let length := r1.val >>> 1
      let r2 := Read r1.r length
      match r2.err with
      | some e => { val := none, err := some e, r := r2.r }
      | none =>
        if r2.val.2 ≠ length then
          { val := none,
            err := some (Error.length
              ("expect " ++ toString length ++ ", got " ++ toString r2.val.2)),
            r := r2.r }
        else { val := some r2.val.1, err := none, r := r2.r }

/-- Source function `Amf3ReadByteArray`. -/
def Amf3ReadByteArray (r : Reader) : RRes (Option Bytes) :=
  let rm := ReadMarker r
  match rm.err with
  | some e => { val := none, err := some e, r := rm.r }
  | none =>
    if rm.val ≠ Amf3ByteArrayMarker then
      { val := none, err := some (Error.unexpectedType rm.val), r := rm.r }
    else Amf3readByteArray rm.r

/-- An `Object` result as a value: `none` is the nil map. -/
def objectValue : Option (List (Bytes × Value)) → Value
  | none => Value.nilObject
  | some entries => Value.object entries

/-- A `[]byte` result as a value: `none` is the nil slice. -/
def bytesValue : Option Bytes → Value
  | none => Value.slice "uint8" []
  | some b => Value.slice "uint8" (b.map Value.uint)

/-- The first statements of `Amf3ReadObjectProperty`: the traits byte and the empty class
name. -/
def amf3ReadTraits (r : Reader) : RRes Unit :=
  let r1 := ReadByte r
  match r1.err with
  | some e => { val := (), err := some e, r := r1.r }
  | none =>
    if r1.val ≠ 0x0b then
      { val := (), err := some (Error.unsupportedType "traits object"), r := r1.r }
    else
      let r2 := ReadByte r1.r
      match r2.err with
      | some e => { val := (), err := some e, r := r2.r }
      | none =>
        if r2.val ≠ 0x01 then
          { val := (), err := some (Error.unsupportedType "traits object"), r := r2.r }
        else { val := (), err := none, r := r2.r }

/-- The text `string(marker)` and the text `fmt.Sprintf("%x", marker)`. -/
def markerText (marker : Nat) : String := String.singleton (Char.ofNat marker)

/-- The text `fmt.Sprintf("%x", marker)`. -/
def markerHex (marker : Nat) : String := String.mk (Nat.toDigits 16 marker)

/-- The machine the program runs on, as far as the readers depend on it: `heap` is the
number of bytes the Go runtime can obtain for one slice. `make` aborts the program when it is
asked for more. The slices of the string readers are at most `2 ^ 32` bytes long and are
taken to fit; the slice of `ReadStrictArray` has `arrayCount` elements of 16 bytes each (an
`interface{}` is two words), up to 64 GiB for a count read from four bytes of input. -/
class Machine where
  heap : Nat

/-- A machine on which one slice can take up to 8 GiB; statements about one concrete input
are evaluated on it. -/
instance Machine.eightGiB : Machine := { heap := 2 ^ 33 }

mutual
/-- Source function `ReadValue`, with a bound on the depth of calls: `none` means the
bound was reached. In the case of the StrictArray marker the first statements of
`ReadStrictArray` are carried out: the count is read, a zero count returns the nil slice, and
`make([]interface{}, arrayCount)` allocates the slice before any element is read. -/
def ReadValueFuel [Machine] : Nat → Reader → Option (RRes Value)
  | 0, _ => none
  | fuel + 1, r =>
    let rm := ReadMarker r
    match rm.err with
    | some e => some { val := Value.nil, err := some e, r := rm.r }
    | none =>
      let marker := rm.val
      if marker = Amf0NumberMarker then
        let rn := readFloat64 rm.r
        some { val := Value.float rn.val, err := rn.err, r := rn.r }
      else if marker = Amf0BooleanMarker then
        let rb := ReadByte rm.r
        match rb.err with
        | some e => some { val := Value.nil, err := some e, r := rb.r }
        | none => some { val := Value.bool (decide (rb.val ≠ 0)), err := none, r := rb.r }
      else if marker = Amf0StringMarker then
        let rs := ReadUTF8 rm.r
        some { val := Value.string rs.val, err := rs.err, r := rs.r }
      else if marker = Amf0ObjectMarker then
        match ReadObjectPropertyFuel fuel [] rm.r with
        | none => none
        | some ro => some { val := objectValue ro.val, err := ro.err, r := ro.r }
      else if marker = Amf0MovieclipMarker then
        some { val := Value.nil, err := some (Error.unsupportedType "Movieclip"), r := rm.r }
      else if marker = Amf0NullMarker then
        some { val := Value.nil, err := none, r := rm.r }
      else if marker = Amf0UndefinedMarker then
        some { val := Value.undefined, err := none, r := rm.r }
      else if marker = Amf0EcmaArrayMarker then
        let ra := Read rm.r 4
        match ra.err with
        | some e => some { val := Value.nil, err := some e, r := ra.r }
        | none =>
          match ReadObjectPropertyFuel fuel [] ra.r with
          | none => none
          | some ro =>
            match ro.err with
            | some e => some { val := Value.nil, err := some e, r := ro.r }
            | none => some { val := objectValue ro.val, err := none, r := ro.r }
      else if marker = Amf0ObjectEndMarker then
        some { val := Value.nil, err := some (Error.unexpectedType marker), r := rm.r }
      else if marker = Amf0StrictArrayMarker then
        let rc := binaryRead rm.r 4
        match rc.err with
        | some e => some { val := Value.slice "interface" [], err := some e, r := rc.r }
        | none =>
          let arrayCount := fromBigEndian rc.val
          if arrayCount = 0 then
            some { val := Value.slice "interface" [], err := none, r := rc.r }
          else if Machine.heap < 16 * arrayCount then
            some { val := Value.slice "interface" [], err := some Error.outOfMemory, r := rc.r }
          else ReadStrictArrayLoop fuel arrayCount [] rc.r
      else if marker = Amf0DateMarker then
        let rd := ReadDate rm.r
        some { val := Value.time rd.val, err := rd.err, r := rd.r }
      else if marker = Amf0LongStringMarker then
        let rs := ReadUTF8Long rm.r
        some { val := Value.string rs.val, err := rs.err, r := rs.r }
      else if marker = Amf0UnsupportedMarker then
        some { val := Value.nil, err := some (Error.unexpectedType marker), r := rm.r }
      else if marker = Amf0RecordsetMarker then
        some { val := Value.nil, err := some (Error.unexpectedType marker), r := rm.r }
      else if marker = Amf0XMLDocumentMarker then
        some { val := Value.nil, err := some (Error.unexpectedType marker), r := rm.r }
      else if marker = Amf0TypedObjectMarker then
        some { val := Value.nil, err := some (Error.unexpectedType marker), r := rm.r }
      else if marker = Amf0AvmplusObjectMarker then
        Amf3ReadValueFuel fuel rm.r
      else
        some { val := Value.nil, err := some (Error.unsupportedType (markerText marker)),
               r := rm.r }
/-- Source function `ReadObjectProperty`: the loop `for`, with the object built so far
(entries in the order read); `none` as value is the nil `Object`. -/
def ReadObjectPropertyFuel [Machine] :
    Nat → List (Bytes × Value) → Reader → Option (RRes (Option (List (Bytes × Value))))
  | 0, _, _ => none
  | fuel + 1, obj, r =>
    let rn := ReadUTF8 r
    match rn.err with
    | some e => some { val := none, err := some e, r := rn.r }
    | none =>
      let name := rn.val
      if name = [] then
        let rb := ReadByte rn.r
        match rb.err with
        | some e => some { val := none, err := some e, r := rb.r }
        | none =>
          if rb.val = Amf0ObjectEndMarker then some { val := some obj, err := none, r := rb.r }
          else some { val := none, err := some (Error.expectedType rb.val), r := rb.r }
      else if (mapIndex name obj).isSome then
        some { val := none, err := some (Error.propertyExist name), r := rn.r }
      else
        match ReadValueFuel fuel rn.r with
        | none => none
        | some rv =>
          match rv.err with
          | some e => some { val := none, err := some e, r := rv.r }
          | none => ReadObjectPropertyFuel fuel (obj ++ [(name, rv.val)]) rv.r
/-- The loop `for i := uint32(0); i < arrayCount; i++` of `ReadStrictArray`, with the
number of elements still to read and the elements read so far. The slice has been allocated
before the loop, in the case of the StrictArray marker of `ReadValueFuel`. -/
def ReadStrictArrayLoop [Machine] : Nat → Nat → List Value → Reader → Option (RRes Value)
  | 0, _, _, _ => none
  | fuel + 1, todo, arr, r =>
    if todo = 0 then some { val := Value.slice "interface" arr, err := none, r := r }
    else
      match ReadValueFuel fuel r with
      | none => none
      | some rv =>
        match rv.err with
        | some e => some { val := Value.slice "interface" [], err := some e, r := rv.r }
        | none => ReadStrictArrayLoop fuel (todo - 1) (arr ++ [rv.val]) rv.r
/-- Source function `Amf3ReadValue`, with a bound on the depth of calls. -/
def Amf3ReadValueFuel : Nat → Reader → Option (RRes Value)
  | 0, _ => none
  | fuel + 1, r =>
    let rm := ReadMarker r
    match rm.err with
    | some e => some { val := Value.int 0, err := some e, r := rm.r }
    | none =>
      let marker := rm.val
      if marker = Amf3UndefinedMarker then
        some { val := Value.undefined, err := none, r := rm.r }
      else if marker = Amf3NullMarker then
        some { val := Value.nil, err := none, r := rm.r }
      else if marker = Amf3FalseMarker then
        some { val := Value.bool false, err := none, r := rm.r }
      else if marker = Amf3TrueMarker then
        some { val := Value.bool true, err := none, r := rm.r }
      else if marker = Amf3IntegerMarker then
        let ru := Amf3ReadU29 rm.r
        some { val := Value.uint ru.val, err := ru.err, r := ru.r }
      else if marker = Amf3DoubleMarker then
        let rn := readFloat64 rm.r
        some { val := Value.float rn.val, err := rn.err, r := rn.r }
      else if marker = Amf3StringMarker then
        let rs := Amf3ReadUTF8 rm.r
        some { val := Value.string rs.val, err := rs.err, r := rs.r }
      else if marker = Amf3ArrayMarker then
        some { val := Value.nil, err := some (Error.unsupportedType (markerHex marker)),
               r := rm.r }
      else if marker = Amf3ObjectMarker then
        match Amf3ReadObjectPropertyFuel fuel rm.r with
        | none => none
        | some ro => some { val := objectValue ro.val, err := ro.err, r := ro.r }
      else if marker = Amf3ByteArrayMarker then
        let rb := Amf3readByteArray rm.r
        some { val := bytesValue rb.val, err := rb.err, r := rb.r }
      else
        some { val := Value.nil, err := some (Error.unsupportedType (markerHex marker)),
               r := rm.r }
/-- Source function `Amf3ReadObjectProperty`: the traits byte and the class name, then the
loop. -/
def Amf3ReadObjectPropertyFuel :
    Nat → Reader → Option (RRes (Option (List (Bytes × Value))))
  | 0, _ => none
  | fuel + 1, r =>
    let rt := amf3ReadTraits r
    match rt.err with
    | some e => some { val := none, err := some e, r := rt.r }
    | none => Amf3ReadObjectPropertyLoop fuel [] rt.r
/-- The loop `for` of `Amf3ReadObjectProperty`, with the object built so far. -/
def Amf3ReadObjectPropertyLoop :
    Nat → List (Bytes × Value) → Reader → Option (RRes (Option (List (Bytes × Value))))
  | 0, _, _ => none
  | fuel + 1, obj, r =>
    let rn := Amf3ReadObjectName r
    match rn.err with
    | some e => some { val := none, err := some e, r := rn.r }
    | none =>
      let name := rn.val
      if name = [] then some { val := some obj, err := none, r := rn.r }
      else if (mapIndex name obj).isSome then
        some { val := none, err := some (Error.propertyExist name), r := rn.r }
      else
        match Amf3ReadValueFuel fuel rn.r with
        | none => none
        | some rv =>
          match rv.err with
          | some e => some { val := none, err := some e, r := rv.r }
          | none => Amf3ReadObjectPropertyLoop fuel (obj ++ [(name, rv.val)]) rv.r
end

/-- Source function `ReadValue` on an in-memory source. Every call of the functions above
consumes input before it calls another, so a depth of one more than the number of bytes is
never reached. -/
def ReadValue [Machine] (r : Reader) : Option (RRes Value) := ReadValueFuel (r.length + 1) r

/-- Source function `ReadObjectProperty` on an in-memory source. -/
def ReadObjectProperty [Machine] (r : Reader) : Option (RRes (Option (List (Bytes × Value)))) :=
  ReadObjectPropertyFuel (r.length + 1) [] r

/-- Source function `ReadObject` on an in-memory source. -/
def ReadObject [Machine] (r : Reader) : Option (RRes (Option (List (Bytes × Value)))) :=
  let rm := ReadMarker r
  match rm.err with
  | some e => some { val := none, err := some e, r := rm.r }
  | none =>
    if rm.val ≠ Amf0ObjectMarker then
      some { val := none, err := some (Error.unexpectedType rm.val), r := rm.r }
    else ReadObjectProperty rm.r

/-- Source function `Amf3ReadValue` on an in-memory source. -/
def Amf3ReadValue (r : Reader) : Option (RRes Value) := Amf3ReadValueFuel (r.length + 1) r

/-- Source function `Amf3ReadObjectProperty` on an in-memory source. -/
def Amf3ReadObjectProperty (r : Reader) : Option (RRes (Option (List (Bytes × Value)))) :=
  Amf3ReadObjectPropertyFuel (r.length + 2) r

/-- Source function `Amf3ReadObject` on an in-memory source. -/
def Amf3ReadObject (r : Reader) : Option (RRes (Option (List (Bytes × Value)))) :=
  let rm := ReadMarker r
  match rm.err with
  | some e => some { val := none, err := some e, r := rm.r }
  | none =>
    if rm.val ≠ Amf3ObjectMarker then
      some { val := none, err := some (Error.unexpectedType rm.val), r := rm.r }
    else Amf3ReadObjectProperty rm.r

/-! ## Auxiliary definitions for the statements -/

/-- The bytes `Amf3WriteU29` hands to the sink for `n`. -/
def u29Bytes (n : Nat) : Bytes := (Amf3WriteU29 Writer.empty n).w.buf

/-- The bytes `WriteString` hands to a sink that does not fail for the text `t`. -/
def stringBytes (t : Bytes) : Bytes := (WriteString Writer.empty t).w.buf

/-- The order of two map entries by key. -/
def entryLE (a b : Bytes × Value) : Prop := strLE a.1 b.1

instance : DecidableRel entryLE := fun a b => inferInstanceAs (Decidable (strLE a.1 b.1))

/-- The entries of a map listed in ascending order of key. -/
def sortedEntries (entries : List (Bytes × Value)) : List (Bytes × Value) :=
  entries.insertionSort entryLE

/-- The bytes `WriteValue` hands to a sink that does not fail for the value `v`. -/
def amf0Bytes (v : Value) : Bytes := (WriteValue Writer.empty v).w.buf

/-- A write function that, on every sink that does not fail, succeeds and appends exactly
the bytes `bs`. -/
def Appends (f : Writer → WRes) (bs : Bytes) : Prop :=
  ∀ w : Writer, w.cap = none → (f w).err = none ∧ (f w).w = { buf := w.buf ++ bs, cap := none }

mutual
/-- The value `v` with the entries of every map in it listed in ascending order of key. A
Go map has no order of its own: `canon v` is the same value as `v`. -/
def Value.canon : Value → Value
  | Value.map keyKind typeName isNil entries =>
    Value.map keyKind typeName isNil (sortedEntries (canonEntries entries))
  | Value.slice elemKind elems => Value.slice elemKind (canonElems elems)
  | Value.array elemKind elems => Value.array elemKind (canonElems elems)
  | Value.ptr elem => Value.ptr (Value.canon elem)
  | Value.struct fields => Value.struct (canonFields fields)
  | Value.iface typeName dyn => Value.iface typeName (Value.canon dyn)
  | Value.unexported v => Value.unexported (Value.canon v)
  | Value.nil => Value.nil
  | Value.undefined => Value.undefined
  | Value.bool b => Value.bool b
  | Value.int i => Value.int i
  | Value.uint u => Value.uint u
  | Value.float bits => Value.float bits
  | Value.string s => Value.string s
  | Value.nilPtr => Value.nilPtr
  | Value.time d => Value.time d
  | Value.other kind typeName => Value.other kind typeName
/-- The entries with every value in canonical listing. -/
def canonEntries : List (Bytes × Value) → List (Bytes × Value)
  | [] => []
  | (k, v) :: es => (k, Value.canon v) :: canonEntries es
/-- The elements in canonical listing. -/
def canonElems : List Value → List Value
  | [] => []
  | v :: vs => Value.canon v :: canonElems vs
/-- The fields with every value in canonical listing. -/
def canonFields : List (Bytes × Bytes × Bool × Value) → List (Bytes × Bytes × Bool × Value)
  | [] => []
  | (name, tag, anonymous, v) :: fs => (name, tag, anonymous, Value.canon v) :: canonFields fs
end

/-- Equality of Go values: the least equivalence that ignores the order in which the
entries of a map are listed, at any depth (the same keys with the same values). -/
inductive Value.Same : Value → Value → Prop where
  | refl (v : Value) : Value.Same v v
  | trans {a b c : Value} : Value.Same a b → Value.Same b c → Value.Same a c
  | perm (keyKind typeName : String) (isNil : Bool) {es es1 : List (Bytes × Value)} :
      es.Perm es1 → Value.Same (Value.map keyKind typeName isNil es)
        (Value.map keyKind typeName isNil es1)
  | entry (keyKind typeName : String) (isNil : Bool) (pre post : List (Bytes × Value))
      (k : Bytes) {v v1 : Value} :
      Value.Same v v1 →
      Value.Same (Value.map keyKind typeName isNil (pre ++ (k, v) :: post))
        (Value.map keyKind typeName isNil (pre ++ (k, v1) :: post))

/-- The values of the AMF0 round trip: Null, Boolean, Number (a float64 bit pattern), String
(shorter than `2 ^ 32` bytes) and Objects, arbitrarily nested, whose property names are
pairwise distinct, non-empty and at most `0xFFFF` bytes long. -/
inductive Amf0Plain : Value → Prop where
  | null : Amf0Plain Value.nil
  | boolean (b : Bool) : Amf0Plain (Value.bool b)
  | number (bits : Nat) : bits < 2 ^ 64 → Amf0Plain (Value.float bits)
  | string (s : Bytes) : s.length < 2 ^ 32 → Amf0Plain (Value.string s)
  | object (entries : List (Bytes × Value)) :
      (entries.map Prod.fst).Nodup →
      (∀ e ∈ entries, e.1 ≠ [] ∧ e.1.length ≤ 0xFFFF) →
      (∀ e ∈ entries, Amf0Plain e.2) →
      Amf0Plain (Value.object entries)

/-- The bytes of the properties of an object and its terminator, as `WriteValue` emits them
for the entries in the order listed. -/
def amf0PropsBytes : List (Bytes × Value) → Bytes
  | [] => [0x00, 0x00, 0x09]
  | (k, v) :: es => bigEndian 2 (k.length % 2 ^ 16) ++ k ++ amf0Bytes v ++ amf0PropsBytes es

/-- The state of `ReadObjectProperty` on the AMF0 property stream `r`: the decoder has read,
one after another and each without error, the properties `obj` (each a non-empty name not
read before, followed by a value), and the bytes `r1` remain. -/
inductive Amf0Decoded [Machine] : List (Bytes × Value) → Reader → Reader → Prop where
  | start (r : Reader) : Amf0Decoded [] r r
  | property {obj : List (Bytes × Value)} {r r1 r2 r3 : Reader} {name : Bytes} {v : Value} :
      Amf0Decoded obj r r1 →
      ReadUTF8 r1 = { val := name, err := none, r := r2 } →
      name ≠ [] →
      mapIndex name obj = none →
      ReadValue r2 = some { val := v, err := none, r := r3 } →
      Amf0Decoded (obj ++ [(name, v)]) r r3

/-- The state of the loop of `Amf3ReadObjectProperty` on the AMF3 property stream `r` (the
bytes after the traits byte and the class name): the properties `obj` have been read without
error and the bytes `r1` remain. -/
inductive Amf3Decoded : List (Bytes × Value) → Reader → Reader → Prop where
  | start (r : Reader) : Amf3Decoded [] r r
  | property {obj : List (Bytes × Value)} {r r1 r2 r3 : Reader} {name : Bytes} {v : Value} :
      Amf3Decoded obj r r1 →
      Amf3ReadObjectName r1 = { val := name, err := none, r := r2 } →
      name ≠ [] →
      mapIndex name obj = none →
      Amf3ReadValue r2 = some { val := v, err := none, r := r3 } →
      Amf3Decoded (obj ++ [(name, v)]) r r3

/-- The bytes `Amf3WriteValue` hands to a sink that does not fail for the value `v`. -/
def amf3Bytes (v : Value) : Bytes := (Amf3WriteValue v Writer.empty).w.buf

/-- The values of the AMF3 round trip: Null, Undefined, Boolean, Number (a float64 bit
pattern), String (shorter than `2 ^ 28` bytes) and Objects, arbitrarily nested, whose
property names are pairwise distinct, non-empty and shorter than `2 ^ 28` bytes. -/
inductive Amf3Plain : Value → Prop where
  | null : Amf3Plain Value.nil
  | undefined : Amf3Plain Value.undefined
  | boolean (b : Bool) : Amf3Plain (Value.bool b)
  | number (bits : Nat) : bits < 2 ^ 64 → Amf3Plain (Value.float bits)
  | string (s : Bytes) : s.length < 2 ^ 28 → Amf3Plain (Value.string s)
  | object (entries : List (Bytes × Value)) :
      (entries.map Prod.fst).Nodup →
      (∀ e ∈ entries, e.1 ≠ [] ∧ e.1.length < 2 ^ 28) →
      (∀ e ∈ entries, Amf3Plain e.2) →
      Amf3Plain (Value.object entries)

/-- The (name, value) pairs of an object followed by the terminator byte `0x01`, as
`Amf3WriteValue` emits them for the entries in the order listed: each name is the U29 of its
flagged length and its bytes. -/
def amf3PropsBytes : List (Bytes × Value) → Bytes
  | [] => [0x01]
  | (k, v) :: es => u29Bytes (2 * k.length + 1) ++ k ++ amf3Bytes v ++ amf3PropsBytes es

/-- The (name, value) pairs of an EcmaArray followed by the terminator, as `WriteValue` emits
them for the elements listed, the first of them at index `i`: each name is the decimal text
of the index, preceded by its length as a 2-byte big-endian integer and without a marker;
each value is its own encoding. -/
def amf0IndexedBytes : Nat → List Value → Bytes
  | _, [] => [0x00, 0x00, 0x09]
  | i, e :: es =>
    bigEndian 2 (decimal i).length ++ decimal i ++ amf0Bytes e ++ amf0IndexedBytes (i + 1) es

/-- A write function that treats all sinks that do not fail alike: whatever the sink
already holds, it returns the same count and the same error and appends the same bytes. -/
def Uniform (f : Writer → WRes) : Prop :=
  ∃ (n : Nat) (e : Option Error) (bs : Bytes), ∀ w : Writer, w.cap = none →
    f w = { n := n, err := e, w := { buf := w.buf ++ bs, cap := none } }

/-- The bytes `Amf3WriteObjectName` hands to a sink that does not fail for the name `s`. -/
def amf3NameBytes (s : Bytes) : Bytes := (Amf3WriteObjectName Writer.empty s).w.buf

/-- The (name, value) pairs of an object followed by the terminator byte `0x01`, as
`Amf3WriteValue` emits them for the entries in the order listed, for names of any length. -/
def amf3EntriesBytes : List (Bytes × Value) → Bytes
  | [] => [0x01]
  | (k, v) :: es => amf3NameBytes k ++ amf3Bytes v ++ amf3EntriesBytes es

/-- The bytes that the property loop of `WriteValue` hands to a sink that does not fail, for
the entries visited in the order listed: for each entry the name (its length modulo `2 ^ 16`
as a 2-byte big-endian integer, then its bytes) and the bytes written for the value; the loop
ends at the first value whose write fails, and with the terminator `00 00 09` when none
fails. -/
def amf0WrittenProps : List (Bytes × Value) → Bytes
  | [] => [0x00, 0x00, 0x09]
  | (k, v) :: es =>
    bigEndian 2 (k.length % 2 ^ 16) ++ k ++ amf0Bytes v ++
      (if (WriteValue Writer.empty v).err = none then amf0WrittenProps es else [])

/-- The bytes that the property loop of `Amf3WriteValue` hands to a sink that does not fail,
for the entries visited in the order listed: for each entry the name as `Amf3WriteObjectName`
writes it and the bytes written for the value; the loop ends at the first value whose write
fails, and with the terminator `01` when none fails. -/
def amf3WrittenProps : List (Bytes × Value) → Bytes
  | [] => [0x01]
  | (k, v) :: es =>
    amf3NameBytes k ++ amf3Bytes v ++
      (if (Amf3WriteValue v Writer.empty).err = none then amf3WrittenProps es else [])

mutual
/-- Every map in the value, at any depth, has pairwise distinct keys, as every Go map
has. -/
def Value.DistinctKeys : Value → Prop
  | Value.map _ _ _ entries => (entries.map Prod.fst).Nodup ∧ distinctKeysEntries entries
  | Value.slice _ elems => distinctKeysElems elems
  | Value.array _ elems => distinctKeysElems elems
  | Value.ptr elem => Value.DistinctKeys elem
  | Value.struct fields => distinctKeysFields fields
  | Value.iface _ dyn => Value.DistinctKeys dyn
  | Value.unexported v => Value.DistinctKeys v
  | Value.nil => True
  | Value.undefined => True
  | Value.bool _ => True
  | Value.int _ => True
  | Value.uint _ => True
  | Value.float _ => True
  | Value.string _ => True
  | Value.nilPtr => True
  | Value.time _ => True
  | Value.other _ _ => True
/-- The values of the entries have distinct keys at any depth. -/
def distinctKeysEntries : List (Bytes × Value) → Prop
  | [] => True
  | (_, v) :: es => Value.DistinctKeys v ∧ distinctKeysEntries es
/-- The elements have distinct keys at any depth. -/
def distinctKeysElems : List Value → Prop
  | [] => True
  | v :: vs => Value.DistinctKeys v ∧ distinctKeysElems vs
/-- The values of the fields have distinct keys at any depth. -/
def distinctKeysFields : List (Bytes × Bytes × Bool × Value) → Prop
  | [] => True
  | (_, _, _, v) :: fs => Value.DistinctKeys v ∧ distinctKeysFields fs
end

/-! # Theorems -/

/-! ## Sinks that do not fail -/

theorem WriteByte_unbounded (w : Writer) (c : Nat) (hw : w.cap = none) :
    w.WriteByte c = { n := 1, err := none, w := { buf := w.buf ++ [c], cap := none } } := by
  cases w with
  | mk buf cap => simp only at hw; subst hw; rfl

theorem Write_unbounded (w : Writer) (p : Bytes) (hw : w.cap = none) :
    w.Write p = { n := p.length, err := none, w := { buf := w.buf ++ p, cap := none } } := by
  cases w with
  | mk buf cap => simp only at hw; subst hw; rfl

/-! ## U29 -/

theorem bit7_facts : ∀ y < 128,
    y &&& 0x80 = 0 ∧ (y + 128) &&& 0x80 ≠ 0 ∧ y &&& 0x7f = y ∧ (y + 128) &&& 0x7f = y ∧
    y ||| 0x80 = y + 128 ∧ y.testBit 7 = false ∧ (y + 128).testBit 7 = true := by
  decide

theorem and_7F (x : Nat) : x &&& 0x7F = x % 128 := Nat.and_pow_two_sub_one_eq_mod x 7

theorem and_FF (x : Nat) : x &&& 0xFF = x % 256 := Nat.and_pow_two_sub_one_eq_mod x 8

theorem or_80 (y : Nat) (h : y < 128) : y ||| 0x80 = y + 128 := (bit7_facts y h).2.2.2.2.1

theorem readU29_stop (k acc y : Nat) (r : Reader) (hy : y < 128) :
    Amf3ReadU29.loop (k + 1) acc (y :: r) =
      { val := (acc * 128 % 2 ^ 32 + y) % 2 ^ 32, err := none, r := r } := by
  obtain ⟨h1, -, h3, -⟩ := bit7_facts y hy
  simp only [Amf3ReadU29.loop, ReadByte, h1, h3, Nat.shiftLeft_eq]
  rfl

theorem readU29_cont (k acc y : Nat) (r : Reader) (hy : y < 128) :
    Amf3ReadU29.loop (k + 1) acc ((y + 128) :: r) =
      Amf3ReadU29.loop k ((acc * 128 % 2 ^ 32 + y) % 2 ^ 32) r := by
  obtain ⟨-, h2, -, h4, -⟩ := bit7_facts y hy
  simp only [Amf3ReadU29.loop, ReadByte, h2, h4, Nat.shiftLeft_eq]
  rfl

theorem readU29_last (acc b : Nat) (r : Reader) :
    Amf3ReadU29.loop 0 acc (b :: r) =
      { val := (acc * 256 % 2 ^ 32 + b) % 2 ^ 32, err := none, r := r } := by
  simp only [Amf3ReadU29.loop, ReadByte, Nat.shiftLeft_eq]

/-- The bytes of `u29Bytes` in arithmetic form. -/
theorem u29Bytes_eq (n : Nat) (hn : n ≤ 0x3FFFFFFF) :
    u29Bytes n =
      if n ≤ 0x7F then [n]
      else if n ≤ 0x3FFF then [n / 128 + 128, n % 128]
      else if n ≤ 0x1FFFFF then [n / 16384 + 128, n / 128 % 128 + 128, n % 128]
      else [(n / 4194304 ||| 0x80) % 256, n / 32768 % 128 + 128, n / 256 % 128 + 128, n % 256] := by
  unfold u29Bytes Amf3WriteU29
  simp only [Nat.shiftRight_eq_div_pow, and_7F, and_FF]
  by_cases h1 : n ≤ 0x7F
  · simp only [h1, if_true]
    have : n % 256 = n := by omega
    simp [Writer.WriteByte, Writer.empty, this]
  · by_cases h2 : n ≤ 0x3FFF
    · simp only [h1, h2, if_true, if_false]
      rw [or_80 (n / 2 ^ 7) (by omega)]
      simp only [Writer.Write, Writer.empty, List.nil_append]
      congr 1
      · omega
      · congr 1; omega
    · by_cases h3 : n ≤ 0x1FFFFF
      · simp only [h1, h2, h3, if_true, if_false]
        rw [or_80 (n / 2 ^ 14) (by omega), or_80 (n / 2 ^ 7 % 128) (by omega)]
        simp only [Writer.Write, Writer.empty, List.nil_append]
        congr 1
        · omega
        · congr 1
          · omega
          · congr 1; omega
      · simp only [h1, h2, h3, hn, if_true, if_false]
        rw [or_80 (n / 2 ^ 15 % 128) (by omega), or_80 (n / 2 ^ 8 % 128) (by omega)]
        simp only [Writer.Write, Writer.empty, List.nil_append]
        congr 1
        congr 1
        · omega
        · congr 1
          · omega
          · congr 1; omega

theorem Amf3WriteU29_unbounded (w : Writer) (n : Nat) (hw : w.cap = none)
    (hn : n ≤ 0x3FFFFFFF) :
    Amf3WriteU29 w n =
      { n := (u29Bytes n).length, err := none,
        w := { buf := w.buf ++ u29Bytes n, cap := none } } := by
  unfold u29Bytes Amf3WriteU29
  by_cases h1 : n ≤ 0x7F
  · simp [h1, WriteByte_unbounded, hw, Writer.empty]
  · by_cases h2 : n ≤ 0x3FFF
    · simp [h1, h2, Write_unbounded, hw, Writer.empty]
    · by_cases h3 : n ≤ 0x1FFFFF
      · simp [h1, h2, h3, Write_unbounded, hw, Writer.empty]
      · simp [h1, h2, h3, hn, Write_unbounded, hw, Writer.empty]

theorem Amf3ReadU29_u29Bytes (n : Nat) (rest : Bytes) (hn : n ≤ 0x1FFFFFFF) :
    Amf3ReadU29 (u29Bytes n ++ rest) = { val := n, err := none, r := rest } := by
  rw [u29Bytes_eq n (by omega)]
  unfold Amf3ReadU29
  by_cases h1 : n ≤ 0x7F
  · simp only [h1, if_true, List.cons_append, List.nil_append]
    rw [readU29_stop _ _ _ _ (by omega)]
    congr 1
    omega
  · by_cases h2 : n ≤ 0x3FFF
    · simp only [h1, h2, if_true, if_false, List.cons_append, List.nil_append]
      rw [readU29_cont _ _ _ _ (by omega), readU29_stop _ _ _ _ (by omega)]
      congr 1
      omega
    · by_cases h3 : n ≤ 0x1FFFFF
      · simp only [h1, h2, h3, if_true, if_false, List.cons_append, List.nil_append]
        rw [readU29_cont _ _ _ _ (by omega), readU29_cont _ _ _ _ (by omega),
          readU29_stop _ _ _ _ (by omega)]
        congr 1
        omega
      · simp only [h1, h2, h3, if_true, if_false, List.cons_append, List.nil_append]
        rw [or_80 (n / 4194304) (by omega)]
        have h4 : (n / 4194304 + 128) % 256 = n / 4194304 + 128 := by omega
        rw [h4, readU29_cont _ _ _ _ (by omega), readU29_cont _ _ _ _ (by omega),
          readU29_cont _ _ _ _ (by omega), readU29_last]
        congr 1
        omega

set_option maxRecDepth 8000 in
theorem high_byte_bit7 : ∀ x < 256, ((x ||| 0x80) % 256).testBit 7 = true := by
  decide

/-! ## C1, C5, C6 : the U29 integer -/

/-- C1 (as amended): for every n with 0 <= n <= 0x1FFFFFFF, Amf3WriteU29 on a sink that does
not fail succeeds, reports the number of bytes it wrote, and Amf3ReadU29 applied to the
bytes it wrote (followed by any further bytes `rest`) returns n and leaves `rest`. -/
theorem Amf3U29_roundtrip (w : Writer) (n : Nat) (rest : Bytes) (hw : w.cap = none)
    (hn : n ≤ 0x1FFFFFFF) :
    ∃ bs : Bytes,
      Amf3WriteU29 w n = { n := bs.length, err := none, w := { buf := w.buf ++ bs, cap := none } } ∧
      Amf3ReadU29 (bs ++ rest) = { val := n, err := none, r := rest } :=
  ⟨u29Bytes n, Amf3WriteU29_unbounded w n hw (by omega), Amf3ReadU29_u29Bytes n rest hn⟩

/-- Witness of C1 (as amended) at the boundary values 0x7F, 0x80, 0x3FFF, 0x4000, 0x1FFFFF,
0x200000 and 0x1FFFFFFF. -/
theorem Amf3U29_roundtrip_witness :
    (∃ bs : Bytes,
      Amf3WriteU29 Writer.empty 0x7F =
        { n := bs.length, err := none, w := { buf := Writer.empty.buf ++ bs, cap := none } } ∧
      Amf3ReadU29 (bs ++ []) = { val := 0x7F, err := none, r := [] }) ∧
    (∃ bs : Bytes,
      Amf3WriteU29 Writer.empty 0x80 =
        { n := bs.length, err := none, w := { buf := Writer.empty.buf ++ bs, cap := none } } ∧
      Amf3ReadU29 (bs ++ []) = { val := 0x80, err := none, r := [] }) ∧
    (∃ bs : Bytes,
      Amf3WriteU29 Writer.empty 0x3FFF =
        { n := bs.length, err := none, w := { buf := Writer.empty.buf ++ bs, cap := none } } ∧
      Amf3ReadU29 (bs ++ []) = { val := 0x3FFF, err := none, r := [] }) ∧
    (∃ bs : Bytes,
      Amf3WriteU29 Writer.empty 0x4000 =
        { n := bs.length, err := none, w := { buf := Writer.empty.buf ++ bs, cap := none } } ∧
      Amf3ReadU29 (bs ++ []) = { val := 0x4000, err := none, r := [] }) ∧
    (∃ bs : Bytes,
      Amf3WriteU29 Writer.empty 0x1FFFFF =
        { n := bs.length, err := none, w := { buf := Writer.empty.buf ++ bs, cap := none } } ∧
      Amf3ReadU29 (bs ++ []) = { val := 0x1FFFFF, err := none, r := [] }) ∧
    (∃ bs : Bytes,
      Amf3WriteU29 Writer.empty 0x200000 =
        { n := bs.length, err := none, w := { buf := Writer.empty.buf ++ bs, cap := none } } ∧
      Amf3ReadU29 (bs ++ []) = { val := 0x200000, err := none, r := [] }) ∧
    (∃ bs : Bytes,
      Amf3WriteU29 Writer.empty 0x1FFFFFFF =
        { n := bs.length, err := none, w := { buf := Writer.empty.buf ++ bs, cap := none } } ∧
      Amf3ReadU29 (bs ++ []) = { val := 0x1FFFFFFF, err := none, r := [] }) :=
  ⟨Amf3U29_roundtrip Writer.empty 0x7F [] rfl (by decide),
   Amf3U29_roundtrip Writer.empty 0x80 [] rfl (by decide),
   Amf3U29_roundtrip Writer.empty 0x3FFF [] rfl (by decide),
   Amf3U29_roundtrip Writer.empty 0x4000 [] rfl (by decide),
   Amf3U29_roundtrip Writer.empty 0x1FFFFF [] rfl (by decide),
   Amf3U29_roundtrip Writer.empty 0x200000 [] rfl (by decide),
   Amf3U29_roundtrip Writer.empty 0x1FFFFFFF [] rfl (by decide)⟩

/-- Counterexample to C1 as stated: 0x3FFFFFFF is written as FF FF FF FF without error, and
reading these four bytes returns 0x1FFFFFFF. -/
theorem Amf3U29_roundtrip_fails_at_3FFFFFFF :
    Amf3WriteU29 Writer.empty 0x3FFFFFFF =
      { n := 4, err := none, w := { buf := [0xFF, 0xFF, 0xFF, 0xFF], cap := none } } ∧
    Amf3ReadU29 [0xFF, 0xFF, 0xFF, 0xFF] = { val := 0x1FFFFFFF, err := none, r := [] } ∧
    (Amf3ReadU29 (Amf3WriteU29 Writer.empty 0x3FFFFFFF).w.buf).val ≠ 0x3FFFFFFF := by
  decide

/-- C5: for every n > 0x3FFFFFFF, Amf3WriteU29 returns OutOfRangeError with count 0 and
leaves the sink (any sink) untouched; for every n <= 0x3FFFFFFF the error it returns, if
any, is not OutOfRangeError. -/
theorem Amf3WriteU29_range_error (w : Writer) (n : Nat) :
    (0x3FFFFFFF < n → Amf3WriteU29 w n = { n := 0, err := some Error.outOfRange, w := w }) ∧
    (n ≤ 0x3FFFFFFF → (Amf3WriteU29 w n).err ≠ some Error.outOfRange) := by
  constructor
  · intro h
    unfold Amf3WriteU29
    rw [if_neg (by omega), if_neg (by omega), if_neg (by omega), if_neg (by omega)]
  · intro h
    unfold Amf3WriteU29
    cases w with
    | mk buf cap =>
      cases cap with
      | none => simp only [Writer.WriteByte, Writer.Write]; split_ifs <;> simp
      | some c =>
        cases c with
        | zero => simp only [Writer.WriteByte, Writer.Write]; split_ifs <;> simp
        | succ k => simp only [Writer.WriteByte, Writer.Write]; split_ifs <;> simp

/-- Witness of C5 at 0x40000000 (on a sink with room for two bytes) and at 0x3FFFFFFF. -/
theorem Amf3WriteU29_range_error_witness :
    Amf3WriteU29 { buf := [1], cap := some 2 } 0x40000000 =
      { n := 0, err := some Error.outOfRange, w := { buf := [1], cap := some 2 } } ∧
    (Amf3WriteU29 { buf := [1], cap := some 2 } 0x3FFFFFFF).err ≠ some Error.outOfRange :=
  ⟨(Amf3WriteU29_range_error { buf := [1], cap := some 2 } 0x40000000).1 (by decide),
   (Amf3WriteU29_range_error { buf := [1], cap := some 2 } 0x3FFFFFFF).2 (by decide)⟩

/-- C6: for every n <= 0x3FFFFFFF, Amf3WriteU29 on a sink that does not fail appends bytes
`bs` and reports their number, where `bs` is the single byte n (bit 7 clear) when
n <= 0x7F; two bytes, the first with bit 7 set and the last with bit 7 clear, when
0x80 <= n <= 0x3FFF; three bytes, the first two with bit 7 set and the last with bit 7
clear, when 0x4000 <= n <= 0x1FFFFF; four bytes, the first three with bit 7 set and the last
equal to the low 8 bits of n, when 0x200000 <= n. -/
theorem Amf3WriteU29_shape (w : Writer) (n : Nat) (hw : w.cap = none) (hn : n ≤ 0x3FFFFFFF) :
    ∃ bs : Bytes,
      Amf3WriteU29 w n = { n := bs.length, err := none, w := { buf := w.buf ++ bs, cap := none } } ∧
      (∀ b ∈ bs, b < 256) ∧
      (n ≤ 0x7F → bs = [n] ∧ n.testBit 7 = false) ∧
      (0x80 ≤ n → n ≤ 0x3FFF →
        ∃ a b, bs = [a, b] ∧ a.testBit 7 = true ∧ b.testBit 7 = false) ∧
      (0x4000 ≤ n → n ≤ 0x1FFFFF →
        ∃ a b c, bs = [a, b, c] ∧ a.testBit 7 = true ∧ b.testBit 7 = true ∧
          c.testBit 7 = false) ∧
      (0x200000 ≤ n →
        ∃ a b c d, bs = [a, b, c, d] ∧ a.testBit 7 = true ∧ b.testBit 7 = true ∧
          c.testBit 7 = true ∧ d = n % 256) := by
  refine ⟨u29Bytes n, Amf3WriteU29_unbounded w n hw hn, ?_, ?_, ?_, ?_, ?_⟩
  · rw [u29Bytes_eq n hn]
    intro b hb
    split_ifs at hb <;>
      simp only [List.mem_cons, List.mem_singleton, List.not_mem_nil, or_false] at hb <;>
      omega
  · intro h
    rw [u29Bytes_eq n hn, if_pos h]
    exact ⟨rfl, (bit7_facts n (by omega)).2.2.2.2.2.1⟩
  · intro h1 h2
    rw [u29Bytes_eq n hn, if_neg (by omega), if_pos h2]
    exact ⟨_, _, rfl, (bit7_facts (n / 128) (by omega)).2.2.2.2.2.2,
      (bit7_facts (n % 128) (by omega)).2.2.2.2.2.1⟩
  · intro h1 h2
    rw [u29Bytes_eq n hn, if_neg (by omega), if_neg (by omega), if_pos h2]
    exact ⟨_, _, _, rfl, (bit7_facts (n / 16384) (by omega)).2.2.2.2.2.2,
      (bit7_facts (n / 128 % 128) (by omega)).2.2.2.2.2.2,
      (bit7_facts (n % 128) (by omega)).2.2.2.2.2.1⟩
  · intro h1
    rw [u29Bytes_eq n hn, if_neg (by omega), if_neg (by omega), if_neg (by omega)]
    refine ⟨_, _, _, _, rfl, ?_, (bit7_facts (n / 32768 % 128) (by omega)).2.2.2.2.2.2,
      (bit7_facts (n / 256 % 128) (by omega)).2.2.2.2.2.2, rfl⟩
    exact high_byte_bit7 (n / 4194304) (by omega)

/-- Witness of C6 at 0x3FFFFFFF. -/
theorem Amf3WriteU29_shape_witness :
    ∃ bs : Bytes,
      Amf3WriteU29 Writer.empty 0x3FFFFFFF =
        { n := bs.length, err := none, w := { buf := Writer.empty.buf ++ bs, cap := none } } ∧
      (∀ b ∈ bs, b < 256) ∧
      ((0x3FFFFFFF : Nat) ≤ 0x7F → bs = [0x3FFFFFFF] ∧ (0x3FFFFFFF : Nat).testBit 7 = false) ∧
      (0x80 ≤ (0x3FFFFFFF : Nat) → (0x3FFFFFFF : Nat) ≤ 0x3FFF →
        ∃ a b, bs = [a, b] ∧ a.testBit 7 = true ∧ b.testBit 7 = false) ∧
      (0x4000 ≤ (0x3FFFFFFF : Nat) → (0x3FFFFFFF : Nat) ≤ 0x1FFFFF →
        ∃ a b c, bs = [a, b, c] ∧ a.testBit 7 = true ∧ b.testBit 7 = true ∧
          c.testBit 7 = false) ∧
      (0x200000 ≤ (0x3FFFFFFF : Nat) →
        ∃ a b c d, bs = [a, b, c, d] ∧ a.testBit 7 = true ∧ b.testBit 7 = true ∧
          c.testBit 7 = true ∧ d = 0x3FFFFFFF % 256) :=
  Amf3WriteU29_shape Writer.empty 0x3FFFFFFF rfl (by decide)

/-! ## Fixed-width integers and in-memory reads -/

theorem bigEndian_length (size x : Nat) : (bigEndian size x).length = size := by
  induction size with
  | zero => rfl
  | succ k ih => simp [bigEndian, ih]

theorem foldl_bigEndian (size x acc : Nat) :
    (bigEndian size x).foldl (fun a b => a * 256 + b) acc = acc * 256 ^ size + x % 256 ^ size := by
  induction size generalizing acc with
  | zero => simp [bigEndian, Nat.mod_one]
  | succ k ih =>
    simp only [bigEndian, List.foldl_cons, ih]
    have h : x % 256 ^ (k + 1) = x % 256 ^ k + 256 ^ k * (x / 256 ^ k % 256) := by
      rw [pow_succ, Nat.mod_mul]
    rw [h, pow_succ]
    ring

theorem fromBigEndian_bigEndian (size x : Nat) :
    fromBigEndian (bigEndian size x) = x % 256 ^ size := by
  unfold fromBigEndian
  rw [foldl_bigEndian]
  simp

theorem binaryRead_append (bs rest : Bytes) (size : Nat) (h : bs.length = size) :
    binaryRead (bs ++ rest) size = { val := bs, err := none, r := rest } := by
  subst h
  simp [binaryRead]

theorem Read_append (s rest : Bytes) (hs : s ≠ []) :
    Read (s ++ rest) s.length = { val := (s, s.length), err := none, r := rest } := by
  cases s with
  | nil => exact absurd rfl hs
  | cons a s1 =>
    simp only [Read, List.cons_append]
    have e : a :: (s1 ++ rest) = (a :: s1) ++ rest := rfl
    rw [e, List.take_left' rfl, List.drop_left' rfl]
    simp

/-! ## AMF0 strings and numbers -/

theorem binaryWrite_unbounded (w : Writer) (size x : Nat) (hw : w.cap = none) :
    binaryWrite w size x =
      { n := size, err := none, w := { buf := w.buf ++ bigEndian size x, cap := none } } := by
  unfold binaryWrite
  rw [Write_unbounded w _ hw, bigEndian_length]

theorem WriteUTF8_unbounded (w : Writer) (s : Bytes) (length : Nat) (hw : w.cap = none) :
    WriteUTF8 w s length =
      { err := none, w := { buf := w.buf ++ (bigEndian 2 length ++ s), cap := none } } := by
  unfold WriteUTF8
  simp [binaryWrite_unbounded w 2 length hw, Write_unbounded]

theorem WriteUTF8Long_unbounded (w : Writer) (s : Bytes) (length : Nat) (hw : w.cap = none) :
    WriteUTF8Long w s length =
      { err := none, w := { buf := w.buf ++ (bigEndian 4 length ++ s), cap := none } } := by
  unfold WriteUTF8Long
  simp [binaryWrite_unbounded w 4 length hw, Write_unbounded]

/-- What `WriteString` does on a sink that does not fail, for a text of any length. -/
theorem WriteString_unbounded (w : Writer) (t : Bytes) (hw : w.cap = none) :
    WriteString w t =
      if 0xFFFF < t.length % 2 ^ 32 then
        { n := (t.length % 2 ^ 32 + 5) % 2 ^ 32, err := none,
          w := { buf := w.buf ++ (0x0c :: (bigEndian 4 (t.length % 2 ^ 32) ++ t)), cap := none } }
      else
        { n := (t.length % 2 ^ 32 + 3) % 2 ^ 32, err := none,
          w := { buf := w.buf ++
            (0x02 :: (bigEndian 2 (t.length % 2 ^ 32 % 2 ^ 16) ++ t)), cap := none } } := by
  unfold WriteString
  simp only [Amf0MaxStringLen, Amf0LongStringMarker, Amf0StringMarker, gt_iff_lt]
  split_ifs with h
  · simp [WriteByte_unbounded w _ hw, WriteUTF8Long_unbounded]
  · simp [WriteByte_unbounded w _ hw, WriteUTF8_unbounded]

theorem ReadUTF8_append (s rest : Bytes) (hs : s.length ≤ 0xFFFF) :
    ReadUTF8 (bigEndian 2 s.length ++ s ++ rest) = { val := s, err := none, r := rest } := by
  unfold ReadUTF8
  rw [List.append_assoc, binaryRead_append _ _ 2 (bigEndian_length 2 _)]
  simp only [fromBigEndian_bigEndian]
  have h : s.length % 256 ^ 2 = s.length := Nat.mod_eq_of_lt (by norm_num; omega)
  rw [h]
  by_cases h0 : s = []
  · subst h0; simp
  · have h1 : s.length ≠ 0 := fun e => h0 (List.length_eq_zero.mp e)
    simp [h1, Read_append s rest h0]

theorem ReadUTF8Long_append (s rest : Bytes) (hs : s.length < 2 ^ 32) :
    ReadUTF8Long (bigEndian 4 s.length ++ s ++ rest) = { val := s, err := none, r := rest } := by
  unfold ReadUTF8Long
  rw [List.append_assoc, binaryRead_append _ _ 4 (bigEndian_length 4 _)]
  simp only [fromBigEndian_bigEndian]
  have h : s.length % 256 ^ 4 = s.length := Nat.mod_eq_of_lt (by norm_num at hs ⊢; omega)
  rw [h]
  by_cases h0 : s = []
  · subst h0; simp
  · have h1 : s.length ≠ 0 := fun e => h0 (List.length_eq_zero.mp e)
    simp [h1, Read_append s rest h0]

/-- The bytes `WriteString` emits for a text shorter than `2 ^ 32` bytes. -/
theorem stringBytes_eq (t : Bytes) (ht : t.length < 2 ^ 32) :
    stringBytes t =
      if 0xFFFF < t.length then 0x0c :: (bigEndian 4 t.length ++ t)
      else 0x02 :: (bigEndian 2 t.length ++ t) := by
  unfold stringBytes
  rw [WriteString_unbounded _ _ rfl, Nat.mod_eq_of_lt ht]
  split_ifs with h
  · simp [Writer.empty]
  · have h2 : t.length % 65536 = t.length := Nat.mod_eq_of_lt (by omega)
    simp [Writer.empty, h2]

theorem WriteString_stringBytes (w : Writer) (t : Bytes) (hw : w.cap = none) :
    (WriteString w t).err = none ∧
    (WriteString w t).w = { buf := w.buf ++ stringBytes t, cap := none } := by
  unfold stringBytes
  rw [WriteString_unbounded w t hw, WriteString_unbounded Writer.empty t rfl]
  split_ifs <;> simp [Writer.empty]

theorem ReadString_stringBytes (t rest : Bytes) (ht : t.length < 2 ^ 32) :
    ReadString (stringBytes t ++ rest) = { val := t, err := none, r := rest } := by
  rw [stringBytes_eq t ht]
  unfold ReadString
  split_ifs with h
  · have e := ReadUTF8Long_append t rest ht
    simp only [List.append_assoc] at e
    simp [ReadMarker, ReadByte, Amf0StringMarker, Amf0LongStringMarker, e]
  · have e := ReadUTF8_append t rest (by omega)
    simp only [List.append_assoc] at e
    simp [ReadMarker, ReadByte, Amf0StringMarker, e]

theorem ReadValueFuel_stringBytes [Machine] (fuel : Nat) (t rest : Bytes) (ht : t.length < 2 ^ 32) :
    ReadValueFuel (fuel + 1) (stringBytes t ++ rest) =
      some { val := Value.string t, err := none, r := rest } := by
  rw [stringBytes_eq t ht]
  split_ifs with h
  · have e := ReadUTF8Long_append t rest ht
    simp only [List.append_assoc] at e
    simp [ReadValueFuel, ReadMarker, ReadByte, Amf0NumberMarker, Amf0BooleanMarker,
      Amf0StringMarker, Amf0ObjectMarker, Amf0MovieclipMarker, Amf0NullMarker,
      Amf0UndefinedMarker, Amf0EcmaArrayMarker, Amf0ObjectEndMarker, Amf0StrictArrayMarker,
      Amf0DateMarker, Amf0LongStringMarker, e]
  · have e := ReadUTF8_append t rest (by omega)
    simp only [List.append_assoc] at e
    simp [ReadValueFuel, ReadMarker, ReadByte, Amf0NumberMarker, Amf0BooleanMarker,
      Amf0StringMarker, e]

theorem replicate_ne_nil (k : Nat) (hk : 0 < k) : ([] : Bytes) ≠ List.replicate k 0 := by
  intro h
  have h2 := congrArg List.length h
  rw [List.length_replicate, List.length_nil] at h2
  omega

theorem ReadUTF8_zero_length (rest : Bytes) :
    ReadUTF8 (0 :: 0 :: rest) = { val := [], err := none, r := rest } := by
  simp [ReadUTF8, binaryRead, fromBigEndian]

theorem ReadValueFuel_zero_length [Machine] (fuel : Nat) (rest : Bytes) :
    ReadValueFuel (fuel + 1) (0x02 :: 0 :: 0 :: rest) =
      some { val := Value.string [], err := none, r := rest } := by
  simp [ReadValueFuel, ReadMarker, ReadByte, Amf0NumberMarker, Amf0BooleanMarker,
    Amf0StringMarker, ReadUTF8_zero_length]

theorem WriteString_at_4GiB (s : Bytes) (hl : s.length = 4294967296) :
    WriteString Writer.empty s =
      { n := 3, err := none, w := { buf := 0x02 :: 0 :: 0 :: s, cap := none } } := by
  have h1 : (4294967296 : Nat) % 2 ^ 32 = 0 := by norm_num
  rw [WriteString_unbounded _ _ rfl, hl, h1, if_neg (by norm_num)]
  rfl

/-! ## C7, C8 : AMF0 strings -/

/-- The part of C7 that holds: for every text t of byte length L with L + 5 < 2^32,
WriteString on a sink that does not fail emits the marker 0x02, L as two big-endian bytes
and t, returning L+3, when L <= 0xFFFF; and the marker 0x0c, L as four big-endian bytes and
t, returning L+5, when L > 0xFFFF. -/
theorem WriteString_emits (w : Writer) (t : Bytes) (hw : w.cap = none)
    (ht : t.length + 5 < 2 ^ 32) :
    WriteString w t =
      if t.length ≤ 0xFFFF then
        { n := t.length + 3, err := none,
          w := { buf := w.buf ++ (0x02 :: (bigEndian 2 t.length ++ t)), cap := none } }
      else
        { n := t.length + 5, err := none,
          w := { buf := w.buf ++ (0x0c :: (bigEndian 4 t.length ++ t)), cap := none } } := by
  rw [WriteString_unbounded w t hw, Nat.mod_eq_of_lt (by omega : t.length < 2 ^ 32)]
  by_cases h : t.length ≤ 0xFFFF
  · rw [if_neg (by omega), if_pos h]
    have h2 : t.length % 2 ^ 16 = t.length := Nat.mod_eq_of_lt (by norm_num; omega)
    have h3 : (t.length + 3) % 2 ^ 32 = t.length + 3 := Nat.mod_eq_of_lt (by omega)
    rw [h2, h3]
  · rw [if_pos (by omega), if_neg h]
    have h3 : (t.length + 5) % 2 ^ 32 = t.length + 5 := Nat.mod_eq_of_lt (by omega)
    rw [h3]

/-- C7 at the failing input: for the text of 4294967291 = 2^32 - 5 zero bytes, WriteString on
the empty sink that does not fail emits the long-string marker 0x0c, the length FF FF FF FB
and the 4294967291 bytes, 4294967296 bytes in all, and returns the count 0. -/
theorem WriteString_count_wraps :
    WriteString Writer.empty (List.replicate 4294967291 0) =
      { n := 0, err := none,
        w := { buf := 0x0c :: 0xFF :: 0xFF :: 0xFF :: 0xFB :: List.replicate 4294967291 0,
               cap := none } } := by
  rw [WriteString_unbounded _ _ rfl, List.length_replicate]
  have h1 : (4294967291 : Nat) % 2 ^ 32 = 4294967291 := by norm_num
  have h2 : ((4294967291 : Nat) + 5) % 2 ^ 32 = 0 := by norm_num
  have h3 : bigEndian 4 4294967291 = [0xFF, 0xFF, 0xFF, 0xFB] := by decide
  rw [h1, h2, h3, if_pos (by norm_num)]
  rfl

/-- C8 (as amended): for every text t of byte length below 2^32 (empty, at most 0xFFFF
bytes, or longer), WriteString on a sink that does not fail succeeds, and ReadString and
ReadValue applied to the bytes it wrote (followed by any bytes `rest`) return t and leave
`rest`. -/
theorem WriteString_roundtrip [Machine] (w : Writer) (t rest : Bytes) (hw : w.cap = none)
    (ht : t.length < 2 ^ 32) :
    ∃ bs : Bytes,
      (WriteString w t).err = none ∧
      (WriteString w t).w = { buf := w.buf ++ bs, cap := none } ∧
      ReadString (bs ++ rest) = { val := t, err := none, r := rest } ∧
      ReadValue (bs ++ rest) = some { val := Value.string t, err := none, r := rest } :=
  ⟨stringBytes t, (WriteString_stringBytes w t hw).1, (WriteString_stringBytes w t hw).2,
    ReadString_stringBytes t rest ht, ReadValueFuel_stringBytes _ t rest ht⟩

/-- Witness of C8 (as amended) at the text "hi". -/
theorem WriteString_roundtrip_witness :
    ∃ bs : Bytes,
      (WriteString Writer.empty [104, 105]).err = none ∧
      (WriteString Writer.empty [104, 105]).w = { buf := Writer.empty.buf ++ bs, cap := none } ∧
      ReadString (bs ++ [7]) = { val := [104, 105], err := none, r := [7] } ∧
      ReadValue (bs ++ [7]) = some { val := Value.string [104, 105], err := none, r := [7] } :=
  WriteString_roundtrip Writer.empty [104, 105] [7] rfl (by decide)

/-- Counterexample to C8 as stated: for the text of 4294967296 = 2^32 zero bytes WriteString
succeeds and emits 02 00 00 followed by the text; ReadString and ReadValue on these bytes
return the empty text and leave the 4294967296 bytes unread. -/
theorem WriteString_roundtrip_fails_at_4GiB :
    (WriteString Writer.empty (List.replicate 4294967296 0)).err = none ∧
    (WriteString Writer.empty (List.replicate 4294967296 0)).w.buf =
      0x02 :: 0 :: 0 :: List.replicate 4294967296 0 ∧
    ReadString (0x02 :: 0 :: 0 :: List.replicate 4294967296 0) =
      { val := [], err := none, r := List.replicate 4294967296 0 } ∧
    ReadValue (0x02 :: 0 :: 0 :: List.replicate 4294967296 0) =
      some { val := Value.string [], err := none, r := List.replicate 4294967296 0 } ∧
    ([] : Bytes) ≠ List.replicate 4294967296 0 := by
  have hw := WriteString_at_4GiB _ (List.length_replicate 4294967296 (0 : Nat))
  refine ⟨by rw [hw], by rw [hw], ?_, ?_, replicate_ne_nil _ (by norm_num)⟩
  · simp only [ReadString, ReadMarker, ReadByte, Amf0StringMarker, if_true,
      ReadUTF8_zero_length]
  · exact ReadValueFuel_zero_length _ _

/-! ## C9 : AMF0 numbers -/

/-- C9: for every float64 bit pattern `num`, WriteDouble on a sink that does not fail emits
the marker 0x00 followed by the 8 bytes of the pattern, most significant first, and returns
9; ReadDouble and ReadValue applied to these 9 bytes (followed by any bytes `rest`) return
the number with the identical pattern and leave `rest`. -/
theorem WriteDouble_roundtrip [Machine] (w : Writer) (num : Nat) (rest : Bytes) (hw : w.cap = none)
    (hn : num < 2 ^ 64) :
    WriteDouble w num =
      { n := 9, err := none, w := { buf := w.buf ++ (0x00 :: bigEndian 8 num), cap := none } } ∧
    bigEndian 8 num =
      [num / 2 ^ 56 % 256, num / 2 ^ 48 % 256, num / 2 ^ 40 % 256, num / 2 ^ 32 % 256,
       num / 2 ^ 24 % 256, num / 2 ^ 16 % 256, num / 2 ^ 8 % 256, num % 256] ∧
    ReadDouble (0x00 :: bigEndian 8 num ++ rest) = { val := num, err := none, r := rest } ∧
    ReadValue (0x00 :: bigEndian 8 num ++ rest) =
      some { val := Value.float num, err := none, r := rest } := by
  have hr : readFloat64 (bigEndian 8 num ++ rest) = { val := num, err := none, r := rest } := by
    unfold readFloat64
    rw [binaryRead_append _ _ 8 (bigEndian_length 8 _)]
    simp only [fromBigEndian_bigEndian]
    rw [Nat.mod_eq_of_lt (by norm_num at hn ⊢; omega)]
  refine ⟨?_, ?_, ?_, ?_⟩
  · unfold WriteDouble
    simp [WriteByte_unbounded w _ hw, binaryWrite_unbounded, Amf0NumberMarker]
  · simp [bigEndian]
  · simp [ReadDouble, ReadMarker, ReadByte, Amf0NumberMarker, hr]
  · simp [ReadValue, ReadValueFuel, ReadMarker, ReadByte, Amf0NumberMarker, hr]

/-- Witness of C9 at 1.0, the pattern 0x3FF0000000000000. -/
theorem WriteDouble_roundtrip_witness :
    WriteDouble Writer.empty 0x3FF0000000000000 =
      { n := 9, err := none,
        w := { buf := Writer.empty.buf ++ (0x00 :: bigEndian 8 0x3FF0000000000000),
               cap := none } } ∧
    bigEndian 8 0x3FF0000000000000 =
      [0x3FF0000000000000 / 2 ^ 56 % 256, 0x3FF0000000000000 / 2 ^ 48 % 256,
       0x3FF0000000000000 / 2 ^ 40 % 256, 0x3FF0000000000000 / 2 ^ 32 % 256,
       0x3FF0000000000000 / 2 ^ 24 % 256, 0x3FF0000000000000 / 2 ^ 16 % 256,
       0x3FF0000000000000 / 2 ^ 8 % 256, 0x3FF0000000000000 % 256] ∧
    ReadDouble (0x00 :: bigEndian 8 0x3FF0000000000000 ++ []) =
      { val := 0x3FF0000000000000, err := none, r := [] } ∧
    ReadValue (0x00 :: bigEndian 8 0x3FF0000000000000 ++ []) =
      some { val := Value.float 0x3FF0000000000000, err := none, r := [] } :=
  WriteDouble_roundtrip Writer.empty 0x3FF0000000000000 [] rfl (by decide)

/-! ## C10 : AMF3 strings -/

theorem flagged_length (len : Nat) (h : 2 * len + 1 ≤ 0x3FFFFFFF) :
    ((len <<< 1) % 2 ^ 32) ||| 0x01 = 2 * len + 1 := by
  rw [Nat.shiftLeft_eq, Nat.mod_eq_of_lt (by omega)]
  have h1 := Nat.mul_add_lt_is_or (i := 1) (b := 1) (by norm_num) len
  rw [pow_one] at h1
  rw [Nat.mul_comm, pow_one, ← h1]

theorem Amf3WriteUTF8_unbounded (w : Writer) (s : Bytes) (hw : w.cap = none)
    (hs : 2 * s.length + 1 ≤ 0x3FFFFFFF) :
    Amf3WriteUTF8 w s =
      { n := (u29Bytes (2 * s.length + 1) ++ s).length, err := none,
        w := { buf := w.buf ++ (u29Bytes (2 * s.length + 1) ++ s), cap := none } } := by
  unfold Amf3WriteUTF8
  by_cases h0 : s = []
  · subst h0
    have e : u29Bytes 1 = [1] := by decide
    simp [WriteByte_unbounded w _ hw, e]
  · have h1 : s.length ≠ 0 := fun e => h0 (List.length_eq_zero.mp e)
    simp only [h1, if_false, flagged_length s.length hs,
      Amf3WriteU29_unbounded w _ hw hs, Write_unbounded]
    simp [Nat.add_comm]

theorem Amf3ReadUTF8_append (s rest : Bytes) (hs : s.length < 2 ^ 28) :
    Amf3ReadUTF8 (u29Bytes (2 * s.length + 1) ++ s ++ rest) =
      { val := s, err := none, r := rest } := by
  unfold Amf3ReadUTF8
  rw [List.append_assoc, Amf3ReadU29_u29Bytes _ _ (by omega)]
  have h1 : (2 * s.length + 1) &&& 0x01 = 1 := by
    rw [show (0x01 : Nat) = 2 ^ 1 - 1 from rfl, Nat.and_pow_two_sub_one_eq_mod]
    omega
  have h2 : (2 * s.length + 1) >>> 1 = s.length := by
    rw [Nat.shiftRight_eq_div_pow]
    omega
  simp only [h1, h2, ne_eq, not_true_eq_false, if_false]
  by_cases h0 : s = []
  · subst h0; simp
  · have h3 : s.length ≠ 0 := fun e => h0 (List.length_eq_zero.mp e)
    simp [h3, Read_append s rest h0]

/-- C10 (as amended): for every text s whose flagged length 2*len(s)+1 lies in the U29 range
0..0x3FFFFFFF, Amf3WriteUTF8 on a sink that does not fail emits the U29 encoding of the
flagged length followed by the raw bytes of s; when moreover len(s) < 2^28, Amf3ReadUTF8
applied to those bytes (followed by any bytes `rest`) returns s and leaves `rest`; the empty
text is emitted as exactly the byte 0x01, which decodes back to the empty text. -/
theorem Amf3UTF8_roundtrip (w : Writer) (s rest : Bytes) (hw : w.cap = none)
    (hs : 2 * s.length + 1 ≤ 0x3FFFFFFF) :
    Amf3WriteUTF8 w s =
      { n := (u29Bytes (2 * s.length + 1) ++ s).length, err := none,
        w := { buf := w.buf ++ (u29Bytes (2 * s.length + 1) ++ s), cap := none } } ∧
    (s.length < 2 ^ 28 →
      Amf3ReadUTF8 (u29Bytes (2 * s.length + 1) ++ s ++ rest) =
        { val := s, err := none, r := rest }) ∧
    Amf3WriteUTF8 w [] = { n := 1, err := none, w := { buf := w.buf ++ [0x01], cap := none } } ∧
    Amf3ReadUTF8 (0x01 :: rest) = { val := [], err := none, r := rest } := by
  refine ⟨Amf3WriteUTF8_unbounded w s hw hs, fun h => Amf3ReadUTF8_append s rest h, ?_, ?_⟩
  · have e : u29Bytes 1 = [1] := by decide
    have h := Amf3WriteUTF8_unbounded w [] hw (by decide)
    simpa [e] using h
  · have e : u29Bytes 1 = [1] := by decide
    have h := Amf3ReadUTF8_append [] rest (by decide)
    simpa [e] using h

/-- Witness of C10 (as amended) at the text "hi" and at the empty text. -/
theorem Amf3UTF8_roundtrip_witness :
    Amf3WriteUTF8 Writer.empty [104, 105] =
      { n := 3, err := none, w := { buf := [0x05, 104, 105], cap := none } } ∧
    Amf3ReadUTF8 [0x05, 104, 105, 9] = { val := [104, 105], err := none, r := [9] } ∧
    Amf3WriteUTF8 Writer.empty [] = { n := 1, err := none, w := { buf := [0x01], cap := none } } ∧
    Amf3ReadUTF8 [0x01, 9] = { val := [], err := none, r := [9] } :=
  have h := Amf3UTF8_roundtrip Writer.empty [104, 105] [9] rfl (by decide)
  ⟨h.1, h.2.1 (by decide), h.2.2.1, h.2.2.2⟩

theorem Amf3WriteUTF8_at_256MiB (s : Bytes) (hl : s.length = 268435456) :
    Amf3WriteUTF8 Writer.empty s =
      { n := 268435460, err := none,
        w := { buf := 0x80 :: 0x80 :: 0x80 :: 0x01 :: s, cap := none } } := by
  have e : u29Bytes 536870913 = [0x80, 0x80, 0x80, 0x01] := by decide
  rw [Amf3WriteUTF8_unbounded _ _ rfl (by rw [hl]; norm_num), hl]
  norm_num only
  rw [e]
  simp only [List.length_append, List.length_cons, List.length_nil, hl, Writer.empty,
    List.nil_append, List.cons_append]

theorem Amf3ReadUTF8_at_256MiB (rest : Bytes) :
    Amf3ReadUTF8 (0x80 :: 0x80 :: 0x80 :: 0x01 :: rest) =
      { val := [], err := none, r := rest } := by
  have h : Amf3ReadU29 (0x80 :: 0x80 :: 0x80 :: 0x01 :: rest) =
      { val := 1, err := none, r := rest } := by
    show Amf3ReadU29.loop 3 0 ((0 + 128) :: (0 + 128) :: (0 + 128) :: 1 :: rest) = _
    rw [readU29_cont _ _ _ _ (by norm_num), readU29_cont _ _ _ _ (by norm_num),
      readU29_cont _ _ _ _ (by norm_num), readU29_last]
    norm_num
  have h1 : (1 : Nat) &&& 0x01 = 1 := by decide
  have h2 : (1 : Nat) >>> 1 = 0 := by decide
  unfold Amf3ReadUTF8
  rw [h]
  simp only [h1, h2, ne_eq, not_true_eq_false, if_false, if_true]

/-- Counterexample to C10 as stated: the text of 268435456 = 2^28 zero bytes has the flagged
length 0x20000001, inside the U29 range; Amf3WriteUTF8 emits 80 80 80 01 followed by the
text, and Amf3ReadUTF8 on these bytes returns the empty text, leaving the text unread. -/
theorem Amf3UTF8_roundtrip_fails_at_256MiB :
    2 * (List.replicate 268435456 0).length + 1 ≤ 0x3FFFFFFF ∧
    Amf3WriteUTF8 Writer.empty (List.replicate 268435456 0) =
      { n := 268435460, err := none,
        w := { buf := 0x80 :: 0x80 :: 0x80 :: 0x01 :: List.replicate 268435456 0,
               cap := none } } ∧
    Amf3ReadUTF8 (0x80 :: 0x80 :: 0x80 :: 0x01 :: List.replicate 268435456 0) =
      { val := [], err := none, r := List.replicate 268435456 0 } ∧
    ([] : Bytes) ≠ List.replicate 268435456 0 := by
  have hl : (List.replicate 268435456 0 : Bytes).length = 268435456 := List.length_replicate _ _
  exact ⟨by rw [hl]; norm_num, Amf3WriteUTF8_at_256MiB _ hl, Amf3ReadUTF8_at_256MiB _,
    replicate_ne_nil _ (by norm_num)⟩

/-! ## The order of `stringValues` -/

theorem strLess_cons (a b : Nat) (as bs : Bytes) :
    strLess (a :: as) (b :: bs) = true ↔ a < b ∨ (a = b ∧ strLess as bs = true) := by
  simp [strLess]

theorem strLess_irrefl (a : Bytes) : strLess a a = false := by
  induction a with
  | nil => rfl
  | cons x xs ih => simp [strLess, ih]

theorem strLess_asymm (a b : Bytes) (h : strLess a b = true) : strLess b a = false := by
  induction a generalizing b with
  | nil => cases b <;> simp [strLess] at h ⊢
  | cons x xs ih =>
    cases b with
    | nil => simp [strLess] at h
    | cons y ys =>
      rw [strLess_cons] at h
      rw [Bool.eq_false_iff]
      intro h2
      rw [strLess_cons] at h2
      rcases h with h | ⟨h, h3⟩
      · rcases h2 with h2 | ⟨h2, -⟩ <;> omega
      · rcases h2 with h2 | ⟨-, h4⟩
        · omega
        · rw [ih ys h3] at h4
          exact Bool.false_ne_true h4

theorem strLess_trichotomy (a b : Bytes) (h1 : strLess a b = false) (h2 : strLess b a = false) :
    a = b := by
  induction a generalizing b with
  | nil => cases b <;> simp [strLess] at h1 ⊢
  | cons x xs ih =>
    cases b with
    | nil => simp [strLess] at h2
    | cons y ys =>
      rw [Bool.eq_false_iff, Ne, strLess_cons] at h1 h2
      have hxy : x = y := by
        by_contra hne
        rcases Nat.lt_or_gt_of_ne hne with h | h
        · exact h1 (Or.inl h)
        · exact h2 (Or.inl h)
      subst hxy
      have e : xs = ys := by
        apply ih
        · rw [Bool.eq_false_iff]; exact fun h => h1 (Or.inr ⟨rfl, h⟩)
        · rw [Bool.eq_false_iff]; exact fun h => h2 (Or.inr ⟨rfl, h⟩)
      rw [e]

theorem strLess_trans (a b c : Bytes) (h1 : strLess a b = true) (h2 : strLess b c = true) :
    strLess a c = true := by
  induction a generalizing b c with
  | nil =>
    cases c with
    | nil => cases b <;> simp [strLess] at h1 h2
    | cons z zs => rfl
  | cons x xs ih =>
    cases b with
    | nil => simp [strLess] at h1
    | cons y ys =>
      cases c with
      | nil => simp [strLess] at h2
      | cons z zs =>
        rw [strLess_cons] at h1 h2 ⊢
        rcases h1 with h1 | ⟨h1, h3⟩
        · rcases h2 with h2 | ⟨h2, -⟩
          · exact Or.inl (by omega)
          · exact Or.inl (by omega)
        · rcases h2 with h2 | ⟨h2, h4⟩
          · exact Or.inl (by omega)
          · exact Or.inr ⟨by omega, ih ys zs h3 h4⟩

instance strLE_total : IsTotal Bytes strLE :=
  ⟨fun a b => by
    unfold strLE
    cases h : strLess b a
    · exact Or.inl rfl
    · exact Or.inr (strLess_asymm b a h)⟩

instance strLE_trans : IsTrans Bytes strLE :=
  ⟨fun a b c hab hbc => by
    unfold strLE at *
    rw [Bool.eq_false_iff]
    intro hca
    cases hab2 : strLess a b
    · have e := strLess_trichotomy a b hab2 hab
      subst e
      rw [hca] at hbc
      exact Bool.noConfusion hbc
    · rw [strLess_trans c a b hca hab2] at hbc
      exact Bool.noConfusion hbc⟩

/-- The keys after `sort.Sort` are a rearrangement of the keys, in ascending order; when the
keys are pairwise distinct the order is strict. -/
theorem sortKeys_spec (keys : List Bytes) :
    (sortKeys keys).Perm keys ∧ (sortKeys keys).Sorted strLE ∧
    (keys.Nodup → (sortKeys keys).Sorted (fun a b => strLess a b = true)) := by
  refine ⟨List.perm_insertionSort _ _, List.sorted_insertionSort _ _, fun hnd => ?_⟩
  have h1 : (sortKeys keys).Sorted strLE := List.sorted_insertionSort _ _
  have h2 : (sortKeys keys).Nodup := (List.perm_insertionSort strLE keys).nodup_iff.mpr hnd
  unfold List.Sorted at h1 ⊢
  unfold List.Nodup at h2
  refine List.Pairwise.imp₂ ?_ h1 h2
  intro a b hle hne
  cases h : strLess a b
  · exact absurd (strLess_trichotomy a b h hle) hne
  · rfl

instance strLess_antisymm : IsAntisymm Bytes (fun a b => strLess a b = true) :=
  ⟨fun a b h1 h2 => by
    rw [strLess_asymm a b h1] at h2
    exact Bool.noConfusion h2⟩

/-- The sorted keys do not depend on the order in which `MapKeys` lists them. -/
theorem sortKeys_perm (keys keys' : List Bytes) (hnd : keys.Nodup) (hp : keys'.Perm keys) :
    sortKeys keys' = sortKeys keys := by
  have s1 := sortKeys_spec keys
  have s2 := sortKeys_spec keys'
  exact List.eq_of_perm_of_sorted (s2.1.trans (hp.trans s1.1.symm))
    (s2.2.2 (hp.nodup_iff.mpr hnd)) (s1.2.2 hnd)

theorem mapIndex_of_mem {α : Type} (l : List (Bytes × α)) (k : Bytes) (a : α)
    (hnd : (l.map Prod.fst).Nodup) (hm : (k, a) ∈ l) : mapIndex k l = some a := by
  induction l with
  | nil => simp at hm
  | cons e rest ih =>
    obtain ⟨k1, a1⟩ := e
    simp only [List.map_cons, List.nodup_cons] at hnd
    simp only [List.mem_cons, Prod.mk.injEq] at hm
    rcases hm with ⟨h1, h2⟩ | hm
    · subst h1; subst h2; simp [mapIndex]
    · have hne : k ≠ k1 := by
        intro e
        subst e
        exact hnd.1 (List.mem_map.mpr ⟨(k, a), hm, rfl⟩)
      simp [mapIndex, hne, ih hnd.2 hm]

theorem mapIndex_perm {α : Type} (l l' : List (Bytes × α)) (k : Bytes)
    (hnd : (l.map Prod.fst).Nodup) (hp : l'.Perm l) : mapIndex k l' = mapIndex k l := by
  have hnd' : (l'.map Prod.fst).Nodup := (hp.map Prod.fst).nodup_iff.mpr hnd
  cases h : mapIndex k l with
  | some a =>
    have hm : (k, a) ∈ l := by
      clear hnd hnd' hp
      induction l with
      | nil => simp [mapIndex] at h
      | cons e rest ih =>
        obtain ⟨k1, a1⟩ := e
        simp only [mapIndex] at h
        split_ifs at h with hk
        · simp only [Option.some.injEq] at h
          subst hk; subst h
          exact List.mem_cons_self _ _
        · exact List.mem_cons_of_mem _ (ih h)
    exact mapIndex_of_mem l' k a hnd' (hp.mem_iff.mpr hm)
  | none =>
    cases h' : mapIndex k l' with
    | none => rfl
    | some a =>
      have hm : (k, a) ∈ l' := by
        clear hnd hnd' hp h
        induction l' with
        | nil => simp [mapIndex] at h'
        | cons e rest ih =>
          obtain ⟨k1, a1⟩ := e
          simp only [mapIndex] at h'
          split_ifs at h' with hk
          · simp only [Option.some.injEq] at h'
            subst hk; subst h'
            exact List.mem_cons_self _ _
          · exact List.mem_cons_of_mem _ (ih h')
      rw [mapIndex_of_mem l k a hnd (hp.mem_iff.mp hm)] at h
      exact Option.noConfusion h

/-! ## The entries of a map in ascending order of key -/

theorem writeEntries_eq_map (es : List (Bytes × Value)) :
    writeEntries es = es.map (fun e => (e.1, writeValueAux true e.2)) := by
  induction es with
  | nil => rfl
  | cons e rest ih => obtain ⟨k, v⟩ := e; simp [writeEntries, ih]

theorem amf3WriteEntries_eq_map (es : List (Bytes × Value)) :
    amf3WriteEntries es = es.map (fun e => (e.1, Amf3WriteValue e.2)) := by
  induction es with
  | nil => rfl
  | cons e rest ih => obtain ⟨k, v⟩ := e; simp [amf3WriteEntries, ih]

theorem sortedEntries_keys (es : List (Bytes × Value)) :
    (sortedEntries es).map Prod.fst = sortKeys (es.map Prod.fst) := by
  unfold sortedEntries sortKeys
  exact List.map_insertionSort entryLE strLE Prod.fst es (fun a _ b _ => Iff.rfl)

/-- Visiting the sorted keys and looking each one up visits the entries in ascending order
of key, for any value writer `W`. -/
theorem sortedProps_map (W : Value → Writer → WRes) (es : List (Bytes × Value))
    (hnd : (es.map Prod.fst).Nodup) :
    sortedProps (es.map (fun e => (e.1, W e.2))) =
      (sortedEntries es).map (fun e => (e.1, W e.2)) := by
  unfold sortedProps
  have hk : (es.map (fun e => (e.1, W e.2))).map Prod.fst = es.map Prod.fst := by
    simp [List.map_map, Function.comp_def]
  rw [hk, ← sortedEntries_keys, List.map_map]
  apply List.map_congr_left
  intro e he
  have he2 : e ∈ es := (List.perm_insertionSort entryLE es).mem_iff.mp he
  have hm : (e.1, W e.2) ∈ es.map (fun e => (e.1, W e.2)) :=
    List.mem_map.mpr ⟨e, he2, rfl⟩
  have hl := mapIndex_of_mem (es.map (fun e => (e.1, W e.2))) e.1 (W e.2) (by rw [hk]; exact hnd) hm
  simp only [Function.comp_apply, hl]

theorem sortedProps_perm (W : Value → Writer → WRes) (es es' : List (Bytes × Value))
    (hnd : (es.map Prod.fst).Nodup) (hp : es'.Perm es) :
    sortedProps (es'.map (fun e => (e.1, W e.2))) =
      sortedProps (es.map (fun e => (e.1, W e.2))) := by
  have hnd' : (es'.map Prod.fst).Nodup := (hp.map Prod.fst).nodup_iff.mpr hnd
  rw [sortedProps_map W es hnd, sortedProps_map W es' hnd']
  congr 1
  have hs : ∀ l : List (Bytes × Value), (l.map Prod.fst).Nodup →
      List.Sorted (fun a b => strLess a.1 b.1 = true) (sortedEntries l) := by
    intro l hl
    have h := (sortKeys_spec (l.map Prod.fst)).2.2 hl
    rw [← sortedEntries_keys] at h
    exact List.pairwise_map.mp h
  have anti : IsAntisymm (Bytes × Value) (fun a b => strLess a.1 b.1 = true) :=
    ⟨fun a b h1 h2 => by
      rw [strLess_asymm a.1 b.1 h1] at h2
      exact Bool.noConfusion h2⟩
  exact List.eq_of_perm_of_sorted
    ((List.perm_insertionSort entryLE es').trans (hp.trans (List.perm_insertionSort entryLE es).symm))
    (hs es' hnd') (hs es hnd)

/-! ## C2 : the AMF0 round trip -/

theorem Appends_bytes_eq {v : Value} {bs : Bytes} (h : Appends (writeValueAux true v) bs) :
    amf0Bytes v = bs := by
  have h2 := (h Writer.empty rfl).2
  unfold amf0Bytes WriteValue
  rw [h2]
  simp [Writer.empty]

theorem Appends_null : Appends (writeValueAux true Value.nil) [0x05] := by
  intro w hw
  simp [writeValueAux, WriteNull, WriteByte_unbounded w _ hw, Amf0NullMarker]

theorem Appends_bool (b : Bool) :
    Appends (writeValueAux true (Value.bool b)) [0x01, if b then 0x01 else 0x00] := by
  intro w hw
  cases b <;>
    simp [writeValueAux, WriteBoolean, WriteByte_unbounded w _ hw, WriteByte_unbounded,
      Amf0BooleanMarker]

theorem Appends_float (bits : Nat) :
    Appends (writeValueAux true (Value.float bits)) (0x00 :: bigEndian 8 bits) := by
  intro w hw
  simp [writeValueAux, WriteDouble, WriteByte_unbounded w _ hw, binaryWrite_unbounded,
    Amf0NumberMarker]

theorem Appends_string (s : Bytes) :
    Appends (writeValueAux true (Value.string s)) (stringBytes s) := by
  intro w hw
  simp only [writeValueAux]
  exact WriteString_stringBytes w s hw

theorem WriteObjectName_unbounded (w : Writer) (name : Bytes) (hw : w.cap = none) :
    (WriteObjectName w name).err = none ∧
    (WriteObjectName w name).w =
      { buf := w.buf ++ (bigEndian 2 (name.length % 2 ^ 16) ++ name), cap := none } := by
  unfold WriteObjectName
  simp [WriteUTF8_unbounded w _ _ hw]

theorem propsLoop_appends (es : List (Bytes × Value))
    (hv : ∀ e ∈ es, Appends (writeValueAux true e.2) (amf0Bytes e.2)) (n : Nat) :
    Appends (propsLoop WriteObjectName WriteObjectEndMarker
      (es.map (fun e => (e.1, writeValueAux true e.2))) n) (amf0PropsBytes es) := by
  induction es generalizing n with
  | nil =>
    intro w hw
    simp [propsLoop, WriteObjectEndMarker, Write_unbounded w _ hw, amf0PropsBytes,
      Amf0ObjectEndMarker]
  | cons e rest ih =>
    obtain ⟨k, v⟩ := e
    intro w hw
    have h1 := WriteObjectName_unbounded w k hw
    have h2 := hv (k, v) (List.mem_cons_self _ _) (WriteObjectName w k).w (by rw [h1.2])
    have h3 := ih (fun e he => hv e (List.mem_cons_of_mem _ he))
      (n + (WriteObjectName w k).n + (writeValueAux true v (WriteObjectName w k).w).n)
      (writeValueAux true v (WriteObjectName w k).w).w (by rw [h2.2])
    simp only [List.map_cons, propsLoop, h1.1, h2.1]
    refine ⟨h3.1, ?_⟩
    rw [h3.2, h2.2, h1.2]
    simp [amf0PropsBytes, List.append_assoc]

theorem Appends_object (es : List (Bytes × Value)) (hnd : (es.map Prod.fst).Nodup)
    (hv : ∀ e ∈ es, Appends (writeValueAux true e.2) (amf0Bytes e.2)) :
    Appends (writeValueAux true (Value.object es))
      (0x03 :: amf0PropsBytes (sortedEntries es)) := by
  intro w hw
  have hv2 : ∀ e ∈ sortedEntries es, Appends (writeValueAux true e.2) (amf0Bytes e.2) :=
    fun e he => hv e ((List.perm_insertionSort entryLE es).mem_iff.mp he)
  have hm : WriteObjectMarker w =
      { n := 1, err := none, w := { buf := w.buf ++ [0x03], cap := none } } := by
    simp [WriteObjectMarker, WriteMarker, WriteByte_unbounded w _ hw, Amf0ObjectMarker]
  have h3 := propsLoop_appends (sortedEntries es) hv2 1
    { buf := w.buf ++ [0x03], cap := none } rfl
  simp only [writeValueAux, writeEntries_eq_map, sortedProps_map _ es hnd, hm]
  simp only [ne_eq, not_true_eq_false, if_false, Bool.false_eq_true]
  refine ⟨h3.1, ?_⟩
  rw [h3.2]
  simp

theorem mapIndex_append_none {α : Type} (obj : List (Bytes × α)) (k k1 : Bytes) (a : α)
    (h1 : mapIndex k obj = none) (h2 : k ≠ k1) : mapIndex k (obj ++ [(k1, a)]) = none := by
  induction obj with
  | nil => simp [mapIndex, h2]
  | cons e rest ih =>
    obtain ⟨k2, a2⟩ := e
    simp only [mapIndex] at h1
    split_ifs at h1 with hk
    simp [mapIndex, hk, ih h1]

theorem ReadUTF8_name (k rest : Bytes) (hk : k.length ≤ 0xFFFF) :
    ReadUTF8 (bigEndian 2 (k.length % 2 ^ 16) ++ k ++ rest) =
      { val := k, err := none, r := rest } := by
  rw [Nat.mod_eq_of_lt (by norm_num; omega)]
  exact ReadUTF8_append k rest hk

theorem amf0PropsBytes_length_pos (es : List (Bytes × Value)) :
    3 ≤ (amf0PropsBytes es).length := by
  induction es with
  | nil => simp [amf0PropsBytes]
  | cons e rest ih =>
    obtain ⟨k, v⟩ := e
    simp only [amf0PropsBytes, List.length_append]
    omega

/-- Reading back the properties of an object, given that every value reads back. -/
theorem ReadObjectPropertyFuel_props [Machine] (es : List (Bytes × Value))
    (hnames : ∀ e ∈ es, e.1 ≠ [] ∧ e.1.length ≤ 0xFFFF)
    (hv : ∀ e ∈ es, ∀ fuel rest, (amf0Bytes e.2).length ≤ fuel →
      ReadValueFuel fuel (amf0Bytes e.2 ++ rest) =
        some { val := e.2.canon, err := none, r := rest })
    (hnd : (es.map Prod.fst).Nodup) (obj : List (Bytes × Value))
    (hobj : ∀ e ∈ es, mapIndex e.1 obj = none) (fuel : Nat) (rest : Bytes)
    (hfuel : (amf0PropsBytes es).length ≤ fuel) :
    ReadObjectPropertyFuel fuel obj (amf0PropsBytes es ++ rest) =
      some { val := some (obj ++ es.map (fun e => (e.1, e.2.canon))), err := none,
             r := rest } := by
  induction es generalizing obj fuel with
  | nil =>
    simp only [amf0PropsBytes, List.length_cons, List.length_nil] at hfuel
    obtain ⟨f, rfl⟩ : ∃ f, fuel = f + 1 := ⟨fuel - 1, by omega⟩
    simp [ReadObjectPropertyFuel, amf0PropsBytes, ReadUTF8_zero_length, ReadByte,
      Amf0ObjectEndMarker]
  | cons e es1 ih =>
    obtain ⟨k, v⟩ := e
    have hk := hnames (k, v) (List.mem_cons_self _ _)
    simp only at hk
    have hlen := amf0PropsBytes_length_pos es1
    have hklen : 0 < k.length := List.length_pos.mpr hk.1
    simp only [amf0PropsBytes, List.length_append, bigEndian_length] at hfuel
    obtain ⟨f, rfl⟩ : ∃ f, fuel = f + 1 := ⟨fuel - 1, by omega⟩
    have hread : ReadUTF8 (amf0PropsBytes ((k, v) :: es1) ++ rest) =
        { val := k, err := none, r := amf0Bytes v ++ (amf0PropsBytes es1 ++ rest) } := by
      have := ReadUTF8_name k (amf0Bytes v ++ (amf0PropsBytes es1 ++ rest)) hk.2
      simpa [amf0PropsBytes, List.append_assoc] using this
    have hval := hv (k, v) (List.mem_cons_self _ _) f (amf0PropsBytes es1 ++ rest)
      (by simp only; omega)
    simp only [List.map_cons, List.nodup_cons] at hnd
    have hobj1 : ∀ e ∈ es1, mapIndex e.1 (obj ++ [(k, v.canon)]) = none := by
      intro e he
      apply mapIndex_append_none _ _ _ _ (hobj e (List.mem_cons_of_mem _ he))
      intro heq
      exact hnd.1 (heq ▸ List.mem_map_of_mem Prod.fst he)
    have hrec := ih (fun e he => hnames e (List.mem_cons_of_mem _ he))
      (fun e he => hv e (List.mem_cons_of_mem _ he)) hnd.2 (obj ++ [(k, v.canon)]) hobj1 f
      (by omega)
    have hdup := hobj (k, v) (List.mem_cons_self _ _)
    simp only at hdup hval
    simp only [ReadObjectPropertyFuel, hread, hk.1, if_false, hdup, Option.isSome_none,
      Bool.false_eq_true, hval, hrec]
    simp

theorem canonEntries_eq_map (es : List (Bytes × Value)) :
    canonEntries es = es.map (fun e => (e.1, e.2.canon)) := by
  induction es with
  | nil => rfl
  | cons e rest ih => obtain ⟨k, v⟩ := e; simp [canonEntries, ih]

theorem sortedEntries_canon (es : List (Bytes × Value)) :
    sortedEntries (canonEntries es) = (sortedEntries es).map (fun e => (e.1, e.2.canon)) := by
  rw [canonEntries_eq_map]
  unfold sortedEntries
  exact (List.map_insertionSort entryLE entryLE (fun e => (e.1, e.2.canon)) es
    (fun a _ b _ => Iff.rfl)).symm

theorem Same_entries (keyKind typeName : String) (isNil : Bool) (es : List (Bytes × Value))
    (h : ∀ e ∈ es, Value.Same e.2 e.2.canon) (pre : List (Bytes × Value)) :
    Value.Same (Value.map keyKind typeName isNil (pre ++ es))
      (Value.map keyKind typeName isNil (pre ++ canonEntries es)) := by
  induction es generalizing pre with
  | nil => exact Value.Same.refl _
  | cons e rest ih =>
    obtain ⟨k, v⟩ := e
    have h1 := Value.Same.entry keyKind typeName isNil pre rest k
      (h (k, v) (List.mem_cons_self _ _))
    have h2 := ih (fun e he => h e (List.mem_cons_of_mem _ he)) (pre ++ [(k, v.canon)])
    simp only [List.append_assoc, List.singleton_append] at h2
    exact Value.Same.trans h1 h2

/-- Every value of the round trip is the same Go value as its canonical listing. -/
theorem Amf0Plain_same_canon {v : Value} (h : Amf0Plain v) : Value.Same v v.canon := by
  induction h with
  | null => exact Value.Same.refl _
  | boolean b => exact Value.Same.refl _
  | number bits _ => exact Value.Same.refl _
  | string s _ => exact Value.Same.refl _
  | object es _ _ _ ih =>
    have h1 := Same_entries "string" "Object" false es ih []
    simp only [List.nil_append] at h1
    refine Value.Same.trans h1 ?_
    simp only [Value.canon]
    exact Value.Same.perm _ _ _ (List.perm_insertionSort entryLE _).symm

/-- The round trip with explicit depth bound: a value of the round trip is appended by
`WriteValue` as `amf0Bytes v`, and `ReadValueFuel` reads these bytes back with any bound
not below their number. -/
theorem Amf0Plain_roundtrip [Machine] {v : Value} (h : Amf0Plain v) :
    Appends (writeValueAux true v) (amf0Bytes v) ∧
    ∀ fuel rest, (amf0Bytes v).length ≤ fuel →
      ReadValueFuel fuel (amf0Bytes v ++ rest) =
        some { val := v.canon, err := none, r := rest } := by
  induction h with
  | null =>
    have ha := Appends_null
    rw [Appends_bytes_eq ha]
    refine ⟨ha, fun fuel rest hf => ?_⟩
    obtain ⟨f, rfl⟩ : ∃ f, fuel = f + 1 := ⟨fuel - 1, by simp at hf; omega⟩
    simp [ReadValueFuel, ReadMarker, ReadByte, Amf0NumberMarker, Amf0BooleanMarker,
      Amf0StringMarker, Amf0ObjectMarker, Amf0MovieclipMarker, Amf0NullMarker, Value.canon]
  | boolean b =>
    have ha := Appends_bool b
    rw [Appends_bytes_eq ha]
    refine ⟨ha, fun fuel rest hf => ?_⟩
    obtain ⟨f, rfl⟩ : ∃ f, fuel = f + 1 := ⟨fuel - 1, by simp at hf; omega⟩
    cases b <;>
      simp [ReadValueFuel, ReadMarker, ReadByte, Amf0NumberMarker, Amf0BooleanMarker,
        Value.canon]
  | number bits hb =>
    have ha := Appends_float bits
    rw [Appends_bytes_eq ha]
    refine ⟨ha, fun fuel rest hf => ?_⟩
    obtain ⟨f, rfl⟩ : ∃ f, fuel = f + 1 := ⟨fuel - 1, by simp at hf; omega⟩
    have hr : readFloat64 (bigEndian 8 bits ++ rest) =
        { val := bits, err := none, r := rest } := by
      unfold readFloat64
      rw [binaryRead_append _ _ 8 (bigEndian_length 8 _)]
      simp only [fromBigEndian_bigEndian]
      rw [Nat.mod_eq_of_lt (by norm_num at hb ⊢; omega)]
    simp [ReadValueFuel, ReadMarker, ReadByte, Amf0NumberMarker, hr, Value.canon]
  | string s hs =>
    have ha := Appends_string s
    rw [Appends_bytes_eq ha]
    refine ⟨ha, fun fuel rest hf => ?_⟩
    have hpos : 0 < (stringBytes s).length := by
      rw [stringBytes_eq s hs]; split_ifs <;> simp
    obtain ⟨f, rfl⟩ : ∃ f, fuel = f + 1 := ⟨fuel - 1, by omega⟩
    rw [ReadValueFuel_stringBytes f s rest hs]
    simp [Value.canon]
  | object es hnd hnames _ ih =>
    have ha := Appends_object es hnd (fun e he => (ih e he).1)
    rw [Appends_bytes_eq ha]
    refine ⟨ha, fun fuel rest hf => ?_⟩
    simp only [List.length_cons] at hf
    obtain ⟨f, rfl⟩ : ∃ f, fuel = f + 1 := ⟨fuel - 1, by omega⟩
    have hmem : ∀ e ∈ sortedEntries es, e ∈ es :=
      fun e he => (List.perm_insertionSort entryLE es).mem_iff.mp he
    have hnd2 : ((sortedEntries es).map Prod.fst).Nodup :=
      ((List.perm_insertionSort entryLE es).map Prod.fst).nodup_iff.mpr hnd
    have hloop := ReadObjectPropertyFuel_props (sortedEntries es)
      (fun e he => hnames e (hmem e he)) (fun e he => (ih e (hmem e he)).2) hnd2 []
      (fun _ _ => rfl) f rest (by omega)
    simp only [List.cons_append]
    simp only [ReadValueFuel, ReadMarker, ReadByte, Amf0NumberMarker, Amf0BooleanMarker,
      Amf0StringMarker, Amf0ObjectMarker, hloop, Value.canon, sortedEntries_canon]
    simp [objectValue]

/-- C2 (as amended): for every value v built from Null, Boolean, Number, String (shorter
than 2^32 bytes) and arbitrarily nested Objects whose property names are unique, non-empty
and at most 0xFFFF bytes long, and for every trailing byte sequence rest, WriteValue on a
sink that does not fail succeeds, and ReadValue applied to the bytes it wrote followed by
rest returns, without error, the value `v.canon`, which is v with the entries of its maps
listed in ascending order of key and so equal to v as a Go value (same keys, same values,
numbers bit for bit), and leaves exactly rest unread. -/
theorem amf0_roundtrip [Machine] (w : Writer) (v : Value) (rest : Bytes) (hw : w.cap = none)
    (hv : Amf0Plain v) :
    ∃ bs : Bytes,
      (WriteValue w v).err = none ∧
      (WriteValue w v).w = { buf := w.buf ++ bs, cap := none } ∧
      ReadValue (bs ++ rest) = some { val := v.canon, err := none, r := rest } ∧
      Value.Same v v.canon :=
  ⟨amf0Bytes v, ((Amf0Plain_roundtrip hv).1 w hw).1, ((Amf0Plain_roundtrip hv).1 w hw).2,
    (Amf0Plain_roundtrip hv).2 _ rest (by simp only [List.length_append]; omega),
    Amf0Plain_same_canon hv⟩

/-- Witness of C2 (as amended) at the object {"x": Null, "y": "hi"}, followed by the bytes
1, 2, 3. -/
theorem amf0_roundtrip_witness :
    ∃ bs : Bytes,
      (WriteValue Writer.empty
        (Value.object [([120], Value.nil), ([121], Value.string [104, 105])])).err = none ∧
      (WriteValue Writer.empty
        (Value.object [([120], Value.nil), ([121], Value.string [104, 105])])).w =
        { buf := Writer.empty.buf ++ bs, cap := none } ∧
      ReadValue (bs ++ [1, 2, 3]) =
        some { val := (Value.object [([120], Value.nil), ([121], Value.string [104, 105])]).canon,
               err := none, r := [1, 2, 3] } ∧
      Value.Same (Value.object [([120], Value.nil), ([121], Value.string [104, 105])])
        (Value.object [([120], Value.nil), ([121], Value.string [104, 105])]).canon :=
  amf0_roundtrip Writer.empty
    (Value.object [([120], Value.nil), ([121], Value.string [104, 105])]) [1, 2, 3] rfl
    (Amf0Plain.object _ (by decide) (by decide)
      (by
        intro e he
        simp only [List.mem_cons, List.mem_singleton, List.not_mem_nil, or_false] at he
        rcases he with rfl | rfl
        · exact Amf0Plain.null
        · exact Amf0Plain.string _ (by decide)))

/-- The example of C2 evaluated: the object {"x": Null, "y": "hi"} is written as 16 bytes and
read back as the object with the same two properties. -/
theorem amf0_roundtrip_example :
    (WriteValue Writer.empty
      (Value.object [([120], Value.nil), ([121], Value.string [104, 105])])).w.buf =
      [0x03, 0, 1, 120, 0x05, 0, 1, 121, 0x02, 0, 2, 104, 105, 0, 0, 0x09] ∧
    ReadValue [0x03, 0, 1, 120, 0x05, 0, 1, 121, 0x02, 0, 2, 104, 105, 0, 0, 0x09] =
      some { val := Value.object [([120], Value.nil), ([121], Value.string [104, 105])],
             err := none, r := [] } :=
  ⟨by decide, rfl⟩

/-- Counterexample to C2 as stated: for the String of 4294967296 = 2^32 zero bytes WriteValue
succeeds and emits 02 00 00 followed by the text; ReadValue on these bytes returns the empty
String and leaves the 4294967296 bytes unread. -/
theorem amf0_roundtrip_fails_at_4GiB_string :
    WriteValue Writer.empty (Value.string (List.replicate 4294967296 0)) =
      { n := 3, err := none,
        w := { buf := 0x02 :: 0 :: 0 :: List.replicate 4294967296 0, cap := none } } ∧
    ReadValue (0x02 :: 0 :: 0 :: List.replicate 4294967296 0) =
      some { val := Value.string [], err := none, r := List.replicate 4294967296 0 } ∧
    Value.string [] ≠ Value.string (List.replicate 4294967296 0) := by
  refine ⟨?_, ReadValueFuel_zero_length _ _, ?_⟩
  · have hw := WriteString_at_4GiB _ (List.length_replicate 4294967296 (0 : Nat))
    simp only [WriteValue, writeValueAux]
    exact hw
  · intro h
    exact replicate_ne_nil 4294967296 (by norm_num) (Value.string.inj h)

/-! ## The depth bound of the readers -/

set_option maxHeartbeats 1600000 in
theorem fuel_mono_step [Machine] (f : Nat) :
    (∀ r, ReadValueFuel f r ≠ none → ReadValueFuel (f + 1) r = ReadValueFuel f r) ∧
    (∀ obj r, ReadObjectPropertyFuel f obj r ≠ none →
      ReadObjectPropertyFuel (f + 1) obj r = ReadObjectPropertyFuel f obj r) ∧
    (∀ todo arr r, ReadStrictArrayLoop f todo arr r ≠ none →
      ReadStrictArrayLoop (f + 1) todo arr r = ReadStrictArrayLoop f todo arr r) ∧
    (∀ r, Amf3ReadValueFuel f r ≠ none → Amf3ReadValueFuel (f + 1) r = Amf3ReadValueFuel f r) ∧
    (∀ r, Amf3ReadObjectPropertyFuel f r ≠ none →
      Amf3ReadObjectPropertyFuel (f + 1) r = Amf3ReadObjectPropertyFuel f r) ∧
    (∀ obj r, Amf3ReadObjectPropertyLoop f obj r ≠ none →
      Amf3ReadObjectPropertyLoop (f + 1) obj r = Amf3ReadObjectPropertyLoop f obj r) := by
  induction f with
  | zero =>
    refine ⟨?_, ?_, ?_, ?_, ?_, ?_⟩
    · intro r h; exact absurd (by rw [ReadValueFuel]) h
    · intro obj r h; exact absurd (by rw [ReadObjectPropertyFuel]) h
    · intro todo arr r h; exact absurd (by rw [ReadStrictArrayLoop]) h
    · intro r h; exact absurd (by rw [Amf3ReadValueFuel]) h
    · intro r h; exact absurd (by rw [Amf3ReadObjectPropertyFuel]) h
    · intro obj r h; exact absurd (by rw [Amf3ReadObjectPropertyLoop]) h
  | succ f ih =>
    obtain ⟨ih1, ih2, ih3, ih4, ih5, ih6⟩ := ih
    refine ⟨?_, ?_, ?_, ?_, ?_, ?_⟩
    · intro r h
      rw [ReadValueFuel] at h
      rw [ReadValueFuel, ReadValueFuel]
      try simp only at h ⊢
      cases hm : (ReadMarker r).err
      · simp only [hm] at h ⊢
        by_cases h3 : (ReadMarker r).val = Amf0ObjectMarker
        · simp only [h3, Amf0ObjectMarker, Amf0NumberMarker, Amf0BooleanMarker,
            Amf0StringMarker, Nat.reduceEqDiff, if_false, if_true] at h ⊢
          have hx : ReadObjectPropertyFuel f [] (ReadMarker r).r ≠ none :=
            fun hn => h (by rw [hn])
          rw [ih2 _ _ hx]
        · by_cases h8 : (ReadMarker r).val = Amf0EcmaArrayMarker
          · simp only [h8, Amf0ObjectMarker, Amf0NumberMarker, Amf0BooleanMarker,
              Amf0StringMarker, Amf0MovieclipMarker, Amf0NullMarker, Amf0UndefinedMarker,
              Amf0EcmaArrayMarker, Nat.reduceEqDiff, if_false, if_true] at h ⊢
            cases hr : (Read (ReadMarker r).r 4).err
            · simp only [hr] at h ⊢
              have hx : ReadObjectPropertyFuel f [] (Read (ReadMarker r).r 4).r ≠ none :=
                fun hn => h (by rw [hn])
              rw [ih2 _ _ hx]
            · simp only [hr]
          · by_cases hA : (ReadMarker r).val = Amf0StrictArrayMarker
            · simp only [hA, Amf0ObjectMarker, Amf0NumberMarker, Amf0BooleanMarker,
                Amf0StringMarker, Amf0MovieclipMarker, Amf0NullMarker, Amf0UndefinedMarker,
                Amf0EcmaArrayMarker, Amf0ObjectEndMarker, Amf0StrictArrayMarker,
                Nat.reduceEqDiff, if_false, if_true] at h ⊢
              cases hr : (binaryRead (ReadMarker r).r 4).err
              · simp only [hr] at h ⊢
                split_ifs at h ⊢
                · rfl
                · rfl
                · exact ih3 _ _ _ h
              · simp only [hr]
            · by_cases hB : (ReadMarker r).val = Amf0AvmplusObjectMarker
              · simp only [hB, Amf0ObjectMarker, Amf0NumberMarker, Amf0BooleanMarker,
                  Amf0StringMarker, Amf0MovieclipMarker, Amf0NullMarker, Amf0UndefinedMarker,
                  Amf0EcmaArrayMarker, Amf0ObjectEndMarker, Amf0StrictArrayMarker,
                  Amf0DateMarker, Amf0LongStringMarker, Amf0UnsupportedMarker,
                  Amf0RecordsetMarker, Amf0XMLDocumentMarker, Amf0TypedObjectMarker,
                  Amf0AvmplusObjectMarker, Nat.reduceEqDiff, if_false, if_true] at h ⊢
                exact ih4 _ h
              · simp only [h3, h8, hA, hB, if_false]
      · rfl
    · intro obj r h
      rw [ReadObjectPropertyFuel] at h
      rw [ReadObjectPropertyFuel, ReadObjectPropertyFuel]
      try simp only at h ⊢
      cases hm : (ReadUTF8 r).err
      · simp only [hm] at h ⊢
        by_cases hn : (ReadUTF8 r).val = []
        · simp only [hn, if_true]
        by_cases hd : (mapIndex (ReadUTF8 r).val obj).isSome = true
        · simp only [hn, hd, if_true, if_false]
        simp only [hn, hd, if_false, Bool.false_eq_true] at h ⊢
        · have hx : ReadValueFuel f (ReadUTF8 r).r ≠ none := fun hn => h (by rw [hn])
          rw [ih1 _ hx]
          cases hv : ReadValueFuel f (ReadUTF8 r).r with
          | none => exact absurd hv hx
          | some rv =>
            simp only [hv] at h ⊢
            cases he : rv.err
            · simp only [he] at h ⊢
              exact ih2 _ _ h
            · simp only [he]
      · rfl
    · intro todo arr r h
      rw [ReadStrictArrayLoop] at h
      rw [ReadStrictArrayLoop, ReadStrictArrayLoop]
      try simp only at h ⊢
      split_ifs at h ⊢
      · rfl
      · have hx : ReadValueFuel f r ≠ none := fun hn => h (by rw [hn])
        rw [ih1 _ hx]
        cases hv : ReadValueFuel f r with
        | none => exact absurd hv hx
        | some rv =>
          simp only [hv] at h ⊢
          cases he : rv.err
          · simp only [he] at h ⊢
            exact ih3 _ _ _ h
          · simp only [he]
    · intro r h
      rw [Amf3ReadValueFuel] at h
      rw [Amf3ReadValueFuel, Amf3ReadValueFuel]
      try simp only at h ⊢
      cases hm : (ReadMarker r).err
      · simp only [hm] at h ⊢
        by_cases hA : (ReadMarker r).val = Amf3ObjectMarker
        · simp only [hA, Amf3UndefinedMarker, Amf3NullMarker, Amf3FalseMarker, Amf3TrueMarker,
            Amf3IntegerMarker, Amf3DoubleMarker, Amf3StringMarker, Amf3ArrayMarker,
            Amf3ObjectMarker, Nat.reduceEqDiff, if_false, if_true] at h ⊢
          have hx : Amf3ReadObjectPropertyFuel f (ReadMarker r).r ≠ none :=
            fun hn => h (by rw [hn])
          rw [ih5 _ hx]
        · simp only [hA, if_false]
      · rfl
    · intro r h
      rw [Amf3ReadObjectPropertyFuel] at h
      rw [Amf3ReadObjectPropertyFuel, Amf3ReadObjectPropertyFuel]
      try simp only at h ⊢
      cases hm : (amf3ReadTraits r).err
      · simp only [hm] at h ⊢
        exact ih6 _ _ h
      · rfl
    · intro obj r h
      rw [Amf3ReadObjectPropertyLoop] at h
      rw [Amf3ReadObjectPropertyLoop, Amf3ReadObjectPropertyLoop]
      try simp only at h ⊢
      cases hm : (Amf3ReadObjectName r).err
      · simp only [hm] at h ⊢
        by_cases hn : (Amf3ReadObjectName r).val = []
        · simp only [hn, if_true]
        by_cases hd : (mapIndex (Amf3ReadObjectName r).val obj).isSome = true
        · simp only [hn, hd, if_true, if_false]
        simp only [hn, hd, if_false, Bool.false_eq_true] at h ⊢
        · have hx : Amf3ReadValueFuel f (Amf3ReadObjectName r).r ≠ none :=
            fun hn => h (by rw [hn])
          rw [ih4 _ hx]
          cases hv : Amf3ReadValueFuel f (Amf3ReadObjectName r).r with
          | none => exact absurd hv hx
          | some rv =>
            simp only [hv] at h ⊢
            cases he : rv.err
            · simp only [he] at h ⊢
              exact ih6 _ _ h
            · simp only [he]
      · rfl

theorem fuel_mono [Machine] (k : Nat) :
    (∀ f r res, ReadValueFuel f r = some res → ReadValueFuel (f + k) r = some res) ∧
    (∀ f obj r res, ReadObjectPropertyFuel f obj r = some res →
      ReadObjectPropertyFuel (f + k) obj r = some res) ∧
    (∀ f r res, Amf3ReadValueFuel f r = some res → Amf3ReadValueFuel (f + k) r = some res) ∧
    (∀ f r res, Amf3ReadObjectPropertyFuel f r = some res →
      Amf3ReadObjectPropertyFuel (f + k) r = some res) ∧
    (∀ f obj r res, Amf3ReadObjectPropertyLoop f obj r = some res →
      Amf3ReadObjectPropertyLoop (f + k) obj r = some res) := by
  induction k with
  | zero => exact ⟨fun _ _ _ h => h, fun _ _ _ _ h => h, fun _ _ _ h => h, fun _ _ _ h => h,
      fun _ _ _ _ h => h⟩
  | succ k ih =>
    obtain ⟨i1, i2, i4, i5, i6⟩ := ih
    refine ⟨?_, ?_, ?_, ?_, ?_⟩
    · intro f r res h
      have h1 := i1 f r res h
      rw [← Nat.add_assoc, (fuel_mono_step (f + k)).1 r (by rw [h1]; exact Option.some_ne_none _)]
      exact h1
    · intro f obj r res h
      have h1 := i2 f obj r res h
      rw [← Nat.add_assoc,
        (fuel_mono_step (f + k)).2.1 obj r (by rw [h1]; exact Option.some_ne_none _)]
      exact h1
    · intro f r res h
      have h1 := i4 f r res h
      rw [← Nat.add_assoc,
        (fuel_mono_step (f + k)).2.2.2.1 r (by rw [h1]; exact Option.some_ne_none _)]
      exact h1
    · intro f r res h
      have h1 := i5 f r res h
      rw [← Nat.add_assoc,
        (fuel_mono_step (f + k)).2.2.2.2.1 r (by rw [h1]; exact Option.some_ne_none _)]
      exact h1
    · intro f obj r res h
      have h1 := i6 f obj r res h
      rw [← Nat.add_assoc,
        (fuel_mono_step (f + k)).2.2.2.2.2 obj r (by rw [h1]; exact Option.some_ne_none _)]
      exact h1

/-! ## The readers never give bytes back -/

theorem ReadByte_length (r : Reader) : (ReadByte r).r.length ≤ r.length := by
  cases r <;> simp [ReadByte]

theorem ReadMarker_length (r : Reader) : (ReadMarker r).r.length ≤ r.length :=
  ReadByte_length r

theorem ReadByte_consumes (r : Reader) (h : (ReadByte r).err = none) :
    (ReadByte r).r.length + 1 = r.length := by
  cases r <;> simp [ReadByte] at h ⊢

theorem Read_length (r : Reader) (len : Nat) : (Read r len).r.length ≤ r.length := by
  cases r with
  | nil => simp only [Read]; split_ifs <;> simp
  | cons a l => simp [Read]

theorem binaryRead_length (r : Reader) (size : Nat) :
    (binaryRead r size).r.length ≤ r.length := by
  unfold binaryRead
  split_ifs <;> simp

theorem binaryRead_consumes (r : Reader) (size : Nat) (h : (binaryRead r size).err = none) :
    (binaryRead r size).r.length + size = r.length := by
  unfold binaryRead at h ⊢
  split_ifs at h ⊢ with h1 <;> simp at h ⊢
  omega

theorem readFloat64_length (r : Reader) : (readFloat64 r).r.length ≤ r.length := by
  have h := binaryRead_length r 8
  unfold readFloat64
  simp only
  repeat' split
  all_goals (simp only; omega)

theorem ReadUTF8_length (r : Reader) : (ReadUTF8 r).r.length ≤ r.length := by
  have h := binaryRead_length r 2
  have h2 := Read_length (binaryRead r 2).r (fromBigEndian (binaryRead r 2).val)
  unfold ReadUTF8
  simp only
  repeat' split
  all_goals (simp only; omega)

theorem ReadUTF8_consumes (r : Reader) (he : (ReadUTF8 r).err = none) :
    (ReadUTF8 r).r.length + 2 ≤ r.length := by
  have h2 := Read_length (binaryRead r 2).r (fromBigEndian (binaryRead r 2).val)
  cases hb : (binaryRead r 2).err with
  | some e =>
    exfalso
    revert he
    unfold ReadUTF8
    simp [hb]
  | none =>
    have h1 := binaryRead_consumes r 2 hb
    unfold ReadUTF8
    simp only [hb]
    repeat' split
    all_goals (simp only; omega)

theorem ReadUTF8Long_length (r : Reader) : (ReadUTF8Long r).r.length ≤ r.length := by
  have h := binaryRead_length r 4
  have h2 := Read_length (binaryRead r 4).r (fromBigEndian (binaryRead r 4).val)
  unfold ReadUTF8Long
  simp only
  repeat' split
  all_goals (simp only; omega)

theorem ReadDate_length (r : Reader) : (ReadDate r).r.length ≤ r.length := by
  have h := binaryRead_length r 8
  have h2 := binaryRead_length (binaryRead r 8).r 2
  unfold ReadDate
  simp only
  repeat' split
  all_goals (simp only; omega)

theorem Amf3ReadU29_loop_length (k n : Nat) (r : Reader) :
    (Amf3ReadU29.loop k n r).r.length ≤ r.length := by
  induction k generalizing n r with
  | zero =>
    have h := ReadByte_length r
    simp only [Amf3ReadU29.loop]
    repeat' split
    all_goals (simp only; omega)
  | succ k ih =>
    have h := ReadByte_length r
    have h2 := ih (((n <<< 7) % 2 ^ 32 + ((ReadByte r).val &&& 0x7f)) % 2 ^ 32) (ReadByte r).r
    simp only [Amf3ReadU29.loop]
    repeat' split
    all_goals first
      | (simp only; omega)
      | omega

theorem Amf3ReadU29_loop_consumes (k n : Nat) (r : Reader)
    (he : (Amf3ReadU29.loop k n r).err = none) :
    (Amf3ReadU29.loop k n r).r.length + 1 ≤ r.length := by
  cases hb : (ReadByte r).err with
  | some e =>
    exfalso
    revert he
    cases k <;> simp [Amf3ReadU29.loop, hb]
  | none =>
    have h1 := ReadByte_consumes r hb
    cases k with
    | zero =>
      simp only [Amf3ReadU29.loop, hb]
      omega
    | succ k =>
      have h2 := Amf3ReadU29_loop_length k
        (((n <<< 7) % 2 ^ 32 + ((ReadByte r).val &&& 0x7f)) % 2 ^ 32) (ReadByte r).r
      simp only [Amf3ReadU29.loop, hb]
      repeat' split
      all_goals first
        | (simp only; omega)
        | omega

theorem Amf3ReadU29_length (r : Reader) : (Amf3ReadU29 r).r.length ≤ r.length :=
  Amf3ReadU29_loop_length 3 0 r

theorem Amf3ReadU29_consumes (r : Reader) (he : (Amf3ReadU29 r).err = none) :
    (Amf3ReadU29 r).r.length + 1 ≤ r.length :=
  Amf3ReadU29_loop_consumes 3 0 r he

theorem Amf3ReadUTF8_length (r : Reader) : (Amf3ReadUTF8 r).r.length ≤ r.length := by
  have h := Amf3ReadU29_length r
  have h2 := Read_length (Amf3ReadU29 r).r ((Amf3ReadU29 r).val >>> 1)
  unfold Amf3ReadUTF8
  simp only
  repeat' split
  all_goals (simp only; omega)

theorem Amf3ReadUTF8_consumes (r : Reader) (he : (Amf3ReadUTF8 r).err = none) :
    (Amf3ReadUTF8 r).r.length + 1 ≤ r.length := by
  have h2 := Read_length (Amf3ReadU29 r).r ((Amf3ReadU29 r).val >>> 1)
  cases hb : (Amf3ReadU29 r).err with
  | some e =>
    exfalso
    revert he
    unfold Amf3ReadUTF8
    simp [hb]
  | none =>
    have h1 := Amf3ReadU29_consumes r hb
    unfold Amf3ReadUTF8
    simp only [hb]
    repeat' split
    all_goals (simp only; omega)

theorem Amf3readByteArray_length (r : Reader) : (Amf3readByteArray r).r.length ≤ r.length := by
  have h := Amf3ReadU29_length r
  have h2 := Read_length (Amf3ReadU29 r).r ((Amf3ReadU29 r).val >>> 1)
  unfold Amf3readByteArray
  simp only
  repeat' split
  all_goals (simp only; omega)

theorem amf3ReadTraits_length (r : Reader) : (amf3ReadTraits r).r.length ≤ r.length := by
  have h := ReadByte_length r
  have h2 := ReadByte_length (ReadByte r).r
  unfold amf3ReadTraits
  simp only
  repeat' split
  all_goals (simp only; omega)

set_option maxHeartbeats 1600000 in
/-- No reader gives bytes back: the source after a call is not longer than before, and a
value read without error has consumed at least its marker. -/
theorem fuel_length [Machine] (f : Nat) :
    (∀ r res, ReadValueFuel f r = some res →
      res.r.length ≤ r.length ∧ (res.err = none → res.r.length + 1 ≤ r.length)) ∧
    (∀ obj r res, ReadObjectPropertyFuel f obj r = some res → res.r.length ≤ r.length) ∧
    (∀ todo arr r res, ReadStrictArrayLoop f todo arr r = some res →
      res.r.length ≤ r.length) ∧
    (∀ r res, Amf3ReadValueFuel f r = some res →
      res.r.length ≤ r.length ∧ (res.err = none → res.r.length + 1 ≤ r.length)) ∧
    (∀ r res, Amf3ReadObjectPropertyFuel f r = some res → res.r.length ≤ r.length) ∧
    (∀ obj r res, Amf3ReadObjectPropertyLoop f obj r = some res →
      res.r.length ≤ r.length) := by
  induction f with
  | zero =>
    refine ⟨?_, ?_, ?_, ?_, ?_, ?_⟩
    · intro r res h; rw [ReadValueFuel] at h; exact Option.noConfusion h
    · intro obj r res h; rw [ReadObjectPropertyFuel] at h; exact Option.noConfusion h
    · intro todo arr r res h; rw [ReadStrictArrayLoop] at h; exact Option.noConfusion h
    · intro r res h; rw [Amf3ReadValueFuel] at h; exact Option.noConfusion h
    · intro r res h; rw [Amf3ReadObjectPropertyFuel] at h; exact Option.noConfusion h
    · intro obj r res h; rw [Amf3ReadObjectPropertyLoop] at h; exact Option.noConfusion h
  | succ f ih =>
    obtain ⟨ih1, ih2, ih3, ih4, ih5, ih6⟩ := ih
    refine ⟨?_, ?_, ?_, ?_, ?_, ?_⟩
    · intro r res h
      have e0 := ReadMarker_length r
      have e1 := readFloat64_length (ReadMarker r).r
      have e2 := ReadByte_length (ReadMarker r).r
      have e3 := ReadUTF8_length (ReadMarker r).r
      have e4 := Read_length (ReadMarker r).r 4
      have e5 := binaryRead_length (ReadMarker r).r 4
      have e6 := ReadDate_length (ReadMarker r).r
      have e7 := ReadUTF8Long_length (ReadMarker r).r
      have i2 := ih2 [] (ReadMarker r).r
      have i2' := ih2 [] (Read (ReadMarker r).r 4).r
      have i3 := ih3 (fromBigEndian (binaryRead (ReadMarker r).r 4).val) []
        (binaryRead (ReadMarker r).r 4).r
      have i4 := ih4 (ReadMarker r).r
      rw [ReadValueFuel] at h
      simp only at h
      cases hm : (ReadMarker r).err
      · have e8 : (ReadMarker r).r.length + 1 = r.length := ReadByte_consumes r hm
        simp only [hm] at h
        obtain ⟨m, hmv⟩ : ∃ m, (ReadMarker r).val = m := ⟨_, rfl⟩
        rw [hmv] at h
        by_cases hlt : m < 18
        · interval_cases m <;>
            simp only [Amf0ObjectMarker, Amf0NumberMarker, Amf0BooleanMarker,
              Amf0StringMarker, Amf0MovieclipMarker, Amf0NullMarker, Amf0UndefinedMarker,
              Amf0EcmaArrayMarker, Amf0ObjectEndMarker, Amf0StrictArrayMarker,
              Amf0DateMarker, Amf0LongStringMarker, Amf0UnsupportedMarker,
              Amf0RecordsetMarker, Amf0XMLDocumentMarker, Amf0TypedObjectMarker,
              Amf0AvmplusObjectMarker, Nat.reduceEqDiff, if_false, if_true] at h
          all_goals first
            | (cases h
               simp only
               constructor
               · omega
               · intro hh
                 omega)
            | (split at h <;> cases h <;> simp only <;>
                (constructor
                 · omega
                 · intro hh
                   omega))
            | (split at h
               · cases h
               · rename_i ro heq
                 cases h
                 have hh := i2 _ heq
                 simp only
                 constructor
                 · omega
                 · intro hh
                   omega)
            | (split at h
               · cases h
                 simp only
                 constructor
                 · omega
                 · intro hh
                   omega
               · split at h
                 · cases h
                 · rename_i ro heq
                   have hh := i2' _ heq
                   split at h <;> cases h <;> simp only <;>
                     (constructor
                      · omega
                      · intro hh
                        omega))
            | (split at h
               · cases h
                 simp only
                 constructor
                 · omega
                 · intro hh
                   omega
               · split at h
                 · cases h
                   simp only
                   constructor
                   · omega
                   · intro hh
                     omega
                 · split at h
                   · cases h
                     simp only
                     constructor
                     · omega
                     · intro hh
                       omega
                   · have hh := i3 _ h
                     constructor
                     · omega
                     · intro hh
                       omega)
            | (obtain ⟨hh1, hh2⟩ := i4 _ h
               constructor
               · omega
               · intro hh
                 omega)
        · 
          have n0 : ¬ m = 0 := by omega
          have n1 : ¬ m = 1 := by omega
          have n2 : ¬ m = 2 := by omega
          have n3 : ¬ m = 3 := by omega
          have n4 : ¬ m = 4 := by omega
          have n5 : ¬ m = 5 := by omega
          have n6 : ¬ m = 6 := by omega
          have n7 : ¬ m = 7 := by omega
          have n8 : ¬ m = 8 := by omega
          have n9 : ¬ m = 9 := by omega
          have n10 : ¬ m = 10 := by omega
          have n11 : ¬ m = 11 := by omega
          have n12 : ¬ m = 12 := by omega
          have n13 : ¬ m = 13 := by omega
          have n14 : ¬ m = 14 := by omega
          have n15 : ¬ m = 15 := by omega
          have n16 : ¬ m = 16 := by omega
          have n17 : ¬ m = 17 := by omega
          simp only [Amf0ObjectMarker, Amf0NumberMarker, Amf0BooleanMarker,
              Amf0StringMarker, Amf0MovieclipMarker, Amf0NullMarker, Amf0UndefinedMarker,
              Amf0EcmaArrayMarker, Amf0ObjectEndMarker, Amf0StrictArrayMarker,
              Amf0DateMarker, Amf0LongStringMarker, Amf0UnsupportedMarker,
              Amf0RecordsetMarker, Amf0XMLDocumentMarker, Amf0TypedObjectMarker,
              Amf0AvmplusObjectMarker, n0, n1, n2, n3, n4, n5, n6, n7, n8, n9, n10, n11,
              n12, n13, n14, n15, n16, n17, if_false] at h
          cases h
          simp only
          constructor
          · omega
          · intro hh
            omega
      · simp only [hm] at h
        cases h
        simp only
        constructor
        · omega
        · intro hh
          cases hh
    · intro obj r res h
      have e0 := ReadUTF8_length r
      have e1 := ReadByte_length (ReadUTF8 r).r
      rw [ReadObjectPropertyFuel] at h
      simp only at h
      cases hm : (ReadUTF8 r).err
      · simp only [hm] at h
        by_cases hn : (ReadUTF8 r).val = []
        · simp only [hn, if_true] at h
          split at h
          · cases h
            simp only
            omega
          · split at h <;> cases h <;> simp only <;> omega
        by_cases hd : (mapIndex (ReadUTF8 r).val obj).isSome = true
        · simp only [hn, hd, if_true, if_false] at h
          cases h
          simp only
          omega
        simp only [hn, hd, if_false, Bool.false_eq_true] at h
        cases hv : ReadValueFuel f (ReadUTF8 r).r with
        | none => rw [hv] at h; exact Option.noConfusion h
        | some rv =>
          have e2 := (ih1 _ _ hv).1
          simp only [hv] at h
          cases he : rv.err
          · simp only [he] at h
            have e3 := ih2 _ _ _ h
            omega
          · simp only [he] at h
            cases h
            simp only
            omega
      · simp only [hm] at h
        cases h
        simp only
        omega
    · intro todo arr r res h
      rw [ReadStrictArrayLoop] at h
      split_ifs at h
      · cases h
        simp only
        omega
      · cases hv : ReadValueFuel f r with
        | none => rw [hv] at h; exact Option.noConfusion h
        | some rv =>
          have e2 := (ih1 _ _ hv).1
          simp only [hv] at h
          cases he : rv.err
          · simp only [he] at h
            have e3 := ih3 _ _ _ _ h
            omega
          · simp only [he] at h
            cases h
            simp only
            omega
    · intro r res h
      have e0 := ReadMarker_length r
      have e1 := readFloat64_length (ReadMarker r).r
      have e2 := Amf3ReadU29_length (ReadMarker r).r
      have e3 := Amf3ReadUTF8_length (ReadMarker r).r
      have e4 := Amf3readByteArray_length (ReadMarker r).r
      have i5 := ih5 (ReadMarker r).r
      rw [Amf3ReadValueFuel] at h
      simp only at h
      cases hm : (ReadMarker r).err
      · have e8 : (ReadMarker r).r.length + 1 = r.length := ReadByte_consumes r hm
        simp only [hm] at h
        obtain ⟨m, hmv⟩ : ∃ m, (ReadMarker r).val = m := ⟨_, rfl⟩
        rw [hmv] at h
        by_cases hlt : m < 13
        · interval_cases m <;>
            simp only [Amf3UndefinedMarker, Amf3NullMarker, Amf3FalseMarker, Amf3TrueMarker,
              Amf3IntegerMarker, Amf3DoubleMarker, Amf3StringMarker, Amf3ArrayMarker,
              Amf3ObjectMarker, Amf3ByteArrayMarker, Nat.reduceEqDiff, if_false, if_true] at h
          all_goals first
            | (cases h
               simp only
               constructor
               · omega
               · intro hh
                 omega)
            | (split at h
               · cases h
               · rename_i ro heq
                 cases h
                 have hh := i5 _ heq
                 simp only
                 constructor
                 · omega
                 · intro hh
                   omega)
        · 
          have n0 : ¬ m = 0 := by omega
          have n1 : ¬ m = 1 := by omega
          have n2 : ¬ m = 2 := by omega
          have n3 : ¬ m = 3 := by omega
          have n4 : ¬ m = 4 := by omega
          have n5 : ¬ m = 5 := by omega
          have n6 : ¬ m = 6 := by omega
          have n7 : ¬ m = 7 := by omega
          have n8 : ¬ m = 8 := by omega
          have n9 : ¬ m = 9 := by omega
          have n10 : ¬ m = 10 := by omega
          have n11 : ¬ m = 11 := by omega
          have n12 : ¬ m = 12 := by omega
          simp only [Amf3UndefinedMarker, Amf3NullMarker, Amf3FalseMarker, Amf3TrueMarker,
              Amf3IntegerMarker, Amf3DoubleMarker, Amf3StringMarker, Amf3ArrayMarker,
              Amf3ObjectMarker, Amf3ByteArrayMarker, n0, n1, n2, n3, n4, n5, n6, n7, n8, n9,
              n10, n11, n12, if_false] at h
          cases h
          simp only
          constructor
          · omega
          · intro hh
            omega
      · simp only [hm] at h
        cases h
        simp only
        constructor
        · omega
        · intro hh
          cases hh
    · intro r res h
      have e0 := amf3ReadTraits_length r
      rw [Amf3ReadObjectPropertyFuel] at h
      cases hm : (amf3ReadTraits r).err
      · simp only [hm] at h
        have e1 := ih6 _ _ _ h
        omega
      · simp only [hm] at h
        cases h
        simp only
        omega
    · intro obj r res h
      have e0 := Amf3ReadUTF8_length r
      rw [Amf3ReadObjectPropertyLoop] at h
      simp only [Amf3ReadObjectName] at h
      cases hm : (Amf3ReadUTF8 r).err
      · simp only [hm] at h
        by_cases hn : (Amf3ReadUTF8 r).val = []
        · simp only [hn, if_true] at h
          cases h
          simp only
          omega
        by_cases hd : (mapIndex (Amf3ReadUTF8 r).val obj).isSome = true
        · simp only [hn, hd, if_true, if_false] at h
          cases h
          simp only
          omega
        simp only [hn, hd, if_false, Bool.false_eq_true] at h
        cases hv : Amf3ReadValueFuel f (Amf3ReadUTF8 r).r with
        | none => rw [hv] at h; exact Option.noConfusion h
        | some rv =>
          have e2 := (ih4 _ _ hv).1
          simp only [hv] at h
          cases he : rv.err
          · simp only [he] at h
            have e3 := ih6 _ _ _ h
            omega
          · simp only [he] at h
            cases h
            simp only
            omega
      · simp only [hm] at h
        cases h
        simp only
        omega

theorem amf3ReadTraits_consumes (r : Reader) (he : (amf3ReadTraits r).err = none) :
    (amf3ReadTraits r).r.length + 2 ≤ r.length := by
  cases hb : (ReadByte r).err with
  | some e =>
    exfalso
    revert he
    unfold amf3ReadTraits
    simp [hb]
  | none =>
    have h1 := ReadByte_consumes r hb
    cases hc : (ReadByte (ReadByte r).r).err with
    | some e =>
      exfalso
      revert he
      unfold amf3ReadTraits
      simp only [hb, hc]
      split_ifs <;> simp
    | none =>
      have h2 := ReadByte_consumes (ReadByte r).r hc
      revert he
      unfold amf3ReadTraits
      simp only [hb, hc]
      repeat' split
      all_goals (intro he; first | (simp only; omega) | cases he)

set_option maxHeartbeats 1600000 in
/-- The depth bound is never reached when it exceeds the number of bytes of the source:
every call consumes input before it calls another. -/
theorem fuel_enough [Machine] (f : Nat) :
    (∀ r, r.length + 1 ≤ f → ReadValueFuel f r ≠ none) ∧
    (∀ obj r, r.length + 1 ≤ f → ReadObjectPropertyFuel f obj r ≠ none) ∧
    (∀ todo arr r, r.length + 2 ≤ f → ReadStrictArrayLoop f todo arr r ≠ none) ∧
    (∀ r, r.length + 1 ≤ f → Amf3ReadValueFuel f r ≠ none) ∧
    (∀ r, r.length + 1 ≤ f → Amf3ReadObjectPropertyFuel f r ≠ none) ∧
    (∀ obj r, r.length + 1 ≤ f → Amf3ReadObjectPropertyLoop f obj r ≠ none) := by
  induction f with
  | zero =>
    refine ⟨?_, ?_, ?_, ?_, ?_, ?_⟩ <;> intros <;> omega
  | succ f ih =>
    obtain ⟨ih1, ih2, ih3, ih4, ih5, ih6⟩ := ih
    refine ⟨?_, ?_, ?_, ?_, ?_, ?_⟩
    · intro r hf
      have e4 := Read_length (ReadMarker r).r 4
      rw [ReadValueFuel]
      simp only
      cases hm : (ReadMarker r).err
      · have e8 : (ReadMarker r).r.length + 1 = r.length := ReadByte_consumes r hm
        have x2 : ReadObjectPropertyFuel f [] (ReadMarker r).r ≠ none := ih2 _ _ (by omega)
        have x2' : ReadObjectPropertyFuel f [] (Read (ReadMarker r).r 4).r ≠ none :=
          ih2 _ _ (by omega)
        have x3 : (binaryRead (ReadMarker r).r 4).err = none →
            ReadStrictArrayLoop f (fromBigEndian (binaryRead (ReadMarker r).r 4).val) []
              (binaryRead (ReadMarker r).r 4).r ≠ none := by
          intro hb
          have e5 := binaryRead_consumes _ 4 hb
          exact ih3 _ _ _ (by omega)
        have x4 : Amf3ReadValueFuel f (ReadMarker r).r ≠ none := ih4 _ (by omega)
        simp only
        obtain ⟨m, hmv⟩ : ∃ m, (ReadMarker r).val = m := ⟨_, rfl⟩
        rw [hmv]
        by_cases hlt : m < 18
        · interval_cases m <;>
            simp only [Amf0ObjectMarker, Amf0NumberMarker, Amf0BooleanMarker,
              Amf0StringMarker, Amf0MovieclipMarker, Amf0NullMarker, Amf0UndefinedMarker,
              Amf0EcmaArrayMarker, Amf0ObjectEndMarker, Amf0StrictArrayMarker,
              Amf0DateMarker, Amf0LongStringMarker, Amf0UnsupportedMarker,
              Amf0RecordsetMarker, Amf0XMLDocumentMarker, Amf0TypedObjectMarker,
              Amf0AvmplusObjectMarker, Nat.reduceEqDiff, if_false, if_true]
          all_goals first
            | exact Option.some_ne_none _
            | exact x4
            | (split <;> exact Option.some_ne_none _)
            | (split
               · rename_i heq
                 exact absurd heq x2
               · exact Option.some_ne_none _)
            | (split
               · exact Option.some_ne_none _
               · split
                 · rename_i heq
                   exact absurd heq x2'
                 · split <;> exact Option.some_ne_none _)
            | (split
               · exact Option.some_ne_none _
               · rename_i heq
                 split
                 · exact Option.some_ne_none _
                 · split
                   · exact Option.some_ne_none _
                   · exact x3 heq)
        · 
          have n0 : ¬ m = 0 := by omega
          have n1 : ¬ m = 1 := by omega
          have n2 : ¬ m = 2 := by omega
          have n3 : ¬ m = 3 := by omega
          have n4 : ¬ m = 4 := by omega
          have n5 : ¬ m = 5 := by omega
          have n6 : ¬ m = 6 := by omega
          have n7 : ¬ m = 7 := by omega
          have n8 : ¬ m = 8 := by omega
          have n9 : ¬ m = 9 := by omega
          have n10 : ¬ m = 10 := by omega
          have n11 : ¬ m = 11 := by omega
          have n12 : ¬ m = 12 := by omega
          have n13 : ¬ m = 13 := by omega
          have n14 : ¬ m = 14 := by omega
          have n15 : ¬ m = 15 := by omega
          have n16 : ¬ m = 16 := by omega
          have n17 : ¬ m = 17 := by omega
          simp only [Amf0ObjectMarker, Amf0NumberMarker, Amf0BooleanMarker,
              Amf0StringMarker, Amf0MovieclipMarker, Amf0NullMarker, Amf0UndefinedMarker,
              Amf0EcmaArrayMarker, Amf0ObjectEndMarker, Amf0StrictArrayMarker,
              Amf0DateMarker, Amf0LongStringMarker, Amf0UnsupportedMarker,
              Amf0RecordsetMarker, Amf0XMLDocumentMarker, Amf0TypedObjectMarker,
              Amf0AvmplusObjectMarker, n0, n1, n2, n3, n4, n5, n6, n7, n8, n9, n10, n11,
              n12, n13, n14, n15, n16, n17, if_false]
          exact Option.some_ne_none _
      · exact Option.some_ne_none _
    · intro obj r hf
      rw [ReadObjectPropertyFuel]
      simp only
      cases hm : (ReadUTF8 r).err
      · have e0 := ReadUTF8_consumes r hm
        simp only
        by_cases hn : (ReadUTF8 r).val = []
        · simp only [hn, if_true]
          split
          · exact Option.some_ne_none _
          · split <;> exact Option.some_ne_none _
        by_cases hd : (mapIndex (ReadUTF8 r).val obj).isSome = true
        · simp only [hn, hd, if_true, if_false]
          exact Option.some_ne_none _
        simp only [hn, hd, if_false, Bool.false_eq_true]
        cases hv : ReadValueFuel f (ReadUTF8 r).r with
        | none => exact absurd hv (ih1 _ (by omega))
        | some rv =>
          have e2 := ((fuel_length f).1 _ _ hv).1
          simp only
          cases he : rv.err
          · simp only
            exact ih2 _ _ (by omega)
          · exact Option.some_ne_none _
      · exact Option.some_ne_none _
    · intro todo arr r hf
      rw [ReadStrictArrayLoop]
      split_ifs
      · exact Option.some_ne_none _
      · cases hv : ReadValueFuel f r with
        | none => exact absurd hv (ih1 _ (by omega))
        | some rv =>
          simp only
          cases he : rv.err
          · have e2 := ((fuel_length f).1 _ _ hv).2 he
            simp only
            exact ih3 _ _ _ (by omega)
          · exact Option.some_ne_none _
    · intro r hf
      rw [Amf3ReadValueFuel]
      simp only
      cases hm : (ReadMarker r).err
      · have e8 : (ReadMarker r).r.length + 1 = r.length := ReadByte_consumes r hm
        have x5 : Amf3ReadObjectPropertyFuel f (ReadMarker r).r ≠ none := ih5 _ (by omega)
        simp only
        obtain ⟨m, hmv⟩ : ∃ m, (ReadMarker r).val = m := ⟨_, rfl⟩
        rw [hmv]
        by_cases hlt : m < 13
        · interval_cases m <;>
            simp only [Amf3UndefinedMarker, Amf3NullMarker, Amf3FalseMarker, Amf3TrueMarker,
              Amf3IntegerMarker, Amf3DoubleMarker, Amf3StringMarker, Amf3ArrayMarker,
              Amf3ObjectMarker, Amf3ByteArrayMarker, Nat.reduceEqDiff, if_false, if_true]
          all_goals first
            | exact Option.some_ne_none _
            | (split
               · rename_i heq
                 exact absurd heq x5
               · exact Option.some_ne_none _)
        · 
          have n0 : ¬ m = 0 := by omega
          have n1 : ¬ m = 1 := by omega
          have n2 : ¬ m = 2 := by omega
          have n3 : ¬ m = 3 := by omega
          have n4 : ¬ m = 4 := by omega
          have n5 : ¬ m = 5 := by omega
          have n6 : ¬ m = 6 := by omega
          have n7 : ¬ m = 7 := by omega
          have n8 : ¬ m = 8 := by omega
          have n9 : ¬ m = 9 := by omega
          have n10 : ¬ m = 10 := by omega
          have n11 : ¬ m = 11 := by omega
          have n12 : ¬ m = 12 := by omega
          simp only [Amf3UndefinedMarker, Amf3NullMarker, Amf3FalseMarker, Amf3TrueMarker,
              Amf3IntegerMarker, Amf3DoubleMarker, Amf3StringMarker, Amf3ArrayMarker,
              Amf3ObjectMarker, Amf3ByteArrayMarker, n0, n1, n2, n3, n4, n5, n6, n7, n8, n9,
              n10, n11, n12, if_false]
          exact Option.some_ne_none _
      · exact Option.some_ne_none _
    · intro r hf
      rw [Amf3ReadObjectPropertyFuel]
      cases hm : (amf3ReadTraits r).err
      · have e0 := amf3ReadTraits_consumes r hm
        simp only
        exact ih6 _ _ (by omega)
      · exact Option.some_ne_none _
    · intro obj r hf
      rw [Amf3ReadObjectPropertyLoop]
      simp only [Amf3ReadObjectName]
      cases hm : (Amf3ReadUTF8 r).err
      · have e0 := Amf3ReadUTF8_consumes r hm
        simp only
        by_cases hn : (Amf3ReadUTF8 r).val = []
        · simp only [hn, if_true]
          exact Option.some_ne_none _
        by_cases hd : (mapIndex (Amf3ReadUTF8 r).val obj).isSome = true
        · simp only [hn, hd, if_true, if_false]
          exact Option.some_ne_none _
        simp only [hn, hd, if_false, Bool.false_eq_true]
        cases hv : Amf3ReadValueFuel f (Amf3ReadUTF8 r).r with
        | none => exact absurd hv (ih4 _ (by omega))
        | some rv =>
          have e2 := ((fuel_length f).2.2.2.1 _ _ hv).1
          simp only
          cases he : rv.err
          · simp only
            exact ih6 _ _ (by omega)
          · exact Option.some_ne_none _
      · exact Option.some_ne_none _

/-- On every in-memory source `ReadValue` and `Amf3ReadValue` return: the depth bound of
their definition is not reached. -/
theorem ReadValue_returns [Machine] (r : Reader) :
    (∃ res, ReadValue r = some res) ∧ (∃ res, Amf3ReadValue r = some res) := by
  constructor
  · exact Option.ne_none_iff_exists'.mp ((fuel_enough (r.length + 1)).1 r (le_refl _))
  · exact Option.ne_none_iff_exists'.mp ((fuel_enough (r.length + 1)).2.2.2.1 r (le_refl _))

/-! ## C4 : a repeated property name is rejected -/

theorem mapIndex_isSome_of_mem {α : Type} (obj : List (Bytes × α)) (k : Bytes)
    (h : k ∈ obj.map Prod.fst) : (mapIndex k obj).isSome = true := by
  induction obj with
  | nil => simp at h
  | cons e rest ih =>
    obtain ⟨k1, a⟩ := e
    simp only [mapIndex]
    split_ifs with hk
    · rfl
    · simp only [List.map_cons, List.mem_cons] at h
      rcases h with h | h
      · exact absurd h hk
      · exact ih h

theorem ReadValueFuel_of_ReadValue [Machine] (r : Reader) (res : RRes Value) (f : Nat)
    (h : ReadValue r = some res) (hf : r.length + 1 ≤ f) : ReadValueFuel f r = some res := by
  have h1 := (fuel_mono (f - (r.length + 1))).1 (r.length + 1) r res h
  rwa [Nat.add_sub_cancel' hf] at h1

theorem Amf3ReadValueFuel_of_Amf3ReadValue (r : Reader) (res : RRes Value) (f : Nat)
    (h : Amf3ReadValue r = some res) (hf : r.length + 1 ≤ f) :
    Amf3ReadValueFuel f r = some res := by
  have h1 := (fuel_mono (f - (r.length + 1))).2.2.1 (r.length + 1) r res h
  rwa [Nat.add_sub_cancel' hf] at h1

/-- The loop of `ReadObjectProperty`, started on `r`, reaches every state of `Amf0Decoded`
with a depth bound that still exceeds the number of bytes left. -/
theorem Amf0Decoded_run [Machine] {obj : List (Bytes × Value)} {r r1 : Reader}
    (h : Amf0Decoded obj r r1) (F : Nat) (hF : r.length + 1 ≤ F) :
    ∃ F1, r1.length + 1 ≤ F1 ∧
      ReadObjectPropertyFuel F [] r = ReadObjectPropertyFuel F1 obj r1 := by
  induction h with
  | start r => exact ⟨F, hF, rfl⟩
  | @property obj r r1 r2 r3 name v _ hname hne hnew hval ih =>
    obtain ⟨F1, hF1, heq⟩ := ih hF
    obtain ⟨f, rfl⟩ : ∃ f, F1 = f + 1 := ⟨F1 - 1, by omega⟩
    have hc := ReadUTF8_consumes r1 (by rw [hname])
    rw [hname] at hc
    simp only at hc
    have hv := ReadValueFuel_of_ReadValue r2 _ f hval (by omega)
    have hl := ((fuel_length f).1 _ _ hv).1
    simp only at hl
    refine ⟨f, by omega, ?_⟩
    rw [heq, ReadObjectPropertyFuel]
    simp only [hname, hne, if_false, hnew, Option.isSome_none, Bool.false_eq_true, hv]

theorem Amf3Decoded_run {obj : List (Bytes × Value)} {r r1 : Reader}
    (h : Amf3Decoded obj r r1) (F : Nat) (hF : r.length + 1 ≤ F) :
    ∃ F1, r1.length + 1 ≤ F1 ∧
      Amf3ReadObjectPropertyLoop F [] r = Amf3ReadObjectPropertyLoop F1 obj r1 := by
  induction h with
  | start r => exact ⟨F, hF, rfl⟩
  | @property obj r r1 r2 r3 name v _ hname hne hnew hval ih =>
    obtain ⟨F1, hF1, heq⟩ := ih hF
    obtain ⟨f, rfl⟩ : ∃ f, F1 = f + 1 := ⟨F1 - 1, by omega⟩
    have hc := Amf3ReadUTF8_consumes r1 (by
      have := congrArg RRes.err hname
      simpa [Amf3ReadObjectName] using this)
    have hr2 : (Amf3ReadUTF8 r1).r = r2 := by
      have := congrArg RRes.r hname
      simpa [Amf3ReadObjectName] using this
    rw [hr2] at hc
    have hv := Amf3ReadValueFuel_of_Amf3ReadValue r2 _ f hval (by omega)
    have hl := ((fuel_length f).2.2.2.1 _ _ hv).1
    simp only at hl
    refine ⟨f, by omega, ?_⟩
    rw [heq, Amf3ReadObjectPropertyLoop]
    simp only [hname, hne, if_false, hnew, Option.isSome_none, Bool.false_eq_true, hv]

theorem ReadObjectPropertyFuel_duplicate [Machine] (obj : List (Bytes × Value)) (r1 r2 : Reader)
    (name : Bytes) (f : Nat) (hname : ReadUTF8 r1 = { val := name, err := none, r := r2 })
    (hne : name ≠ []) (hdup : name ∈ obj.map Prod.fst) :
    ReadObjectPropertyFuel (f + 1) obj r1 =
      some { val := none, err := some (Error.propertyExist name), r := r2 } := by
  rw [ReadObjectPropertyFuel]
  simp only [hname, hne, if_false, mapIndex_isSome_of_mem obj name hdup, if_true]

theorem Amf3ReadObjectPropertyLoop_duplicate (obj : List (Bytes × Value)) (r1 r2 : Reader)
    (name : Bytes) (f : Nat)
    (hname : Amf3ReadObjectName r1 = { val := name, err := none, r := r2 })
    (hne : name ≠ []) (hdup : name ∈ obj.map Prod.fst) :
    Amf3ReadObjectPropertyLoop (f + 1) obj r1 =
      some { val := none, err := some (Error.propertyExist name), r := r2 } := by
  rw [Amf3ReadObjectPropertyLoop]
  simp only [hname, hne, if_false, mapIndex_isSome_of_mem obj name hdup, if_true]

theorem ReadObjectPropertyFuel_rejects [Machine] {obj : List (Bytes × Value)} {r r1 r2 : Reader}
    {name : Bytes} (hdec : Amf0Decoded obj r r1)
    (hname : ReadUTF8 r1 = { val := name, err := none, r := r2 })
    (hne : name ≠ []) (hdup : name ∈ obj.map Prod.fst) (F : Nat) (hF : r.length + 1 ≤ F) :
    ReadObjectPropertyFuel F [] r =
      some { val := none, err := some (Error.propertyExist name), r := r2 } := by
  obtain ⟨F1, hF1, heq⟩ := Amf0Decoded_run hdec F hF
  obtain ⟨f, rfl⟩ : ∃ f, F1 = f + 1 := ⟨F1 - 1, by omega⟩
  rw [heq, ReadObjectPropertyFuel_duplicate obj r1 r2 name f hname hne hdup]

theorem Amf3ReadObjectPropertyLoop_rejects {obj : List (Bytes × Value)} {r r1 r2 : Reader}
    {name : Bytes} (hdec : Amf3Decoded obj r r1)
    (hname : Amf3ReadObjectName r1 = { val := name, err := none, r := r2 })
    (hne : name ≠ []) (hdup : name ∈ obj.map Prod.fst) (F : Nat) (hF : r.length + 1 ≤ F) :
    Amf3ReadObjectPropertyLoop F [] r =
      some { val := none, err := some (Error.propertyExist name), r := r2 } := by
  obtain ⟨F1, hF1, heq⟩ := Amf3Decoded_run hdec F hF
  obtain ⟨f, rfl⟩ : ∃ f, F1 = f + 1 := ⟨F1 - 1, by omega⟩
  rw [heq, Amf3ReadObjectPropertyLoop_duplicate obj r1 r2 name f hname hne hdup]

/-- C4: on every AMF0 object or ECMA-array property stream `r`, and on every AMF3
dynamic-object property stream `r`, on which the decoder has read the properties `obj`
without error and then meets a (non-empty) name that is already among them, decoding fails
with PropertyExistError carrying that name and returns no Object (the nil Object, or nil for
the ECMA array): ReadObjectProperty and ReadValue after the Object marker 0x03 or after the
EcmaArray marker 0x08 and its four count bytes; Amf3ReadObjectProperty after the traits byte
0x0b and the class name 0x01, Amf3ReadValue after the Object marker 0x0a, and ReadValue after
the AVM+ marker 0x11. -/
theorem duplicate_property_rejected [Machine] :
    (∀ (obj : List (Bytes × Value)) (r r1 r2 : Reader) (name : Bytes),
      Amf0Decoded obj r r1 →
      ReadUTF8 r1 = { val := name, err := none, r := r2 } →
      name ≠ [] → name ∈ obj.map Prod.fst →
      ReadObjectProperty r =
        some { val := none, err := some (Error.propertyExist name), r := r2 } ∧
      ReadValue (0x03 :: r) =
        some { val := Value.nilObject, err := some (Error.propertyExist name), r := r2 } ∧
      ∀ c0 c1 c2 c3 : Nat, ReadValue (0x08 :: c0 :: c1 :: c2 :: c3 :: r) =
        some { val := Value.nil, err := some (Error.propertyExist name), r := r2 }) ∧
    (∀ (obj : List (Bytes × Value)) (r r1 r2 : Reader) (name : Bytes),
      Amf3Decoded obj r r1 →
      Amf3ReadObjectName r1 = { val := name, err := none, r := r2 } →
      name ≠ [] → name ∈ obj.map Prod.fst →
      Amf3ReadObjectProperty (0x0b :: 0x01 :: r) =
        some { val := none, err := some (Error.propertyExist name), r := r2 } ∧
      Amf3ReadValue (0x0a :: 0x0b :: 0x01 :: r) =
        some { val := Value.nilObject, err := some (Error.propertyExist name), r := r2 } ∧
      ReadValue (0x11 :: 0x0a :: 0x0b :: 0x01 :: r) =
        some { val := Value.nilObject, err := some (Error.propertyExist name), r := r2 }) := by
  constructor
  · intro obj r r1 r2 name hdec hname hne hdup
    have key := fun F hF => ReadObjectPropertyFuel_rejects hdec hname hne hdup F hF
    refine ⟨key _ (le_refl _), ?_, ?_⟩
    · have k1 := key (r.length + 1) (le_refl _)
      simp [ReadValue, ReadValueFuel, ReadMarker, ReadByte, Amf0NumberMarker,
        Amf0BooleanMarker, Amf0StringMarker, Amf0ObjectMarker, k1, objectValue]
    · intro c0 c1 c2 c3
      have k1 := key (r.length + 5) (by omega)
      simp [ReadValue, ReadValueFuel, ReadMarker, ReadByte, Read, Amf0NumberMarker,
        Amf0BooleanMarker, Amf0StringMarker, Amf0ObjectMarker, Amf0MovieclipMarker,
        Amf0NullMarker, Amf0UndefinedMarker, Amf0EcmaArrayMarker, k1]
  · intro obj r r1 r2 name hdec hname hne hdup
    have key := fun F hF => Amf3ReadObjectPropertyLoop_rejects hdec hname hne hdup F hF
    have k3 := key (r.length + 3) (by omega)
    have k2 := key (r.length + 2) (by omega)
    have k1 := key (r.length + 1) (by omega)
    refine ⟨?_, ?_, ?_⟩
    · simp [Amf3ReadObjectProperty, Amf3ReadObjectPropertyFuel, amf3ReadTraits, ReadByte, k3]
    · simp [Amf3ReadValue, Amf3ReadValueFuel, Amf3ReadObjectPropertyFuel, amf3ReadTraits,
        ReadMarker, ReadByte, Amf3UndefinedMarker, Amf3NullMarker, Amf3FalseMarker,
        Amf3TrueMarker, Amf3IntegerMarker, Amf3DoubleMarker, Amf3StringMarker,
        Amf3ArrayMarker, Amf3ObjectMarker, k2, objectValue]
    · simp [ReadValue, ReadValueFuel, Amf3ReadValueFuel, Amf3ReadObjectPropertyFuel,
        amf3ReadTraits, ReadMarker, ReadByte, Amf0NumberMarker,
        Amf0BooleanMarker, Amf0StringMarker, Amf0ObjectMarker, Amf0MovieclipMarker,
        Amf0NullMarker, Amf0UndefinedMarker, Amf0EcmaArrayMarker, Amf0ObjectEndMarker,
        Amf0StrictArrayMarker, Amf0DateMarker, Amf0LongStringMarker, Amf0UnsupportedMarker,
        Amf0RecordsetMarker, Amf0XMLDocumentMarker, Amf0TypedObjectMarker,
        Amf0AvmplusObjectMarker, Amf3UndefinedMarker, Amf3NullMarker, Amf3FalseMarker,
        Amf3TrueMarker, Amf3IntegerMarker, Amf3DoubleMarker, Amf3StringMarker,
        Amf3ArrayMarker, Amf3ObjectMarker, k2, objectValue]

/-- Witness of C4: the AMF0 property stream "a": Null, "a": Null, end, and the AMF3 property
stream "a": Null, "a": Null, end; on each the second "a" is rejected. -/
theorem duplicate_property_rejected_witness :
    (ReadObjectProperty [0, 1, 97, 0x05, 0, 1, 97, 0x05, 0, 0, 0x09] =
        some { val := none, err := some (Error.propertyExist [97]), r := [0x05, 0, 0, 0x09] } ∧
      ReadValue [0x03, 0, 1, 97, 0x05, 0, 1, 97, 0x05, 0, 0, 0x09] =
        some { val := Value.nilObject, err := some (Error.propertyExist [97]),
               r := [0x05, 0, 0, 0x09] } ∧
      ReadValue [0x08, 0, 0, 0, 2, 0, 1, 97, 0x05, 0, 1, 97, 0x05, 0, 0, 0x09] =
        some { val := Value.nil, err := some (Error.propertyExist [97]),
               r := [0x05, 0, 0, 0x09] }) ∧
    (Amf3ReadObjectProperty [0x0b, 0x01, 3, 97, 0x01, 3, 97, 0x01, 0x01] =
        some { val := none, err := some (Error.propertyExist [97]), r := [0x01, 0x01] } ∧
      Amf3ReadValue [0x0a, 0x0b, 0x01, 3, 97, 0x01, 3, 97, 0x01, 0x01] =
        some { val := Value.nilObject, err := some (Error.propertyExist [97]),
               r := [0x01, 0x01] } ∧
      ReadValue [0x11, 0x0a, 0x0b, 0x01, 3, 97, 0x01, 3, 97, 0x01, 0x01] =
        some { val := Value.nilObject, err := some (Error.propertyExist [97]),
               r := [0x01, 0x01] }) :=
  have h0 := duplicate_property_rejected.1 [([97], Value.nil)]
    [0, 1, 97, 0x05, 0, 1, 97, 0x05, 0, 0, 0x09] [0, 1, 97, 0x05, 0, 0, 0x09]
    [0x05, 0, 0, 0x09] [97]
    (@Amf0Decoded.property _ [] _ _ [0x05, 0, 1, 97, 0x05, 0, 0, 0x09] _ [97] Value.nil
      (Amf0Decoded.start _) rfl (by decide) rfl rfl)
    rfl (by decide) (by decide)
  have h3 := duplicate_property_rejected.2 [([97], Value.nil)]
    [3, 97, 0x01, 3, 97, 0x01, 0x01] [3, 97, 0x01, 0x01] [0x01, 0x01] [97]
    (@Amf3Decoded.property [] _ _ [0x01, 3, 97, 0x01, 0x01] _ [97] Value.nil
      (Amf3Decoded.start _) rfl (by decide) rfl rfl)
    rfl (by decide) (by decide)
  ⟨⟨h0.1, h0.2.1, h0.2.2 0 0 0 2⟩, h3⟩

/-! ## C11 : the AMF3 round trip -/

theorem Appends_amf3Bytes_eq {v : Value} {bs : Bytes} (h : Appends (Amf3WriteValue v) bs) :
    amf3Bytes v = bs := by
  have h2 := (h Writer.empty rfl).2
  unfold amf3Bytes
  rw [h2]
  simp [Writer.empty]

theorem Appends_amf3_null : Appends (Amf3WriteValue Value.nil) [0x01] := by
  intro w hw
  simp [Amf3WriteValue, Amf3WriteNull, WriteByte_unbounded w _ hw, Amf3NullMarker]

theorem Appends_amf3_undefined : Appends (Amf3WriteValue Value.undefined) [0x00] := by
  intro w hw
  simp [Amf3WriteValue, Amf3WriteUndefined, WriteByte_unbounded w _ hw, Amf3UndefinedMarker]

theorem Appends_amf3_bool (b : Bool) :
    Appends (Amf3WriteValue (Value.bool b)) [if b then 0x03 else 0x02] := by
  intro w hw
  cases b <;>
    simp [Amf3WriteValue, Amf3WriteBoolean, WriteByte_unbounded w _ hw, Amf3TrueMarker,
      Amf3FalseMarker]

theorem Appends_amf3_float (bits : Nat) :
    Appends (Amf3WriteValue (Value.float bits)) (0x05 :: bigEndian 8 bits) := by
  intro w hw
  simp [Amf3WriteValue, Amf3WriteDouble, WriteByte_unbounded w _ hw, binaryWrite_unbounded,
    Amf3DoubleMarker]

theorem Appends_amf3_string (s : Bytes) (hs : s.length < 2 ^ 28) :
    Appends (Amf3WriteValue (Value.string s)) (0x06 :: (u29Bytes (2 * s.length + 1) ++ s)) := by
  intro w hw
  have h1 := WriteByte_unbounded w Amf3StringMarker hw
  have h2 := Amf3WriteUTF8_unbounded { buf := w.buf ++ [Amf3StringMarker], cap := none } s rfl
    (by norm_num at hs ⊢; omega)
  simp only [Amf3WriteValue, Amf3WriteString, h1, h2]
  simp [Amf3StringMarker]

theorem amf3_propsLoop_appends (es : List (Bytes × Value))
    (hnames : ∀ e ∈ es, e.1.length < 2 ^ 28)
    (hv : ∀ e ∈ es, Appends (Amf3WriteValue e.2) (amf3Bytes e.2)) (n : Nat) :
    Appends (propsLoop Amf3WriteObjectName Amf3WriteObjectEndMarker
      (es.map (fun e => (e.1, Amf3WriteValue e.2))) n) (amf3PropsBytes es) := by
  induction es generalizing n with
  | nil =>
    intro w hw
    simp [propsLoop, Amf3WriteObjectEndMarker, WriteByte_unbounded w _ hw, amf3PropsBytes]
  | cons e rest ih =>
    obtain ⟨k, v⟩ := e
    intro w hw
    have hk := hnames (k, v) (List.mem_cons_self _ _)
    simp only at hk
    have h1 := Amf3WriteUTF8_unbounded w k hw (by norm_num at hk ⊢; omega)
    have h2 := hv (k, v) (List.mem_cons_self _ _)
      { buf := w.buf ++ (u29Bytes (2 * k.length + 1) ++ k), cap := none } rfl
    simp only at h2
    have h3 := ih (fun e he => hnames e (List.mem_cons_of_mem _ he))
      (fun e he => hv e (List.mem_cons_of_mem _ he))
      (n + (u29Bytes (2 * k.length + 1) ++ k).length +
        (Amf3WriteValue v
          { buf := w.buf ++ (u29Bytes (2 * k.length + 1) ++ k), cap := none }).n)
      (Amf3WriteValue v
        { buf := w.buf ++ (u29Bytes (2 * k.length + 1) ++ k), cap := none }).w
      (by rw [h2.2])
    simp only [List.map_cons, propsLoop, Amf3WriteObjectName, h1, h2.1]
    refine ⟨h3.1, ?_⟩
    rw [h3.2, h2.2]
    simp [amf3PropsBytes, List.append_assoc]

theorem Appends_amf3_object (es : List (Bytes × Value)) (hnd : (es.map Prod.fst).Nodup)
    (hnames : ∀ e ∈ es, e.1.length < 2 ^ 28)
    (hv : ∀ e ∈ es, Appends (Amf3WriteValue e.2) (amf3Bytes e.2)) :
    Appends (Amf3WriteValue (Value.object es))
      (0x0a :: 0x0b :: 0x01 :: amf3PropsBytes (sortedEntries es)) := by
  intro w hw
  have hmem : ∀ e ∈ sortedEntries es, e ∈ es :=
    fun e he => (List.perm_insertionSort entryLE es).mem_iff.mp he
  have hm : Amf3WriteObjectMarker w =
      { n := 1, err := none, w := { buf := w.buf ++ [0x0a], cap := none } } := by
    simp [Amf3WriteObjectMarker, WriteMarker, WriteByte_unbounded w _ hw, Amf3ObjectMarker]
  have hc : Amf3WriteUTF8 { buf := w.buf ++ [0x0a] ++ [0x0b], cap := none } [] =
      { n := 1, err := none,
        w := { buf := w.buf ++ [0x0a] ++ [0x0b] ++ [0x01], cap := none } } := by
    simp [Amf3WriteUTF8, Writer.WriteByte]
  have h3 := amf3_propsLoop_appends (sortedEntries es) (fun e he => hnames e (hmem e he))
    (fun e he => hv e (hmem e he)) (1 + 1 + 1)
    { buf := w.buf ++ [0x0a] ++ [0x0b] ++ [0x01], cap := none } rfl
  simp only [Amf3WriteValue, amf3WriteEntries_eq_map, sortedProps_map _ es hnd, amf3ObjectBody,
    hm, WriteByte_unbounded { buf := w.buf ++ [0x0a], cap := none } _ rfl, hc]
  simp only [ne_eq, not_true_eq_false, if_false]
  refine ⟨h3.1, ?_⟩
  rw [h3.2]
  simp

theorem Amf3ReadUTF8_end (rest : Bytes) :
    Amf3ReadUTF8 (0x01 :: rest) = { val := [], err := none, r := rest } := by
  have e : u29Bytes 1 = [1] := by decide
  have h := Amf3ReadUTF8_append [] rest (by decide)
  simpa [e] using h

theorem amf3PropsBytes_length_pos (es : List (Bytes × Value)) :
    1 ≤ (amf3PropsBytes es).length := by
  induction es with
  | nil => simp [amf3PropsBytes]
  | cons e rest ih =>
    obtain ⟨k, v⟩ := e
    simp only [amf3PropsBytes, List.length_append]
    omega

/-- Reading back the properties of an AMF3 object, given that every value reads back. -/
theorem Amf3ReadObjectPropertyLoop_props (es : List (Bytes × Value))
    (hnames : ∀ e ∈ es, e.1 ≠ [] ∧ e.1.length < 2 ^ 28)
    (hv : ∀ e ∈ es, ∀ fuel rest, (amf3Bytes e.2).length ≤ fuel →
      Amf3ReadValueFuel fuel (amf3Bytes e.2 ++ rest) =
        some { val := e.2.canon, err := none, r := rest })
    (hnd : (es.map Prod.fst).Nodup) (obj : List (Bytes × Value))
    (hobj : ∀ e ∈ es, mapIndex e.1 obj = none) (fuel : Nat) (rest : Bytes)
    (hfuel : (amf3PropsBytes es).length ≤ fuel) :
    Amf3ReadObjectPropertyLoop fuel obj (amf3PropsBytes es ++ rest) =
      some { val := some (obj ++ es.map (fun e => (e.1, e.2.canon))), err := none,
             r := rest } := by
  induction es generalizing obj fuel with
  | nil =>
    simp only [amf3PropsBytes, List.length_cons, List.length_nil] at hfuel
    obtain ⟨f, rfl⟩ : ∃ f, fuel = f + 1 := ⟨fuel - 1, by omega⟩
    simp [Amf3ReadObjectPropertyLoop, amf3PropsBytes, Amf3ReadObjectName, Amf3ReadUTF8_end]
  | cons e es1 ih =>
    obtain ⟨k, v⟩ := e
    have hk := hnames (k, v) (List.mem_cons_self _ _)
    simp only at hk
    have hlen := amf3PropsBytes_length_pos es1
    have hklen : 0 < k.length := List.length_pos.mpr hk.1
    simp only [amf3PropsBytes, List.length_append] at hfuel
    obtain ⟨f, rfl⟩ : ∃ f, fuel = f + 1 := ⟨fuel - 1, by omega⟩
    have hread : Amf3ReadObjectName (amf3PropsBytes ((k, v) :: es1) ++ rest) =
        { val := k, err := none, r := amf3Bytes v ++ (amf3PropsBytes es1 ++ rest) } := by
      have := Amf3ReadUTF8_append k (amf3Bytes v ++ (amf3PropsBytes es1 ++ rest)) hk.2
      simpa [Amf3ReadObjectName, amf3PropsBytes, List.append_assoc] using this
    have hval := hv (k, v) (List.mem_cons_self _ _) f (amf3PropsBytes es1 ++ rest)
      (by simp only; omega)
    simp only [List.map_cons, List.nodup_cons] at hnd
    have hobj1 : ∀ e ∈ es1, mapIndex e.1 (obj ++ [(k, v.canon)]) = none := by
      intro e he
      apply mapIndex_append_none _ _ _ _ (hobj e (List.mem_cons_of_mem _ he))
      intro heq
      exact hnd.1 (heq ▸ List.mem_map_of_mem Prod.fst he)
    have hrec := ih (fun e he => hnames e (List.mem_cons_of_mem _ he))
      (fun e he => hv e (List.mem_cons_of_mem _ he)) hnd.2 (obj ++ [(k, v.canon)]) hobj1 f
      (by omega)
    have hdup := hobj (k, v) (List.mem_cons_self _ _)
    simp only at hdup hval
    simp only [Amf3ReadObjectPropertyLoop, hread, hk.1, if_false, hdup, Option.isSome_none,
      Bool.false_eq_true, hval, hrec]
    simp

/-- Every value of the AMF3 round trip is the same Go value as its canonical listing. -/
theorem Amf3Plain_same_canon {v : Value} (h : Amf3Plain v) : Value.Same v v.canon := by
  induction h with
  | null => exact Value.Same.refl _
  | undefined => exact Value.Same.refl _
  | boolean b => exact Value.Same.refl _
  | number bits _ => exact Value.Same.refl _
  | string s _ => exact Value.Same.refl _
  | object es _ _ _ ih =>
    have h1 := Same_entries "string" "Object" false es ih []
    simp only [List.nil_append] at h1
    refine Value.Same.trans h1 ?_
    simp only [Value.canon]
    exact Value.Same.perm _ _ _ (List.perm_insertionSort entryLE _).symm

/-- The AMF3 round trip with explicit depth bound. -/
theorem Amf3Plain_roundtrip {v : Value} (h : Amf3Plain v) :
    Appends (Amf3WriteValue v) (amf3Bytes v) ∧
    ∀ fuel rest, (amf3Bytes v).length ≤ fuel →
      Amf3ReadValueFuel fuel (amf3Bytes v ++ rest) =
        some { val := v.canon, err := none, r := rest } := by
  induction h with
  | null =>
    have ha := Appends_amf3_null
    rw [Appends_amf3Bytes_eq ha]
    refine ⟨ha, fun fuel rest hf => ?_⟩
    obtain ⟨f, rfl⟩ : ∃ f, fuel = f + 1 := ⟨fuel - 1, by simp at hf; omega⟩
    simp [Amf3ReadValueFuel, ReadMarker, ReadByte, Amf3UndefinedMarker, Amf3NullMarker,
      Value.canon]
  | undefined =>
    have ha := Appends_amf3_undefined
    rw [Appends_amf3Bytes_eq ha]
    refine ⟨ha, fun fuel rest hf => ?_⟩
    obtain ⟨f, rfl⟩ : ∃ f, fuel = f + 1 := ⟨fuel - 1, by simp at hf; omega⟩
    simp [Amf3ReadValueFuel, ReadMarker, ReadByte, Amf3UndefinedMarker, Value.canon]
  | boolean b =>
    have ha := Appends_amf3_bool b
    rw [Appends_amf3Bytes_eq ha]
    refine ⟨ha, fun fuel rest hf => ?_⟩
    obtain ⟨f, rfl⟩ : ∃ f, fuel = f + 1 := ⟨fuel - 1, by simp at hf; omega⟩
    cases b <;>
      simp [Amf3ReadValueFuel, ReadMarker, ReadByte, Amf3UndefinedMarker, Amf3NullMarker,
        Amf3FalseMarker, Amf3TrueMarker, Value.canon]
  | number bits hb =>
    have ha := Appends_amf3_float bits
    rw [Appends_amf3Bytes_eq ha]
    refine ⟨ha, fun fuel rest hf => ?_⟩
    obtain ⟨f, rfl⟩ : ∃ f, fuel = f + 1 := ⟨fuel - 1, by simp at hf; omega⟩
    have hr : readFloat64 (bigEndian 8 bits ++ rest) =
        { val := bits, err := none, r := rest } := by
      unfold readFloat64
      rw [binaryRead_append _ _ 8 (bigEndian_length 8 _)]
      simp only [fromBigEndian_bigEndian]
      rw [Nat.mod_eq_of_lt (by norm_num at hb ⊢; omega)]
    simp [Amf3ReadValueFuel, ReadMarker, ReadByte, Amf3UndefinedMarker, Amf3NullMarker,
      Amf3FalseMarker, Amf3TrueMarker, Amf3IntegerMarker, Amf3DoubleMarker, hr, Value.canon]
  | string s hs =>
    have ha := Appends_amf3_string s hs
    rw [Appends_amf3Bytes_eq ha]
    refine ⟨ha, fun fuel rest hf => ?_⟩
    obtain ⟨f, rfl⟩ : ∃ f, fuel = f + 1 := ⟨fuel - 1, by simp at hf; omega⟩
    have hr := Amf3ReadUTF8_append s rest hs
    rw [List.append_assoc] at hr
    simp [Amf3ReadValueFuel, ReadMarker, ReadByte, Amf3UndefinedMarker, Amf3NullMarker,
      Amf3FalseMarker, Amf3TrueMarker, Amf3IntegerMarker, Amf3DoubleMarker, Amf3StringMarker,
      hr, Value.canon]
  | object es hnd hnames _ ih =>
    have ha := Appends_amf3_object es hnd (fun e he => (hnames e he).2)
      (fun e he => (ih e he).1)
    rw [Appends_amf3Bytes_eq ha]
    refine ⟨ha, fun fuel rest hf => ?_⟩
    have hpos := amf3PropsBytes_length_pos (sortedEntries es)
    simp only [List.length_cons] at hf
    obtain ⟨f, rfl⟩ : ∃ f, fuel = f + 1 + 1 := ⟨fuel - 2, by omega⟩
    have hmem : ∀ e ∈ sortedEntries es, e ∈ es :=
      fun e he => (List.perm_insertionSort entryLE es).mem_iff.mp he
    have hnd2 : ((sortedEntries es).map Prod.fst).Nodup :=
      ((List.perm_insertionSort entryLE es).map Prod.fst).nodup_iff.mpr hnd
    have hloop := Amf3ReadObjectPropertyLoop_props (sortedEntries es)
      (fun e he => hnames e (hmem e he)) (fun e he => (ih e (hmem e he)).2) hnd2 []
      (fun _ _ => rfl) f rest (by omega)
    simp only [List.cons_append]
    simp only [Amf3ReadValueFuel, Amf3ReadObjectPropertyFuel, amf3ReadTraits, ReadMarker,
      ReadByte, Amf3UndefinedMarker, Amf3NullMarker, Amf3FalseMarker, Amf3TrueMarker,
      Amf3IntegerMarker, Amf3DoubleMarker, Amf3StringMarker, Amf3ArrayMarker, Amf3ObjectMarker,
      hloop, Value.canon, sortedEntries_canon]
    simp [objectValue, hloop]

/-- C11: for every value v built from Null, Undefined, Boolean, Number, String (shorter than
2^28 bytes) and arbitrarily nested Objects whose property names are unique, non-empty and
shorter than 2^28 bytes, and for every trailing byte sequence rest: Amf3WriteValue on a sink
that does not fail succeeds and appends the bytes `amf3Bytes v`; when v is an Object these
are 0x0a, 0x0b, 0x01, then the (name, value) pairs in ascending order of name, each name as
the U29 of its flagged length and its bytes, each value as its own encoding, then the single
terminator byte 0x01 (nested Objects are values of the same kind, so the same holds for
them); and Amf3ReadValue applied to the bytes written followed by rest returns, without
error, the value `v.canon`, which is v with the entries of its maps listed in ascending
order of key and so equal to v as a Go value, and leaves exactly rest unread. -/
theorem amf3_roundtrip (w : Writer) (v : Value) (rest : Bytes) (hw : w.cap = none)
    (hv : Amf3Plain v) :
    (Amf3WriteValue v w).err = none ∧
    (Amf3WriteValue v w).w = { buf := w.buf ++ amf3Bytes v, cap := none } ∧
    (∀ entries : List (Bytes × Value), v = Value.object entries →
      amf3Bytes v = 0x0a :: 0x0b :: 0x01 :: amf3PropsBytes (sortedEntries entries)) ∧
    Amf3ReadValue (amf3Bytes v ++ rest) = some { val := v.canon, err := none, r := rest } ∧
    Value.Same v v.canon := by
  have h := Amf3Plain_roundtrip hv
  refine ⟨(h.1 w hw).1, (h.1 w hw).2, ?_,
    h.2 _ rest (by simp only [List.length_append]; omega), Amf3Plain_same_canon hv⟩
  intro entries he
  subst he
  cases hv with
  | object _ hnd hnames hvals =>
    exact Appends_amf3Bytes_eq (Appends_amf3_object entries hnd (fun e he => (hnames e he).2)
      (fun e he => (Amf3Plain_roundtrip (hvals e he)).1))

/-- Witness of C11 at the object {"y": "hi", "x": {"z": Undefined}}, written to the empty
sink and followed by the bytes 1, 2, 3. -/
theorem amf3_roundtrip_witness :
    (Amf3WriteValue (Value.object [([121], Value.string [104, 105]),
      ([120], Value.object [([122], Value.undefined)])]) Writer.empty).err = none ∧
    (Amf3WriteValue (Value.object [([121], Value.string [104, 105]),
      ([120], Value.object [([122], Value.undefined)])]) Writer.empty).w =
      { buf := Writer.empty.buf ++ amf3Bytes (Value.object [([121], Value.string [104, 105]),
          ([120], Value.object [([122], Value.undefined)])]), cap := none } ∧
    (∀ entries : List (Bytes × Value),
      Value.object [([121], Value.string [104, 105]),
        ([120], Value.object [([122], Value.undefined)])] = Value.object entries →
      amf3Bytes (Value.object [([121], Value.string [104, 105]),
          ([120], Value.object [([122], Value.undefined)])]) =
        0x0a :: 0x0b :: 0x01 :: amf3PropsBytes (sortedEntries entries)) ∧
    Amf3ReadValue (amf3Bytes (Value.object [([121], Value.string [104, 105]),
        ([120], Value.object [([122], Value.undefined)])]) ++ [1, 2, 3]) =
      some { val := (Value.object [([121], Value.string [104, 105]),
               ([120], Value.object [([122], Value.undefined)])]).canon,
             err := none, r := [1, 2, 3] } ∧
    Value.Same (Value.object [([121], Value.string [104, 105]),
        ([120], Value.object [([122], Value.undefined)])])
      (Value.object [([121], Value.string [104, 105]),
        ([120], Value.object [([122], Value.undefined)])]).canon :=
  amf3_roundtrip Writer.empty
    (Value.object [([121], Value.string [104, 105]),
      ([120], Value.object [([122], Value.undefined)])]) [1, 2, 3] rfl
    (Amf3Plain.object _ (by decide) (by decide)
      (by
        intro e he
        simp only [List.mem_cons, List.mem_singleton, List.not_mem_nil, or_false] at he
        rcases he with rfl | rfl
        · exact Amf3Plain.string _ (by decide)
        · exact Amf3Plain.object _ (by decide) (by decide)
            (by
              intro e he
              simp only [List.mem_singleton] at he
              subst he
              exact Amf3Plain.undefined)))

/-- The example of C11 evaluated: the object {"y": "hi", "x": {"z": Undefined}} is written as
0a 0b 01, the name "x" with the nested object, the name "y" with the String "hi", and 01;
these 19 bytes are read back as the object with the same properties. -/
theorem amf3_roundtrip_example :
    amf3Bytes (Value.object [([121], Value.string [104, 105]),
        ([120], Value.object [([122], Value.undefined)])]) =
      [0x0a, 0x0b, 0x01, 0x03, 120, 0x0a, 0x0b, 0x01, 0x03, 122, 0x00, 0x01,
       0x03, 121, 0x06, 0x05, 104, 105, 0x01] ∧
    Amf3ReadValue [0x0a, 0x0b, 0x01, 0x03, 120, 0x0a, 0x0b, 0x01, 0x03, 122, 0x00, 0x01,
       0x03, 121, 0x06, 0x05, 104, 105, 0x01] =
      some { val := Value.object [([120], Value.object [([122], Value.undefined)]),
               ([121], Value.string [104, 105])], err := none, r := [] } :=
  ⟨by decide, rfl⟩

/-! ## The writers do not depend on what the sink already holds -/

theorem Uniform_intro {f : Writer → WRes} (n : Nat) (e : Option Error) (bs : Bytes)
    (h : ∀ buf : Bytes, f { buf := buf, cap := none } =
      { n := n, err := e, w := { buf := buf ++ bs, cap := none } }) : Uniform f :=
  ⟨n, e, bs, fun w hw => by
    cases w with
    | mk buf cap => simp only at hw; subst hw; exact h buf⟩

theorem Uniform_appends {f : Writer → WRes} (h : Uniform f)
    (he : (f Writer.empty).err = none) : Appends f (f Writer.empty).w.buf := by
  obtain ⟨n, e, bs, hf⟩ := h
  have h0 := hf Writer.empty rfl
  rw [h0] at he ⊢
  simp only at he
  subst he
  intro w hw
  rw [hf w hw]
  simp [Writer.empty]

theorem Uniform_const (n : Nat) (e : Option Error) :
    Uniform (fun w => { n := n, err := e, w := w }) :=
  Uniform_intro n e [] (fun buf => by simp)

theorem Uniform_WriteString (s : Bytes) : Uniform (fun w => WriteString w s) := by
  by_cases h : 0xFFFF < s.length % 2 ^ 32
  · exact Uniform_intro _ _ _ (fun buf => by
      rw [WriteString_unbounded _ _ rfl, if_pos h])
  · exact Uniform_intro _ _ _ (fun buf => by
      rw [WriteString_unbounded _ _ rfl, if_neg h])

theorem Uniform_WriteBoolean (b : Bool) : Uniform (fun w => WriteBoolean w b) :=
  Uniform_intro 2 none [0x01, if b then 0x01 else 0x00] (fun buf => by
    cases b <;> simp [WriteBoolean, Writer.WriteByte, Amf0BooleanMarker])

theorem Uniform_WriteDouble (num : Nat) : Uniform (fun w => WriteDouble w num) :=
  Uniform_intro 9 none (0x00 :: bigEndian 8 num) (fun buf => by
    simp [WriteDouble, Writer.WriteByte, binaryWrite_unbounded, Amf0NumberMarker])

theorem Uniform_WriteNull : Uniform WriteNull :=
  Uniform_intro 1 none [0x05] (fun buf => by
    simp [WriteNull, Writer.WriteByte, Amf0NullMarker])

theorem Uniform_WriteUndefined : Uniform WriteUndefined :=
  Uniform_intro 1 none [0x06] (fun buf => by
    simp [WriteUndefined, Writer.WriteByte, Amf0UndefinedMarker])

theorem Uniform_WriteObjectName (name : Bytes) : Uniform (fun w => WriteObjectName w name) :=
  Uniform_intro ((name.length % 2 ^ 16 + 2) % 2 ^ 16) none
    (bigEndian 2 (name.length % 2 ^ 16) ++ name) (fun buf => by
    simp [WriteObjectName, WriteUTF8_unbounded])

theorem Uniform_WriteObjectEndMarker : Uniform WriteObjectEndMarker :=
  Uniform_intro 3 none [0x00, 0x00, 0x09] (fun buf => by
    simp [WriteObjectEndMarker, Writer.Write, Amf0ObjectEndMarker])

theorem Uniform_WriteEcmaArray (arr : List Value) : Uniform (fun w => WriteEcmaArray w arr) :=
  Uniform_intro 1 (some Error.binaryWrite) [0x08] (fun buf => by
    simp [WriteEcmaArray, WriteMarker, Writer.WriteByte, Amf0EcmaArrayMarker])

theorem Uniform_propsLoop (nameW : Writer → Bytes → WRes) (fin : Writer → WRes)
    (hname : ∀ name, Uniform (fun w => nameW w name)) (hfin : Uniform fin)
    (l : List (Bytes × (Writer → WRes))) (hl : ∀ p ∈ l, Uniform p.2) (n : Nat) :
    Uniform (propsLoop nameW fin l n) := by
  induction l generalizing n with
  | nil =>
    obtain ⟨m, e, bs, h⟩ := hfin
    exact ⟨n + m, e, bs, fun w hw => by simp only [propsLoop, h w hw]⟩
  | cons p rest ih =>
    obtain ⟨name, valueW⟩ := p
    obtain ⟨m1, e1, bs1, h1⟩ := hname name
    obtain ⟨m2, e2, bs2, h2⟩ := hl (name, valueW) (List.mem_cons_self _ _)
    simp only at h1 h2
    cases e1 with
    | some e => exact ⟨n, some e, bs1, fun w hw => by simp only [propsLoop, h1 w hw]⟩
    | none =>
      cases e2 with
      | some e =>
        exact ⟨n + m1, some e, bs1 ++ bs2, fun w hw => by
          have a1 := h1 w hw
          have a2 := h2 { buf := w.buf ++ bs1, cap := none } rfl
          simp only [propsLoop, a1, a2, List.append_assoc]⟩
      | none =>
        obtain ⟨m3, e3, bs3, h3⟩ :=
          ih (fun p hp => hl p (List.mem_cons_of_mem _ hp)) (n + m1 + m2)
        exact ⟨m3, e3, bs1 ++ (bs2 ++ bs3), fun w hw => by
          have a1 := h1 w hw
          have a2 := h2 { buf := w.buf ++ bs1, cap := none } rfl
          have a3 := h3 { buf := w.buf ++ (bs1 ++ bs2), cap := none } rfl
          simp only [propsLoop, a1, a2, a3, List.append_assoc]⟩

theorem mapIndex_mem {α : Type} (l : List (Bytes × α)) (k : Bytes) (a : α)
    (h : mapIndex k l = some a) : (k, a) ∈ l := by
  induction l with
  | nil => simp [mapIndex] at h
  | cons e rest ih =>
    obtain ⟨k1, a1⟩ := e
    simp only [mapIndex] at h
    split_ifs at h with hk
    · simp only [Option.some.injEq] at h
      subst hk; subst h
      exact List.mem_cons_self _ _
    · exact List.mem_cons_of_mem _ (ih h)

theorem Uniform_sortedProps (ws : List (Bytes × (Writer → WRes)))
    (h : ∀ p ∈ ws, Uniform p.2) : ∀ p ∈ sortedProps ws, Uniform p.2 := by
  intro p hp
  unfold sortedProps at hp
  obtain ⟨k, _, rfl⟩ := List.mem_map.mp hp
  simp only
  cases hm : mapIndex k ws with
  | none => exact Uniform_const _ _
  | some f =>
    have := h (k, f) (mapIndex_mem ws k f hm)
    simpa using this

theorem indexedProps_mem (fs : List (Writer → WRes)) (i : Nat)
    (p : Bytes × (Writer → WRes)) (hp : p ∈ indexedProps i fs) : p.2 ∈ fs := by
  induction fs generalizing i with
  | nil => simp [indexedProps] at hp
  | cons f rest ih =>
    simp only [indexedProps, List.mem_cons] at hp
    rcases hp with rfl | hp
    · exact List.mem_cons_self _ _
    · exact List.mem_cons_of_mem _ (ih (i + 1) hp)

theorem WriteMarker_unbounded (buf : Bytes) (mark : Nat) :
    WriteMarker { buf := buf, cap := none } mark =
      { n := 1, err := none, w := { buf := buf ++ [mark], cap := none } } := by
  simp [WriteMarker, Writer.WriteByte]

theorem Uniform_object_body (props : List (Bytes × (Writer → WRes)))
    (h : ∀ p ∈ props, Uniform p.2) :
    Uniform (fun w =>
      let r1 := WriteObjectMarker w
      match r1.err with
      | some e => { n := r1.n, err := some e, w := r1.w }
      | none => propsLoop WriteObjectName WriteObjectEndMarker props r1.n r1.w) := by
  obtain ⟨m, e, bs, hl⟩ := Uniform_propsLoop WriteObjectName WriteObjectEndMarker
    Uniform_WriteObjectName Uniform_WriteObjectEndMarker props h 1
  refine Uniform_intro m e (0x03 :: bs) (fun buf => ?_)
  have a := hl { buf := buf ++ [0x03], cap := none } rfl
  simp only [WriteObjectMarker, WriteMarker_unbounded, Amf0ObjectMarker, a]
  simp

theorem Uniform_array_body (length count : Nat) (fs : List (Writer → WRes))
    (h : ∀ f ∈ fs, Uniform f) :
    Uniform (fun w =>
      let r1 := WriteMarker w Amf0EcmaArrayMarker
      match r1.err with
      | some e => { n := r1.n, err := some e, w := r1.w }
      | none =>
        let r2 := binaryWrite r1.w 4 length
        match r2.err with
        | some e => { n := r1.n, err := some e, w := r2.w }
        | none =>
          propsLoop WriteObjectName WriteObjectEndMarker
            ((indexedProps 0 fs).take count) (r1.n + 4) r2.w) := by
  obtain ⟨m, e, bs, hl⟩ := Uniform_propsLoop WriteObjectName WriteObjectEndMarker
    Uniform_WriteObjectName Uniform_WriteObjectEndMarker ((indexedProps 0 fs).take count)
    (fun p hp => h p.2 (indexedProps_mem fs 0 p (List.mem_of_mem_take hp))) (1 + 4)
  refine Uniform_intro m e (0x08 :: (bigEndian 4 length ++ bs)) (fun buf => ?_)
  have a := hl { buf := buf ++ [0x08] ++ bigEndian 4 length, cap := none } rfl
  simp only [WriteMarker_unbounded, Amf0EcmaArrayMarker,
    binaryWrite_unbounded { buf := buf ++ [0x08], cap := none } 4 length rfl, a]
  simp

theorem Uniform_struct_body (g : Writer → WRes) (h : Uniform g) :
    Uniform (fun w =>
      let r1 := WriteObjectMarker w
      match r1.err with
      | some e => { n := r1.n, err := some e, w := r1.w }
      | none =>
        let r2 := g r1.w
        match r2.err with
        | some e => { n := r1.n, err := some e, w := r2.w }
        | none =>
          let r3 := WriteObjectEndMarker r2.w
          { n := r1.n + r2.n + r3.n, err := r3.err, w := r3.w }) := by
  obtain ⟨m, e, bs, hg⟩ := h
  have a := fun buf : Bytes => hg { buf := buf ++ [0x03], cap := none } rfl
  cases e with
  | some e =>
    refine Uniform_intro 1 (some e) (0x03 :: bs) (fun buf => ?_)
    simp only [WriteObjectMarker, WriteMarker_unbounded, Amf0ObjectMarker, a]
    simp
  | none =>
    refine Uniform_intro (1 + m + 3) none (0x03 :: (bs ++ [0x00, 0x00, 0x09])) (fun buf => ?_)
    simp only [WriteObjectMarker, WriteMarker_unbounded, Amf0ObjectMarker, a]
    simp [WriteObjectEndMarker, Writer.Write, Amf0ObjectEndMarker]

theorem Uniform_congr {f g : Writer → WRes} (h : ∀ w, f w = g w) (hg : Uniform g) :
    Uniform f := by
  have e : f = g := funext h
  rw [e]
  exact hg

theorem Uniform_iface (top : Bool) (typeName : String) (dyn : Value)
    (hdyn : Uniform (writeValueAux true dyn))
    (hent : ∀ keyKind tn isNil entries, dyn = Value.map keyKind tn isNil entries →
      ∀ p ∈ writeEntries entries, Uniform p.2) :
    Uniform (writeValueAux top (Value.iface typeName dyn)) := by
  cases top
  · cases dyn with
    | undefined => exact Uniform_congr (fun _ => rfl) Uniform_WriteUndefined
    | map keyKind tn isNil entries =>
      by_cases h : keyKind = "string" ∧ tn = "Object"
      · obtain ⟨rfl, rfl⟩ := h
        exact Uniform_congr (fun _ => rfl) (Uniform_object_body _ (hent _ _ _ _ rfl))
      · exact Uniform_congr
          (fun w => by
            conv => lhs; unfold writeValueAux
            rw [if_neg Bool.false_ne_true]
            split
            · rename_i h1; cases h1
            · rename_i h1; cases h1; simp at h
            · rename_i h1; cases h1
            · rfl)
          (Uniform_const 0 (some (Error.unsupportedType typeName)))
    | slice elemKind elems =>
      by_cases h : elemKind = "interface"
      · subst h
        exact Uniform_congr (fun _ => rfl) (Uniform_WriteEcmaArray elems)
      · exact Uniform_congr
          (fun w => by
            conv => lhs; unfold writeValueAux
            rw [if_neg Bool.false_ne_true]
            split
            · rename_i h1; cases h1
            · rename_i h1; cases h1
            · rename_i h1; cases h1; simp at h
            · rfl)
          (Uniform_const 0 (some (Error.unsupportedType typeName)))
    | _ =>
      exact Uniform_congr (fun _ => rfl)
        (Uniform_const 0 (some (Error.unsupportedType typeName)))
  · exact Uniform_congr (fun _ => rfl) hdyn

theorem Uniform_then (f : Writer → WRes) (g : Nat → Writer → WRes) (n : Nat)
    (hf : Uniform f) (hg : ∀ m, Uniform (g m)) :
    Uniform (fun w =>
      match (f w).err with
      | some e => { n := n, err := some e, w := (f w).w }
      | none => g (f w).n (f w).w) := by
  obtain ⟨m, e, bs, h⟩ := hf
  cases e with
  | some e => exact ⟨n, some e, bs, fun w hw => by simp only [h w hw]⟩
  | none =>
    obtain ⟨m3, e3, bs3, h3⟩ := hg m
    exact ⟨m3, e3, bs ++ bs3, fun w hw => by
      have a3 := h3 { buf := w.buf ++ bs, cap := none } rfl
      simp only [h w hw, a3, List.append_assoc]⟩

theorem Uniform_roPanic : Uniform roPanic :=
  Uniform_const 0 (some (Error.reflectPanic "Interface on unexported field"))

theorem Uniform_WriteTimeFields (d : Option Nat) (n : Nat) : Uniform (WriteTimeFields d n) := by
  unfold WriteTimeFields
  apply Uniform_propsLoop WriteObjectName _ Uniform_WriteObjectName (Uniform_const 0 none)
  intro p hp
  cases d with
  | none =>
    simp only [timeProps, List.mem_cons, List.mem_singleton, List.not_mem_nil, or_false] at hp
    rcases hp with rfl | rfl | rfl
    · exact Uniform_WriteDouble _
    · exact Uniform_WriteDouble _
    · exact Uniform_WriteNull
  | some bits =>
    simp only [timeProps, List.mem_cons, List.mem_singleton, List.not_mem_nil, or_false] at hp
    rcases hp with rfl | rfl | rfl
    · exact Uniform_WriteDouble _
    · exact Uniform_WriteDouble _
    · exact Uniform_roPanic

theorem Uniform_WriteStruct_cons (fieldName tag : Bytes) (anonymous : Bool) (value : Value)
    (rest : List (Bytes × Bytes × Bool × Value)) (n : Nat)
    (hrest : ∀ n, Uniform (WriteStruct rest n))
    (hval : Uniform (writeValueAux false value))
    (hsub : ∀ fields, value = Value.struct fields ∨ value = Value.unexported (Value.struct fields) →
      ∀ n, Uniform (WriteStruct fields n)) :
    Uniform (WriteStruct ((fieldName, tag, anonymous, value) :: rest) n) := by
  by_cases ha : anonymous = true
  · subst ha
    cases value with
    | struct fields =>
      exact Uniform_congr (fun _ => rfl)
        (Uniform_then (WriteStruct fields 0) (fun m => WriteStruct rest (n + m)) n
          (hsub fields (Or.inl rfl) 0) (fun m => hrest (n + m)))
    | undefined =>
      exact Uniform_congr (fun _ => rfl) (hrest n)
    | time d =>
      exact Uniform_congr (fun _ => rfl)
        (Uniform_then (WriteTimeFields d 0) (fun m => WriteStruct rest (n + m)) n
          (Uniform_WriteTimeFields d 0) (fun m => hrest (n + m)))
    | unexported v =>
      cases v with
      | struct fields =>
        exact Uniform_congr (fun _ => rfl)
          (Uniform_then (WriteStruct fields 0) (fun m => WriteStruct rest (n + m)) n
            (hsub fields (Or.inr rfl) 0) (fun m => hrest (n + m)))
      | undefined =>
        exact Uniform_congr (fun _ => rfl) (hrest n)
      | time d =>
        exact Uniform_congr (fun _ => rfl)
          (Uniform_then (WriteTimeFields d 0) (fun m => WriteStruct rest (n + m)) n
            (Uniform_WriteTimeFields d 0) (fun m => hrest (n + m)))
      | _ =>
        exact Uniform_congr (fun _ => rfl)
          (Uniform_const n (some (Error.reflectPanic "NumField of non-struct")))
    | _ =>
      exact Uniform_congr (fun _ => rfl)
        (Uniform_const n (some (Error.reflectPanic "NumField of non-struct")))
  · have ha2 : anonymous = false := Bool.eq_false_iff.mpr ha
    subst ha2
    by_cases h1 : tag = [45]
    · exact Uniform_congr
        (fun w => by
          conv => lhs; unfold WriteStruct
          rw [if_neg Bool.false_ne_true, if_pos h1])
        (hrest n)
    · by_cases h2 : tag ≠ [] ∧ omitemptySuffix.isSuffixOf tag = true
      · exact Uniform_congr
          (fun w => by
            conv => lhs; unfold WriteStruct
            rw [if_neg Bool.false_ne_true, if_neg h1, if_pos h2])
          (Uniform_const n (some (Error.reflectPanic "IsNil on struct Value")))
      · exact Uniform_congr
          (fun w => by
            conv => lhs; unfold WriteStruct
            rw [if_neg Bool.false_ne_true, if_neg h1, if_neg h2]
            try rfl)
          (Uniform_then (fun w => WriteObjectName w (if tag = [] then fieldName else tag))
            (fun m1 w1 =>
              match (writeValueAux false value w1).err with
              | some e => { n := n + m1, err := some e, w := (writeValueAux false value w1).w }
              | none =>
                WriteStruct rest (n + m1 + (writeValueAux false value w1).n)
                  (writeValueAux false value w1).w) n
            (Uniform_WriteObjectName _)
            (fun m1 => Uniform_then (writeValueAux false value)
              (fun m2 => WriteStruct rest (n + m1 + m2)) (n + m1) hval
              (fun m2 => hrest (n + m1 + m2))))

theorem Uniform_WriteStructRO_cons (fieldName tag : Bytes) (anonymous : Bool) (value : Value)
    (rest : List (Bytes × Bytes × Bool × Value)) (n : Nat)
    (hrest : ∀ n, Uniform (WriteStructRO rest n))
    (hval : Uniform (writeValueRO value))
    (hsub : ∀ fields, value = Value.struct fields ∨ value = Value.unexported (Value.struct fields) →
      ∀ n, Uniform (WriteStructRO fields n)) :
    Uniform (WriteStructRO ((fieldName, tag, anonymous, value) :: rest) n) := by
  by_cases ha : anonymous = true
  · subst ha
    cases value with
    | struct fields =>
      exact Uniform_congr (fun _ => rfl)
        (Uniform_then (WriteStructRO fields 0) (fun m => WriteStructRO rest (n + m)) n
          (hsub fields (Or.inl rfl) 0) (fun m => hrest (n + m)))
    | undefined =>
      exact Uniform_congr (fun _ => rfl) (hrest n)
    | time d =>
      exact Uniform_congr (fun _ => rfl)
        (Uniform_then (WriteTimeFields d 0) (fun m => WriteStructRO rest (n + m)) n
          (Uniform_WriteTimeFields d 0) (fun m => hrest (n + m)))
    | unexported v =>
      cases v with
      | struct fields =>
        exact Uniform_congr (fun _ => rfl)
          (Uniform_then (WriteStructRO fields 0) (fun m => WriteStructRO rest (n + m)) n
            (hsub fields (Or.inr rfl) 0) (fun m => hrest (n + m)))
      | undefined =>
        exact Uniform_congr (fun _ => rfl) (hrest n)
      | time d =>
        exact Uniform_congr (fun _ => rfl)
          (Uniform_then (WriteTimeFields d 0) (fun m => WriteStructRO rest (n + m)) n
            (Uniform_WriteTimeFields d 0) (fun m => hrest (n + m)))
      | _ =>
        exact Uniform_congr (fun _ => rfl)
          (Uniform_const n (some (Error.reflectPanic "NumField of non-struct")))
    | _ =>
      exact Uniform_congr (fun _ => rfl)
        (Uniform_const n (some (Error.reflectPanic "NumField of non-struct")))
  · have ha2 : anonymous = false := Bool.eq_false_iff.mpr ha
    subst ha2
    by_cases h1 : tag = [45]
    · exact Uniform_congr
        (fun w => by
          conv => lhs; unfold WriteStructRO
          rw [if_neg Bool.false_ne_true, if_pos h1])
        (hrest n)
    · by_cases h2 : tag ≠ [] ∧ omitemptySuffix.isSuffixOf tag = true
      · exact Uniform_congr
          (fun w => by
            conv => lhs; unfold WriteStructRO
            rw [if_neg Bool.false_ne_true, if_neg h1, if_pos h2])
          (Uniform_const n (some (Error.reflectPanic "IsNil on struct Value")))
      · exact Uniform_congr
          (fun w => by
            conv => lhs; unfold WriteStructRO
            rw [if_neg Bool.false_ne_true, if_neg h1, if_neg h2]
            try rfl)
          (Uniform_then (fun w => WriteObjectName w (if tag = [] then fieldName else tag))
            (fun m1 w1 =>
              match (writeValueRO value w1).err with
              | some e => { n := n + m1, err := some e, w := (writeValueRO value w1).w }
              | none =>
                WriteStructRO rest (n + m1 + (writeValueRO value w1).n)
                  (writeValueRO value w1).w) n
            (Uniform_WriteObjectName _)
            (fun m1 => Uniform_then (writeValueRO value)
              (fun m2 => WriteStructRO rest (n + m1 + m2)) (n + m1) hval
              (fun m2 => hrest (n + m1 + m2))))

theorem Uniform_map_roPanic {α : Type} (l : List α) :
    ∀ f ∈ l.map (fun _ => roPanic), Uniform f := by
  intro f hf
  obtain ⟨_, _, rfl⟩ := List.mem_map.mp hf
  exact Uniform_roPanic

theorem Uniform_entries_roPanic (entries : List (Bytes × Value)) :
    ∀ p ∈ entries.map (fun e => (e.1, roPanic)), Uniform p.2 := by
  intro p hp
  obtain ⟨_, _, rfl⟩ := List.mem_map.mp hp
  exact Uniform_roPanic

mutual
/-- `WriteValue` and `writeValue` treat all sinks that do not fail alike. -/
theorem writeValueAux_uniform : ∀ (top : Bool) (v : Value), Uniform (writeValueAux top v)
  | top, Value.nil => by
    cases top
    · exact Uniform_congr (fun _ => rfl)
        (Uniform_const 0 (some (Error.reflectPanic "Interface on zero Value")))
    · exact Uniform_congr (fun _ => rfl) Uniform_WriteNull
  | _, Value.string s => Uniform_congr (fun _ => rfl) (Uniform_WriteString s)
  | _, Value.bool b => Uniform_congr (fun _ => rfl) (Uniform_WriteBoolean b)
  | _, Value.int i => Uniform_congr (fun _ => rfl) (Uniform_WriteDouble (float64OfInt i))
  | _, Value.uint u => Uniform_congr (fun _ => rfl) (Uniform_WriteDouble (float64OfNat u))
  | _, Value.float bits => Uniform_congr (fun _ => rfl) (Uniform_WriteDouble bits)
  | _, Value.slice _ elems =>
    Uniform_congr (fun _ => rfl)
      (Uniform_array_body (elems.length % 2 ^ 32)
        (if elems.length % 2 ^ 32 < 2 ^ 31 then elems.length % 2 ^ 32 else 0)
        (writeElems elems) (writeElems_uniform elems))
  | _, Value.array _ elems =>
    Uniform_congr (fun _ => rfl)
      (Uniform_array_body (elems.length % 2 ^ 32)
        (if elems.length % 2 ^ 32 < 2 ^ 31 then elems.length % 2 ^ 32 else 0)
        (writeElems elems) (writeElems_uniform elems))
  | _, Value.map keyKind typeName isNil entries => by
    by_cases hk : keyKind ≠ "string"
    · exact Uniform_congr
        (fun w => by conv => lhs; unfold writeValueAux
                     rw [if_pos hk])
        (Uniform_const 0 (some (Error.unsupportedType typeName)))
    · cases isNil
      · exact Uniform_congr
          (fun w => by conv => lhs; unfold writeValueAux
                       rw [if_neg hk, if_neg Bool.false_ne_true]
                       try rfl)
          (Uniform_object_body _ (Uniform_sortedProps _ (writeEntries_uniform entries)))
      · exact Uniform_congr
          (fun w => by conv => lhs; unfold writeValueAux
                       rw [if_neg hk, if_pos rfl])
          Uniform_WriteNull
  | _, Value.nilPtr => Uniform_congr (fun _ => rfl) Uniform_WriteNull
  | _, Value.ptr elem => Uniform_congr (fun _ => rfl) (writeValueAux_uniform true elem)
  | _, Value.struct fields =>
    Uniform_congr (fun _ => rfl) (Uniform_struct_body _ (WriteStruct_uniform fields 0))
  | _, Value.undefined =>
    Uniform_congr (fun _ => rfl)
      (Uniform_struct_body (fun w => { n := 0, err := none, w := w }) (Uniform_const 0 none))
  | _, Value.time d =>
    Uniform_congr (fun _ => rfl) (Uniform_struct_body _ (Uniform_WriteTimeFields d 0))
  | top, Value.unexported v => by
    cases top
    · exact Uniform_congr (fun _ => rfl) (writeValueRO_uniform v)
    · exact Uniform_congr (fun _ => rfl) (writeValueAux_uniform true v)
  | top, Value.iface typeName dyn =>
    Uniform_iface top typeName dyn (writeValueAux_uniform true dyn) (mapEntries_uniform dyn)
  | _, Value.other _ typeName =>
    Uniform_congr (fun _ => rfl) (Uniform_const 0 (some (Error.unsupportedType typeName)))
/-- The writers of the entries of a value that is a map. -/
theorem mapEntries_uniform : ∀ (v : Value) (keyKind tn : String) (isNil : Bool)
    (entries : List (Bytes × Value)), v = Value.map keyKind tn isNil entries →
    ∀ p ∈ writeEntries entries, Uniform p.2
  | Value.map _ _ _ entries1, _, _, _, entries, h => by
    have e : entries1 = entries := by injection h
    subst e
    exact writeEntries_uniform entries1
  | Value.nil, _, _, _, _, h => by cases h
  | Value.undefined, _, _, _, _, h => by cases h
  | Value.bool _, _, _, _, _, h => by cases h
  | Value.int _, _, _, _, _, h => by cases h
  | Value.uint _, _, _, _, _, h => by cases h
  | Value.float _, _, _, _, _, h => by cases h
  | Value.string _, _, _, _, _, h => by cases h
  | Value.slice _ _, _, _, _, _, h => by cases h
  | Value.array _ _, _, _, _, _, h => by cases h
  | Value.nilPtr, _, _, _, _, h => by cases h
  | Value.ptr _, _, _, _, _, h => by cases h
  | Value.struct _, _, _, _, _, h => by cases h
  | Value.iface _ _, _, _, _, _, h => by cases h
  | Value.unexported _, _, _, _, _, h => by cases h
  | Value.time _, _, _, _, _, h => by cases h
  | Value.other _ _, _, _, _, _, h => by cases h
/-- The writers of the fields of a value that is a struct, exported or not. -/
theorem structFields_uniform : ∀ (v : Value) (fields : List (Bytes × Bytes × Bool × Value)),
    v = Value.struct fields ∨ v = Value.unexported (Value.struct fields) →
    ∀ n, Uniform (WriteStruct fields n)
  | Value.struct fields1, fields, h => by
    have e : fields1 = fields := by
      rcases h with h | h
      · injection h
      · cases h
    subst e
    exact WriteStruct_uniform fields1
  | Value.unexported (Value.struct fields1), fields, h => by
    have e : fields1 = fields := by
      rcases h with h | h
      · cases h
      · injection h with h1
        injection h1
    subst e
    exact WriteStruct_uniform fields1
  | Value.unexported Value.nil, _, h => by rcases h with h | h <;> cases h
  | Value.unexported Value.undefined, _, h => by rcases h with h | h <;> cases h
  | Value.unexported (Value.bool _), _, h => by rcases h with h | h <;> cases h
  | Value.unexported (Value.int _), _, h => by rcases h with h | h <;> cases h
  | Value.unexported (Value.uint _), _, h => by rcases h with h | h <;> cases h
  | Value.unexported (Value.float _), _, h => by rcases h with h | h <;> cases h
  | Value.unexported (Value.string _), _, h => by rcases h with h | h <;> cases h
  | Value.unexported (Value.slice _ _), _, h => by rcases h with h | h <;> cases h
  | Value.unexported (Value.array _ _), _, h => by rcases h with h | h <;> cases h
  | Value.unexported (Value.map _ _ _ _), _, h => by rcases h with h | h <;> cases h
  | Value.unexported Value.nilPtr, _, h => by rcases h with h | h <;> cases h
  | Value.unexported (Value.ptr _), _, h => by rcases h with h | h <;> cases h
  | Value.unexported (Value.iface _ _), _, h => by rcases h with h | h <;> cases h
  | Value.unexported (Value.unexported _), _, h => by rcases h with h | h <;> cases h
  | Value.unexported (Value.time _), _, h => by rcases h with h | h <;> cases h
  | Value.unexported (Value.other _ _), _, h => by rcases h with h | h <;> cases h
  | Value.nil, _, h => by rcases h with h | h <;> cases h
  | Value.undefined, _, h => by rcases h with h | h <;> cases h
  | Value.bool _, _, h => by rcases h with h | h <;> cases h
  | Value.int _, _, h => by rcases h with h | h <;> cases h
  | Value.uint _, _, h => by rcases h with h | h <;> cases h
  | Value.float _, _, h => by rcases h with h | h <;> cases h
  | Value.string _, _, h => by rcases h with h | h <;> cases h
  | Value.slice _ _, _, h => by rcases h with h | h <;> cases h
  | Value.array _ _, _, h => by rcases h with h | h <;> cases h
  | Value.map _ _ _ _, _, h => by rcases h with h | h <;> cases h
  | Value.nilPtr, _, h => by rcases h with h | h <;> cases h
  | Value.ptr _, _, h => by rcases h with h | h <;> cases h
  | Value.iface _ _, _, h => by rcases h with h | h <;> cases h
  | Value.time _, _, h => by rcases h with h | h <;> cases h
  | Value.other _ _, _, h => by rcases h with h | h <;> cases h
/-- The writers of the elements of a slice. -/
theorem writeElems_uniform : ∀ (elems : List Value), ∀ f ∈ writeElems elems, Uniform f
  | [] => fun f hf => by simp [writeElems] at hf
  | v :: vs => fun f hf => by
    simp only [writeElems, List.mem_cons] at hf
    rcases hf with rfl | hf
    · exact writeValueAux_uniform true v
    · exact writeElems_uniform vs f hf
/-- The writers of the entries of a map. -/
theorem writeEntries_uniform : ∀ (entries : List (Bytes × Value)),
    ∀ p ∈ writeEntries entries, Uniform p.2
  | [] => fun p hp => by simp [writeEntries] at hp
  | (_, v) :: es => fun p hp => by
    simp only [writeEntries, List.mem_cons] at hp
    rcases hp with rfl | hp
    · exact writeValueAux_uniform true v
    · exact writeEntries_uniform es p hp
/-- `WriteStruct` treats all sinks that do not fail alike. -/
theorem WriteStruct_uniform : ∀ (fields : List (Bytes × Bytes × Bool × Value)) (n : Nat),
    Uniform (WriteStruct fields n)
  | [], n => Uniform_congr (fun _ => rfl) (Uniform_const n none)
  | (fieldName, tag, anonymous, value) :: rest, n =>
    Uniform_WriteStruct_cons fieldName tag anonymous value rest n (WriteStruct_uniform rest)
      (writeValueAux_uniform false value) (structFields_uniform value)
/-- `writeValue` on a read-only value treats all sinks that do not fail alike. -/
theorem writeValueRO_uniform : ∀ (v : Value), Uniform (writeValueRO v)
  | Value.nil =>
    Uniform_congr (fun _ => rfl)
      (Uniform_const 0 (some (Error.reflectPanic "Interface on zero Value")))
  | Value.string s => Uniform_congr (fun _ => rfl) (Uniform_WriteString s)
  | Value.bool b => Uniform_congr (fun _ => rfl) (Uniform_WriteBoolean b)
  | Value.int i => Uniform_congr (fun _ => rfl) (Uniform_WriteDouble (float64OfInt i))
  | Value.uint u => Uniform_congr (fun _ => rfl) (Uniform_WriteDouble (float64OfNat u))
  | Value.float bits => Uniform_congr (fun _ => rfl) (Uniform_WriteDouble bits)
  | Value.slice _ elems =>
    Uniform_congr (fun _ => rfl)
      (Uniform_array_body (elems.length % 2 ^ 32)
        (if elems.length % 2 ^ 32 < 2 ^ 31 then elems.length % 2 ^ 32 else 0)
        (elems.map fun _ => roPanic) (Uniform_map_roPanic elems))
  | Value.array _ elems =>
    Uniform_congr (fun _ => rfl)
      (Uniform_array_body (elems.length % 2 ^ 32)
        (if elems.length % 2 ^ 32 < 2 ^ 31 then elems.length % 2 ^ 32 else 0)
        (elems.map fun _ => roPanic) (Uniform_map_roPanic elems))
  | Value.map keyKind typeName isNil entries => by
    by_cases hk : keyKind ≠ "string"
    · exact Uniform_congr
        (fun w => by conv => lhs; unfold writeValueRO
                     rw [if_pos hk])
        (Uniform_const 0 (some (Error.unsupportedType typeName)))
    · cases isNil
      · exact Uniform_congr
          (fun w => by conv => lhs; unfold writeValueRO
                       rw [if_neg hk, if_neg Bool.false_ne_true]
                       try rfl)
          (Uniform_object_body _ (Uniform_sortedProps _ (Uniform_entries_roPanic entries)))
      · exact Uniform_congr
          (fun w => by conv => lhs; unfold writeValueRO
                       rw [if_neg hk, if_pos rfl])
          Uniform_WriteNull
  | Value.nilPtr => Uniform_congr (fun _ => rfl) Uniform_WriteNull
  | Value.ptr _ => Uniform_congr (fun _ => rfl) Uniform_roPanic
  | Value.struct fields =>
    Uniform_congr (fun _ => rfl) (Uniform_struct_body _ (WriteStructRO_uniform fields 0))
  | Value.undefined =>
    Uniform_congr (fun _ => rfl)
      (Uniform_struct_body (fun w => { n := 0, err := none, w := w }) (Uniform_const 0 none))
  | Value.time d =>
    Uniform_congr (fun _ => rfl) (Uniform_struct_body _ (Uniform_WriteTimeFields d 0))
  | Value.unexported v => Uniform_congr (fun _ => rfl) (writeValueRO_uniform v)
  | Value.iface _ _ => Uniform_congr (fun _ => rfl) Uniform_roPanic
  | Value.other _ _ => Uniform_congr (fun _ => rfl) Uniform_roPanic
/-- The writers of the fields of a read-only value that is a struct. -/
theorem structFieldsRO_uniform : ∀ (v : Value) (fields : List (Bytes × Bytes × Bool × Value)),
    v = Value.struct fields ∨ v = Value.unexported (Value.struct fields) →
    ∀ n, Uniform (WriteStructRO fields n)
  | Value.struct fields1, fields, h => by
    have e : fields1 = fields := by
      rcases h with h | h
      · injection h
      · cases h
    subst e
    exact WriteStructRO_uniform fields1
  | Value.unexported (Value.struct fields1), fields, h => by
    have e : fields1 = fields := by
      rcases h with h | h
      · cases h
      · injection h with h1
        injection h1
    subst e
    exact WriteStructRO_uniform fields1
  | Value.unexported Value.nil, _, h => by rcases h with h | h <;> cases h
  | Value.unexported Value.undefined, _, h => by rcases h with h | h <;> cases h
  | Value.unexported (Value.bool _), _, h => by rcases h with h | h <;> cases h
  | Value.unexported (Value.int _), _, h => by rcases h with h | h <;> cases h
  | Value.unexported (Value.uint _), _, h => by rcases h with h | h <;> cases h
  | Value.unexported (Value.float _), _, h => by rcases h with h | h <;> cases h
  | Value.unexported (Value.string _), _, h => by rcases h with h | h <;> cases h
  | Value.unexported (Value.slice _ _), _, h => by rcases h with h | h <;> cases h
  | Value.unexported (Value.array _ _), _, h => by rcases h with h | h <;> cases h
  | Value.unexported (Value.map _ _ _ _), _, h => by rcases h with h | h <;> cases h
  | Value.unexported Value.nilPtr, _, h => by rcases h with h | h <;> cases h
  | Value.unexported (Value.ptr _), _, h => by rcases h with h | h <;> cases h
  | Value.unexported (Value.iface _ _), _, h => by rcases h with h | h <;> cases h
  | Value.unexported (Value.unexported _), _, h => by rcases h with h | h <;> cases h
  | Value.unexported (Value.time _), _, h => by rcases h with h | h <;> cases h
  | Value.unexported (Value.other _ _), _, h => by rcases h with h | h <;> cases h
  | Value.nil, _, h => by rcases h with h | h <;> cases h
  | Value.undefined, _, h => by rcases h with h | h <;> cases h
  | Value.bool _, _, h => by rcases h with h | h <;> cases h
  | Value.int _, _, h => by rcases h with h | h <;> cases h
  | Value.uint _, _, h => by rcases h with h | h <;> cases h
  | Value.float _, _, h => by rcases h with h | h <;> cases h
  | Value.string _, _, h => by rcases h with h | h <;> cases h
  | Value.slice _ _, _, h => by rcases h with h | h <;> cases h
  | Value.array _ _, _, h => by rcases h with h | h <;> cases h
  | Value.map _ _ _ _, _, h => by rcases h with h | h <;> cases h
  | Value.nilPtr, _, h => by rcases h with h | h <;> cases h
  | Value.ptr _, _, h => by rcases h with h | h <;> cases h
  | Value.iface _ _, _, h => by rcases h with h | h <;> cases h
  | Value.time _, _, h => by rcases h with h | h <;> cases h
  | Value.other _ _, _, h => by rcases h with h | h <;> cases h
/-- `WriteStruct` on a read-only struct treats all sinks that do not fail alike. -/
theorem WriteStructRO_uniform : ∀ (fields : List (Bytes × Bytes × Bool × Value)) (n : Nat),
    Uniform (WriteStructRO fields n)
  | [], n => Uniform_congr (fun _ => rfl) (Uniform_const n none)
  | (fieldName, tag, anonymous, value) :: rest, n =>
    Uniform_WriteStructRO_cons fieldName tag anonymous value rest n (WriteStructRO_uniform rest)
      (writeValueRO_uniform value) (structFieldsRO_uniform value)
end

/-! ## Values that reflection hands out read-only, `time.Time`, byte arrays -/

/-- The zero `time.Time` is written field by field as an object of 39 bytes: `wall` and
`ext` as the Number 0, the nil `loc` as Null. -/
theorem WriteValue_zero_time :
    WriteValue Writer.empty (Value.time none) =
      { n := 39, err := none,
        w := { buf := [0x03, 0, 4, 119, 97, 108, 108, 0, 0, 0, 0, 0, 0, 0, 0, 0,
                       0, 3, 101, 120, 116, 0, 0, 0, 0, 0, 0, 0, 0, 0,
                       0, 3, 108, 111, 99, 0x05, 0, 0, 0x09],
               cap := none } } := by
  decide

set_option exponentiation.threshold 2000 in
set_option maxRecDepth 20000 in
/-- The float64 `0.0` read by `ReadDate` gives the time with `wall = 0` and
`ext = 62135596800`; `1500.0` gives one second and `5e9` nanoseconds, which `time.Unix`
turns into six seconds. -/
theorem dateFields_examples :
    dateFields 0 = (0, 62135596800) ∧
    dateFields 0x4097700000000000 = (0, 62135596806) := by
  decide

set_option exponentiation.threshold 2000 in
set_option maxRecDepth 20000 in
/-- The time that `ReadDate` returns for the float64 `0.0`: 35 bytes are written, the fields
`wall` and `ext` and the name of `loc`, and the write of `loc` panics. -/
theorem WriteValue_read_date_time :
    WriteValue Writer.empty (Value.time (some 0)) =
      { n := 1, err := some (Error.reflectPanic "Interface on unexported field"),
        w := { buf := [0x03, 0, 4, 119, 97, 108, 108, 0, 0, 0, 0, 0, 0, 0, 0, 0,
                       0, 3, 101, 120, 116, 0, 0x42, 0x2C, 0xEF, 0x23, 0xEE, 0, 0, 0,
                       0, 3, 108, 111, 99],
               cap := none } } := by
  decide

/-- A struct with the one field `a`, not exported: a string is written as usual; a pointer
that is not nil, an element of a slice, a value of a map and a value of interface type end
the call with the panic of `Interface()`, once the bytes before them have been written. -/
theorem WriteValue_unexported_fields :
    WriteValue Writer.empty
        (Value.struct [([97], [], false, Value.unexported (Value.string [120]))]) =
      { n := 11, err := none,
        w := { buf := [0x03, 0, 1, 97, 0x02, 0, 1, 120, 0, 0, 0x09], cap := none } } ∧
    WriteValue Writer.empty
        (Value.struct [([97], [], false, Value.unexported (Value.ptr (Value.int 1)))]) =
      { n := 1, err := some (Error.reflectPanic "Interface on unexported field"),
        w := { buf := [0x03, 0, 1, 97], cap := none } } ∧
    WriteValue Writer.empty
        (Value.struct [([97], [], false, Value.unexported (Value.slice "int" [Value.int 1]))]) =
      { n := 1, err := some (Error.reflectPanic "Interface on unexported field"),
        w := { buf := [0x03, 0, 1, 97, 0x08, 0, 0, 0, 1, 0, 1, 48], cap := none } } ∧
    WriteValue Writer.empty
        (Value.struct [([97], [], false,
          Value.unexported (Value.object [([107], Value.int 1)]))]) =
      { n := 1, err := some (Error.reflectPanic "Interface on unexported field"),
        w := { buf := [0x03, 0, 1, 97, 0x03, 0, 1, 107], cap := none } } ∧
    WriteValue Writer.empty
        (Value.struct [([97], [], false, Value.unexported (Value.iface "" (Value.int 1)))]) =
      { n := 1, err := some (Error.reflectPanic "Interface on unexported field"),
        w := { buf := [0x03, 0, 1, 97], cap := none } } := by
  decide

/-- A byte array under AMF3: the marker 0c is written and `v.Bytes()` panics; the slice of
the same bytes is written as a ByteArray. -/
theorem Amf3WriteValue_byte_array :
    Amf3WriteValue (Value.array "uint8" [Value.uint 1, Value.uint 2]) Writer.empty =
      { n := 1, err := some (Error.reflectPanic "Bytes of unaddressable byte array"),
        w := { buf := [0x0c], cap := none } } ∧
    Amf3WriteValue (Value.slice "uint8" [Value.uint 1, Value.uint 2]) Writer.empty =
      { n := 4, err := none, w := { buf := [0x0c, 5, 1, 2], cap := none } } := by
  decide

/-! ## C12 : a sequence is written as an EcmaArray -/

/-- The decimal text of an index below `10 ^ 10` has at most ten digits. -/
theorem decimal_length (i : Nat) (h : i < 10 ^ 10) : (decimal i).length ≤ 10 := by
  unfold decimal Nat.toDigits
  rw [List.length_map]
  exact Nat.toDigitsCore_length 10 (by decide) (i + 1) i 10 h (by decide)

theorem writeElems_length (elems : List Value) : (writeElems elems).length = elems.length := by
  induction elems with
  | nil => rfl
  | cons v vs ih => simp [writeElems, ih]

theorem indexedProps_length (fs : List (Writer → WRes)) (i : Nat) :
    (indexedProps i fs).length = fs.length := by
  induction fs generalizing i with
  | nil => rfl
  | cons f rest ih => simp [indexedProps, ih]

/-- An element that `WriteValue` encodes without error on the empty sink is encoded in the
same way, as `amf0Bytes`, on every sink that does not fail. -/
theorem encodable_appends (e : Value) (h : (WriteValue Writer.empty e).err = none) :
    Appends (writeValueAux true e) (amf0Bytes e) :=
  Uniform_appends (writeValueAux_uniform true e) h

theorem indexedProps_appends (elems : List Value) (i : Nat) (hi : i + elems.length ≤ 2 ^ 31)
    (hv : ∀ e ∈ elems, Appends (writeValueAux true e) (amf0Bytes e)) (n : Nat) :
    Appends (propsLoop WriteObjectName WriteObjectEndMarker
      (indexedProps i (writeElems elems)) n) (amf0IndexedBytes i elems) := by
  induction elems generalizing i n with
  | nil =>
    intro w hw
    simp [writeElems, indexedProps, propsLoop, WriteObjectEndMarker, Write_unbounded w _ hw,
      amf0IndexedBytes, Amf0ObjectEndMarker]
  | cons v rest ih =>
    intro w hw
    simp only [List.length_cons] at hi
    have hd := decimal_length i (by norm_num at hi ⊢; omega)
    have hmod : (decimal i).length % 2 ^ 16 = (decimal i).length :=
      Nat.mod_eq_of_lt (by norm_num; omega)
    have h1 := WriteObjectName_unbounded w (decimal i) hw
    rw [hmod] at h1
    have h2 := hv v (List.mem_cons_self _ _) (WriteObjectName w (decimal i)).w (by rw [h1.2])
    have h3 := ih (i + 1) (by omega) (fun e he => hv e (List.mem_cons_of_mem _ he))
      (n + (WriteObjectName w (decimal i)).n +
        (writeValueAux true v (WriteObjectName w (decimal i)).w).n)
      (writeValueAux true v (WriteObjectName w (decimal i)).w).w (by rw [h2.2])
    simp only [writeElems, indexedProps, propsLoop, h1.1, h2.1]
    refine ⟨h3.1, ?_⟩
    rw [h3.2, h2.2, h1.2]
    simp [amf0IndexedBytes, List.append_assoc]

/-- C12: for every sequence of k < 2^31 elements, each of which WriteValue encodes without
error, and every sink that does not fail, WriteValue (AMF0) of the sequence succeeds and
appends exactly: the EcmaArray marker 0x08, k as a 4-byte big-endian integer, then for
i = 0..k-1 in order the decimal text of i as a name (its length as a 2-byte big-endian
integer, then the digits, no marker) followed by the AMF0 encoding of the i-th element, then
the terminator 00 00 09. For ["a","b","c"] the count is 3 and the names are "0", "1",
"2". An array `[N]T` is written as the slice of the same elements. -/
theorem slice_written_as_ecma_array (elemKind : String) (elems : List Value) (w : Writer)
    (hw : w.cap = none) (hk : elems.length < 2 ^ 31)
    (he : ∀ e ∈ elems, (WriteValue Writer.empty e).err = none) :
    (WriteValue w (Value.slice elemKind elems)).err = none ∧
    (WriteValue w (Value.slice elemKind elems)).w =
      { buf := w.buf ++ (0x08 :: (bigEndian 4 elems.length ++ amf0IndexedBytes 0 elems)),
        cap := none } ∧
    amf0Bytes (Value.slice "string"
        [Value.string [97], Value.string [98], Value.string [99]]) =
      [0x08, 0, 0, 0, 3, 0, 1, 48, 0x02, 0, 1, 97, 0, 1, 49, 0x02, 0, 1, 98,
       0, 1, 50, 0x02, 0, 1, 99, 0, 0, 0x09] ∧
    WriteValue w (Value.array elemKind elems) = WriteValue w (Value.slice elemKind elems) := by
  have harr : WriteValue w (Value.array elemKind elems) =
      WriteValue w (Value.slice elemKind elems) := rfl
  have hm : WriteMarker w Amf0EcmaArrayMarker =
      { n := 1, err := none, w := { buf := w.buf ++ [0x08], cap := none } } := by
    simp [WriteMarker, WriteByte_unbounded w _ hw, Amf0EcmaArrayMarker]
  have hlen : elems.length % 2 ^ 32 = elems.length :=
    Nat.mod_eq_of_lt (by norm_num at hk ⊢; omega)
  have htake : (indexedProps 0 (writeElems elems)).take elems.length =
      indexedProps 0 (writeElems elems) :=
    List.take_of_length_le (by rw [indexedProps_length, writeElems_length])
  have h3 := indexedProps_appends elems 0 (by omega)
    (fun e hmem => encodable_appends e (he e hmem)) (1 + 4)
    { buf := w.buf ++ [0x08] ++ bigEndian 4 elems.length, cap := none } rfl
  have hb := binaryWrite_unbounded { buf := w.buf ++ [0x08], cap := none } 4 elems.length rfl
  refine ⟨?_, ?_, by decide, harr⟩
  · simp only [WriteValue, writeValueAux, hm, hlen, hb, hk, if_true, htake]
    exact h3.1
  · simp only [WriteValue, writeValueAux, hm, hlen, hb, hk, if_true, htake]
    rw [h3.2]
    simp

/-- Witness of C12 at the sequence ["a", Null, true], written to a sink that already holds
the byte 7. -/
theorem slice_written_as_ecma_array_witness :
    (WriteValue { buf := [7], cap := none }
      (Value.slice "interface" [Value.string [97], Value.nil, Value.bool true])).err = none ∧
    (WriteValue { buf := [7], cap := none }
      (Value.slice "interface" [Value.string [97], Value.nil, Value.bool true])).w =
      { buf := [7] ++ (0x08 :: (bigEndian 4 3 ++
          amf0IndexedBytes 0 [Value.string [97], Value.nil, Value.bool true])),
        cap := none } ∧
    amf0Bytes (Value.slice "string"
        [Value.string [97], Value.string [98], Value.string [99]]) =
      [0x08, 0, 0, 0, 3, 0, 1, 48, 0x02, 0, 1, 97, 0, 1, 49, 0x02, 0, 1, 98,
       0, 1, 50, 0x02, 0, 1, 99, 0, 0, 0x09] ∧
    WriteValue { buf := [7], cap := none }
        (Value.array "interface" [Value.string [97], Value.nil, Value.bool true]) =
      WriteValue { buf := [7], cap := none }
        (Value.slice "interface" [Value.string [97], Value.nil, Value.bool true]) :=
  slice_written_as_ecma_array "interface" [Value.string [97], Value.nil, Value.bool true]
    { buf := [7], cap := none } rfl (by decide) (by decide)

/-! ## C13 : the exported `WriteEcmaArray` -/

/-- C13 at the failing input, and at every other: on a sink that does not fail, the exported
WriteEcmaArray returns, for every list arr, the count 1 and the error of `binary.Write`,
having written the marker 0x08 and nothing else, because its element count has the type
`int`, which `binary.Write` does not encode. WriteValue on the one-element sequence ["a"]
succeeds with the count 15 and the bytes 08 00 00 00 01, the name "0", the String "a" and
00 00 09. -/
theorem WriteEcmaArray_fails_after_marker (buf : Bytes) (arr : List Value) :
    WriteEcmaArray { buf := buf, cap := none } arr =
      { n := 1, err := some Error.binaryWrite, w := { buf := buf ++ [0x08], cap := none } } ∧
    WriteValue Writer.empty (Value.slice "interface" [Value.string [97]]) =
      { n := 15, err := none,
        w := { buf := [0x08, 0, 0, 0, 1, 0, 1, 48, 0x02, 0, 1, 97, 0, 0, 0x09],
               cap := none } } := by
  constructor
  · simp [WriteEcmaArray, WriteMarker, Writer.WriteByte, Amf0EcmaArrayMarker]
  · decide

/-! ## C14 : Null and Undefined under AMF0 -/

/-- C14 at the failing input `Undefined{}`, next to Null: on a sink that does not fail,
WriteValue of Null returns the count 1 and writes the single byte 0x05, which ReadValue
reads back as Null. WriteValue of `Undefined{}` takes the branch for the kind `Struct`: it
returns the count 4 and writes 03 00 00 09, the object without properties, and ReadValue
reads these bytes back as the empty Object, not as Undefined. -/
theorem WriteValue_null_and_undefined [Machine] (buf rest : Bytes) :
    WriteValue { buf := buf, cap := none } Value.nil =
      { n := 1, err := none, w := { buf := buf ++ [0x05], cap := none } } ∧
    ReadValue (0x05 :: rest) = some { val := Value.nil, err := none, r := rest } ∧
    WriteValue { buf := buf, cap := none } Value.undefined =
      { n := 4, err := none, w := { buf := buf ++ [0x03, 0x00, 0x00, 0x09], cap := none } } ∧
    ReadValue (0x03 :: 0x00 :: 0x00 :: 0x09 :: rest) =
      some { val := Value.object [], err := none, r := rest } ∧
    ReadValue (0x06 :: rest) = some { val := Value.undefined, err := none, r := rest } := by
  refine ⟨?_, ?_, ?_, ?_, ?_⟩
  · simp [WriteValue, writeValueAux, WriteNull, Writer.WriteByte, Amf0NullMarker]
  · simp [ReadValue, ReadValueFuel, ReadMarker, ReadByte, Amf0NumberMarker, Amf0BooleanMarker,
      Amf0StringMarker, Amf0ObjectMarker, Amf0MovieclipMarker, Amf0NullMarker]
  · simp [WriteValue, writeValueAux, WriteObjectMarker, WriteMarker, WriteObjectEndMarker,
      Writer.WriteByte, Writer.Write, Amf0ObjectMarker, Amf0ObjectEndMarker]
  · simp [ReadValue, ReadValueFuel, ReadObjectPropertyFuel, ReadMarker, ReadByte,
      Amf0NumberMarker, Amf0BooleanMarker, Amf0StringMarker, Amf0ObjectMarker,
      Amf0ObjectEndMarker, objectValue, ReadUTF8, binaryRead, fromBigEndian]
  · simp [ReadValue, ReadValueFuel, ReadMarker, ReadByte, Amf0NumberMarker, Amf0BooleanMarker,
      Amf0StringMarker, Amf0ObjectMarker, Amf0MovieclipMarker, Amf0NullMarker,
      Amf0UndefinedMarker]

/-! ## C15 : the wire names of the fields of a record -/

theorem omitempty_isSuffixOf (pre : Bytes) :
    omitemptySuffix.isSuffixOf (pre ++ omitemptySuffix) = true := by
  rw [List.isSuffixOf_iff_suffix]
  exact List.suffix_append pre omitemptySuffix

theorem omitempty_ne (pre : Bytes) :
    pre ++ omitemptySuffix ≠ [45] ∧ pre ++ omitemptySuffix ≠ [] := by
  constructor <;> intro h <;> have h1 := congrArg List.length h <;>
    simp [omitemptySuffix] at h1

/-- C15 at the failing inputs, the fields with the omit-if-empty modifier: in WriteStruct a
field whose wire name is exactly "-" contributes nothing, and the loop goes on with the next
field; a field with no wire name is written under its declared name (the record with the
field A holding true is written as 03, the name "A", the Boolean, 00 00 09). For a field
whose wire name ends in ",omitempty", whatever stands before the comma and whatever the
field holds, WriteStruct fails with the panic of `IsNil` called on the record itself: the
field is neither written nor omitted, and WriteValue of the record stops after the object
marker. -/
theorem WriteStruct_wire_names (fieldName pre : Bytes) (value : Value)
    (rest : List (Bytes × Bytes × Bool × Value)) (n : Nat) (w : Writer) :
    WriteStruct ((fieldName, [45], false, value) :: rest) n w = WriteStruct rest n w ∧
    WriteValue Writer.empty (Value.struct [([65], [], false, Value.bool true)]) =
      { n := 9, err := none,
        w := { buf := [0x03, 0, 1, 65, 0x01, 0x01, 0, 0, 0x09], cap := none } } ∧
    WriteStruct ((fieldName, pre ++ omitemptySuffix, false, value) :: rest) n w =
      { n := n, err := some (Error.reflectPanic "IsNil on struct Value"), w := w } ∧
    WriteValue Writer.empty
        (Value.struct [([65], [97] ++ omitemptySuffix, false, Value.nilPtr)]) =
      { n := 1, err := some (Error.reflectPanic "IsNil on struct Value"),
        w := { buf := [0x03], cap := none } } := by
  refine ⟨?_, by decide, ?_, by decide⟩
  · conv => lhs; unfold WriteStruct
    simp
  · have h1 := omitempty_isSuffixOf pre
    have h2 := omitempty_ne pre
    unfold WriteStruct
    simp [h1, h2.1, h2.2]

/-! ## C16 : pointers -/

/-- C16 (as amended): under AMF0, WriteValue of a nil pointer on a sink that does not fail
returns the count 1 without error and writes exactly the Null marker 0x05, and WriteValue of
a pointer that is not nil does, on every sink, exactly what WriteValue of the value pointed
to does (the same bytes, count and error). Amf3WriteValue has no case for pointers: for a
pointer, nil or not, it returns UnsupportedTypeError("ptr") with the count 0 and writes
nothing, on every sink. -/
theorem pointer_encoding (buf : Bytes) (w : Writer) (elem : Value) :
    WriteValue { buf := buf, cap := none } Value.nilPtr =
      { n := 1, err := none, w := { buf := buf ++ [0x05], cap := none } } ∧
    WriteValue w (Value.ptr elem) = WriteValue w elem ∧
    Amf3WriteValue Value.nilPtr w =
      { n := 0, err := some (Error.unsupportedType "ptr"), w := w } ∧
    Amf3WriteValue (Value.ptr elem) w =
      { n := 0, err := some (Error.unsupportedType "ptr"), w := w } := by
  refine ⟨?_, ?_, ?_, ?_⟩
  · simp [WriteValue, writeValueAux, WriteNull, Writer.WriteByte, Amf0NullMarker]
  · simp only [WriteValue, writeValueAux]
  · simp only [Amf3WriteValue]
  · simp only [Amf3WriteValue]

/-- Counterexample to C16 as stated: Amf3WriteValue of a nil pointer, and of a pointer to the
Boolean true, on the empty sink that does not fail, returns UnsupportedTypeError("ptr") and
writes nothing, where the claim has the byte 0x01, respectively 0x03, and no error. -/
theorem pointer_encoding_fails_in_amf3 :
    Amf3WriteValue Value.nilPtr Writer.empty =
      { n := 0, err := some (Error.unsupportedType "ptr"), w := { buf := [], cap := none } } ∧
    Amf3WriteValue (Value.ptr (Value.bool true)) Writer.empty =
      { n := 0, err := some (Error.unsupportedType "ptr"), w := { buf := [], cap := none } } ∧
    Amf3WriteValue (Value.bool true) Writer.empty =
      { n := 1, err := none, w := { buf := [0x03], cap := none } } := by
  decide

/-! ## C17 : rejected markers -/

theorem markerHex_array : markerHex Amf3ArrayMarker = "9" := by decide

/-- The AMF0 Reference marker 0x07 has no case in the switch of `ReadValue`: the function
ends with the UnsupportedTypeError that carries the marker as text. -/
theorem ReadValue_reference_marker [Machine] (rest : Bytes) :
    ReadValue (0x07 :: rest) =
      some { val := Value.nil, err := some (Error.unsupportedType (markerText 0x07)),
             r := rest } := by
  simp [ReadValue, ReadValueFuel, ReadMarker, ReadByte, Amf0NumberMarker, Amf0BooleanMarker,
    Amf0StringMarker, Amf0ObjectMarker, Amf0MovieclipMarker, Amf0NullMarker,
    Amf0UndefinedMarker, Amf0EcmaArrayMarker, Amf0ObjectEndMarker, Amf0StrictArrayMarker,
    Amf0DateMarker, Amf0LongStringMarker, Amf0UnsupportedMarker, Amf0RecordsetMarker,
    Amf0XMLDocumentMarker, Amf0TypedObjectMarker, Amf0AvmplusObjectMarker]

/-- C17 (as amended): ReadValue on any stream that begins with the TypedObject marker 0x10
returns UnexpectedTypeError carrying the marker, and the nil value; on any stream that
begins with the Reference marker 0x07 it returns an error and the nil value. Amf3ReadValue
on any stream that begins with the AMF3 Array marker 0x09 returns UnsupportedTypeError("9")
and the nil value, and on any stream that begins with the String marker 0x06 followed by a
U29 whose low bit is clear (a reference form) it returns
UnsupportedTypeError("AMF3 string reference") together with the empty text. In each case the
bytes after the marker (after the U29, for the String) are left unread. -/
theorem rejected_markers [Machine] (rest : Bytes) :
    ReadValue (0x10 :: rest) =
      some { val := Value.nil, err := some (Error.unexpectedType 0x10), r := rest } ∧
    (∃ e : Error, ReadValue (0x07 :: rest) =
      some { val := Value.nil, err := some e, r := rest }) ∧
    Amf3ReadValue (0x09 :: rest) =
      some { val := Value.nil, err := some (Error.unsupportedType "9"), r := rest } ∧
    ((Amf3ReadU29 rest).err = none → (Amf3ReadU29 rest).val &&& 0x01 ≠ 0x01 →
      Amf3ReadValue (0x06 :: rest) =
        some { val := Value.string [],
               err := some (Error.unsupportedType "AMF3 string reference"),
               r := (Amf3ReadU29 rest).r }) := by
  refine ⟨?_, ⟨_, ReadValue_reference_marker rest⟩, ?_, ?_⟩
  · simp [ReadValue, ReadValueFuel, ReadMarker, ReadByte, Amf0NumberMarker, Amf0BooleanMarker,
      Amf0StringMarker, Amf0ObjectMarker, Amf0MovieclipMarker, Amf0NullMarker,
      Amf0UndefinedMarker, Amf0EcmaArrayMarker, Amf0ObjectEndMarker, Amf0StrictArrayMarker,
      Amf0DateMarker, Amf0LongStringMarker, Amf0UnsupportedMarker, Amf0RecordsetMarker,
      Amf0XMLDocumentMarker, Amf0TypedObjectMarker]
  · rw [← markerHex_array]
    simp [Amf3ReadValue, Amf3ReadValueFuel, ReadMarker, ReadByte, Amf3UndefinedMarker,
      Amf3NullMarker, Amf3FalseMarker, Amf3TrueMarker, Amf3IntegerMarker, Amf3DoubleMarker,
      Amf3StringMarker, Amf3ArrayMarker]
  · intro he hb
    have h : Amf3ReadUTF8 rest =
        { val := [], err := some (Error.unsupportedType "AMF3 string reference"),
          r := (Amf3ReadU29 rest).r } := by
      unfold Amf3ReadUTF8
      simp only [he]
      rw [if_pos hb]
    simp [Amf3ReadValue, Amf3ReadValueFuel, ReadMarker, ReadByte, Amf3UndefinedMarker,
      Amf3NullMarker, Amf3FalseMarker, Amf3TrueMarker, Amf3IntegerMarker, Amf3DoubleMarker,
      Amf3StringMarker, h]

/-- Witness of C17 (as amended) at the trailing bytes 02 61: the U29 read after the String
marker is 2, with its low bit clear. -/
theorem rejected_markers_witness :
    ReadValue [0x10, 0x02, 0x61] =
      some { val := Value.nil, err := some (Error.unexpectedType 0x10), r := [0x02, 0x61] } ∧
    (∃ e : Error, ReadValue [0x07, 0x02, 0x61] =
      some { val := Value.nil, err := some e, r := [0x02, 0x61] }) ∧
    Amf3ReadValue [0x09, 0x02, 0x61] =
      some { val := Value.nil, err := some (Error.unsupportedType "9"), r := [0x02, 0x61] } ∧
    Amf3ReadValue [0x06, 0x02, 0x61] =
      some { val := Value.string [],
             err := some (Error.unsupportedType "AMF3 string reference"), r := [0x61] } :=
  ⟨(rejected_markers [0x02, 0x61]).1, (rejected_markers [0x02, 0x61]).2.1,
    (rejected_markers [0x02, 0x61]).2.2.1,
    (rejected_markers [0x02, 0x61]).2.2.2 (by decide) (by decide)⟩

/-- Counterexample to C17 as stated: on the one-byte stream 09 Amf3ReadValue returns
UnsupportedTypeError("9"), and on the stream 06 00 (a String marker and the reference form
with index 0) it returns UnsupportedTypeError("AMF3 string reference") and the empty text;
neither error is the UnexpectedTypeError that carries the marker. -/
theorem rejected_markers_not_unexpected_type :
    Amf3ReadValue [0x09] =
      some { val := Value.nil, err := some (Error.unsupportedType "9"), r := [] } ∧
    Amf3ReadValue [0x06, 0x00] =
      some { val := Value.string [],
             err := some (Error.unsupportedType "AMF3 string reference"), r := [] } ∧
    Error.unsupportedType "9" ≠ Error.unexpectedType 0x09 ∧
    Error.unsupportedType "AMF3 string reference" ≠ Error.unexpectedType 0x06 := by
  refine ⟨rfl, rfl, ?_, ?_⟩ <;> intro h <;> cases h

/-! ## C18 : errors of the sink -/

theorem Amf3WriteU29_full_sink (buf : Bytes) (n : Nat) :
    (Amf3WriteU29 { buf := buf, cap := some 0 } n).err ≠ none ∧
    (Amf3WriteU29 { buf := buf, cap := some 0 } n).w = { buf := buf, cap := some 0 } := by
  unfold Amf3WriteU29
  split_ifs <;> simp [Writer.WriteByte, Writer.Write]

/-- C18 at the failing input: when the sink accepts no further byte,
Amf3WriteUTF8 of any text that is not empty attempts the write of the length, which fails,
and returns the count 0 with a nil error (for the text "a" the length is the U29 3, whose
write fails with the error of the sink). Hence Amf3WriteString and Amf3WriteValue of such a
text, on a sink with room for one byte only, write the marker 0x06, fail to write the
length, and report success with the count 1. -/
theorem Amf3WriteUTF8_swallows_error (buf : Bytes) (b : Nat) (s : Bytes) :
    Amf3WriteU29 { buf := [], cap := some 0 } 3 =
      { n := 0, err := some Error.sink, w := { buf := [], cap := some 0 } } ∧
    Amf3WriteUTF8 { buf := buf, cap := some 0 } (b :: s) =
      { n := 0, err := none, w := { buf := buf, cap := some 0 } } ∧
    Amf3WriteString { buf := buf, cap := some 1 } (b :: s) =
      { n := 1, err := none, w := { buf := buf ++ [0x06], cap := some 0 } } ∧
    Amf3WriteValue (Value.string (b :: s)) { buf := buf, cap := some 1 } =
      { n := 1, err := none, w := { buf := buf ++ [0x06], cap := some 0 } } := by
  have key : ∀ buf1 : Bytes, Amf3WriteUTF8 { buf := buf1, cap := some 0 } (b :: s) =
      { n := 0, err := none, w := { buf := buf1, cap := some 0 } } := by
    intro buf1
    have h := Amf3WriteU29_full_sink buf1
      ((((b :: s).length <<< 1) % 2 ^ 32) ||| 0x01)
    unfold Amf3WriteUTF8
    simp only [List.length_cons, Nat.add_one_ne_zero, if_false] at h ⊢
    cases he : (Amf3WriteU29 { buf := buf1, cap := some 0 }
        (((s.length + 1) <<< 1) % 2 ^ 32 ||| 0x01)).err with
    | none => exact absurd he h.1
    | some e => simp only [h.2]
  have hs : Amf3WriteString { buf := buf, cap := some 1 } (b :: s) =
      { n := 1, err := none, w := { buf := buf ++ [0x06], cap := some 0 } } := by
    simp [Amf3WriteString, Writer.WriteByte, key, Amf3StringMarker]
  refine ⟨by decide, key buf, hs, ?_⟩
  simp only [Amf3WriteValue]
  exact hs

/-! ## C19 : declared lengths that exceed the bytes at hand -/

/-- C19 at the failing input: with a declared length of 5 and only the two
bytes 61 62 left in the source, ReadUTF8, ReadUTF8Long and Amf3ReadUTF8 return, without
error, a text of 5 bytes: the two bytes read followed by three zero bytes. Amf3readByteArray
on the same input compares the count read with the declared length and returns the length
error and no byte array. -/
theorem short_payload_not_detected :
    ReadUTF8 [0x00, 0x05, 0x61, 0x62] =
      { val := [0x61, 0x62, 0, 0, 0], err := none, r := [] } ∧
    ReadUTF8Long [0x00, 0x00, 0x00, 0x05, 0x61, 0x62] =
      { val := [0x61, 0x62, 0, 0, 0], err := none, r := [] } ∧
    Amf3ReadUTF8 [0x0b, 0x61, 0x62] =
      { val := [0x61, 0x62, 0, 0, 0], err := none, r := [] } ∧
    Amf3readByteArray [0x0b, 0x61, 0x62] =
      { val := none, err := some (Error.length "expect 5, got 2"), r := [] } := by
  refine ⟨by decide, by decide, by decide, by decide⟩

/-! ## C20 : maps whose keys are not strings -/

/-- C20: for every map value whose key type is not of string kind, whether the map is empty,
nil or populated, and for every sink, WriteValue (AMF0) and Amf3WriteValue (AMF3) return
UnsupportedTypeError with byte count 0 and hand the sink back as it was: no byte is
written. -/
theorem non_string_key_unsupported (keyKind typeName : String) (isNil : Bool)
    (entries : List (Bytes × Value)) (w : Writer) (hk : keyKind ≠ "string") :
    WriteValue w (Value.map keyKind typeName isNil entries) =
      { n := 0, err := some (Error.unsupportedType typeName), w := w } ∧
    Amf3WriteValue (Value.map keyKind typeName isNil entries) w =
      { n := 0, err := some (Error.unsupportedType keyKind), w := w } := by
  constructor
  · simp only [WriteValue, writeValueAux, ne_eq, hk, not_false_eq_true, if_true]
  · simp only [Amf3WriteValue, ne_eq, hk, not_false_eq_true, if_true]

/-- Witness of C20 at a populated map with keys of kind int, written to a sink that already
holds two bytes and has room for one more. -/
theorem non_string_key_unsupported_witness :
    WriteValue { buf := [1, 2], cap := some 1 }
        (Value.map "int" "" false [([1], Value.bool true)]) =
      { n := 0, err := some (Error.unsupportedType ""), w := { buf := [1, 2], cap := some 1 } } ∧
    Amf3WriteValue (Value.map "int" "" false [([1], Value.bool true)])
        { buf := [1, 2], cap := some 1 } =
      { n := 0, err := some (Error.unsupportedType "int"),
        w := { buf := [1, 2], cap := some 1 } } :=
  non_string_key_unsupported "int" "" false [([1], Value.bool true)]
    { buf := [1, 2], cap := some 1 } (by decide)

/-! ## C21 : the byte count returned by the AMF0 writers -/

theorem WriteObjectName_result (buf name : Bytes) :
    WriteObjectName { buf := buf, cap := none } name =
      { n := (name.length % 2 ^ 16 + 2) % 2 ^ 16, err := none,
        w := { buf := buf ++ (bigEndian 2 (name.length % 2 ^ 16) ++ name), cap := none } } := by
  simp [WriteObjectName, WriteUTF8_unbounded]

/-- For a name of at most 0xFFFD bytes `WriteObjectName` returns the number of bytes it
wrote, two more than the length of the name. -/
theorem WriteObjectName_count_small (buf name : Bytes) (h : name.length ≤ 0xFFFD) :
    (WriteObjectName { buf := buf, cap := none } name).n = 2 + name.length ∧
    (WriteObjectName { buf := buf, cap := none } name).w.buf.length =
      buf.length + (2 + name.length) := by
  have h1 : name.length % 2 ^ 16 = name.length := Nat.mod_eq_of_lt (by norm_num; omega)
  have h2 : (name.length + 2) % 2 ^ 16 = name.length + 2 :=
    Nat.mod_eq_of_lt (by norm_num; omega)
  rw [WriteObjectName_result]
  simp only [List.length_append, bigEndian_length, h1, h2]
  exact ⟨by omega, trivial⟩

theorem WriteObjectName_at_FFFE (name : Bytes) (hl : name.length = 65534) :
    WriteObjectName Writer.empty name =
      { n := 0, err := none, w := { buf := 0xFF :: 0xFE :: name, cap := none } } := by
  have e : bigEndian 2 65534 = [0xFF, 0xFE] := by decide
  unfold Writer.empty
  rw [WriteObjectName_result, hl]
  norm_num only
  rw [e]
  rfl

theorem WriteObjectName_at_FFFF (name : Bytes) (hl : name.length = 65535) :
    WriteObjectName Writer.empty name =
      { n := 1, err := none, w := { buf := 0xFF :: 0xFF :: name, cap := none } } := by
  have e : bigEndian 2 65535 = [0xFF, 0xFF] := by decide
  unfold Writer.empty
  rw [WriteObjectName_result, hl]
  norm_num only
  rw [e]
  rfl

theorem WriteValue_object_at_FFFE (name : Bytes) (hl : name.length = 65534) :
    WriteValue Writer.empty (Value.object [(name, Value.nil)]) =
      { n := 5, err := none,
        w := { buf := 0x03 :: 0xFF :: 0xFE :: (name ++ [0x05, 0x00, 0x00, 0x09]),
               cap := none } } := by
  have e : bigEndian 2 65534 = [0xFF, 0xFE] := by decide
  have hn := WriteObjectName_result [0x03] name
  rw [hl] at hn
  norm_num only at hn
  rw [e] at hn
  have hs : sortedProps (writeEntries [(name, Value.nil)]) =
      [(name, writeValueAux true Value.nil)] := by
    simp [sortedProps, writeEntries, sortKeys, mapIndex]
  have hv : WriteValue Writer.empty (Value.object [(name, Value.nil)]) =
      propsLoop WriteObjectName WriteObjectEndMarker
        (sortedProps (writeEntries [(name, Value.nil)])) 1 { buf := [0x03], cap := none } := by
    rfl
  rw [hv, hs]
  simp only [propsLoop, hn]
  simp [writeValueAux, WriteNull, Writer.WriteByte, WriteObjectEndMarker, Writer.Write,
    Amf0NullMarker, Amf0ObjectEndMarker]

theorem length_at_FFFE (name : Bytes) (hl : name.length = 65534) :
    (0x03 :: 0xFF :: 0xFE :: (name ++ [0x05, 0x00, 0x00, 0x09])).length = 65541 := by
  simp only [List.length_cons, List.length_append, hl, List.length_nil]

/-- C21 at the failing inputs: for the name of 0xFFFE zero bytes WriteObjectName on the
empty sink that does not fail writes FF FE and the 65534 bytes of the name, 65536 bytes in
all, and returns the count 0; for the name of 0xFFFF zero bytes it writes 65537 bytes and
returns the count 1. WriteValue of the Object with the single property of that first name,
holding Null, succeeds, writes 65541 bytes and returns the count 5. -/
theorem WriteObjectName_count_wraps :
    WriteObjectName Writer.empty (List.replicate 65534 0) =
      { n := 0, err := none,
        w := { buf := 0xFF :: 0xFE :: List.replicate 65534 0, cap := none } } ∧
    WriteObjectName Writer.empty (List.replicate 65535 0) =
      { n := 1, err := none,
        w := { buf := 0xFF :: 0xFF :: List.replicate 65535 0, cap := none } } ∧
    WriteValue Writer.empty (Value.object [(List.replicate 65534 0, Value.nil)]) =
      { n := 5, err := none,
        w := { buf := 0x03 :: 0xFF :: 0xFE :: (List.replicate 65534 0 ++
                 [0x05, 0x00, 0x00, 0x09]), cap := none } } ∧
    (0x03 :: 0xFF :: 0xFE :: (List.replicate 65534 (0 : Nat) ++
      [0x05, 0x00, 0x00, 0x09])).length = 65541 :=
  ⟨WriteObjectName_at_FFFE _ (List.length_replicate _ _),
    WriteObjectName_at_FFFF _ (List.length_replicate _ _),
    WriteValue_object_at_FFFE _ (List.length_replicate _ _),
    length_at_FFFE _ (List.length_replicate _ _)⟩

/-! ## C22 : the range of `Amf3ReadU29` -/

theorem readU29_step (k acc b : Nat) (r : Reader) :
    Amf3ReadU29.loop (k + 1) acc (b :: r) =
      if b &&& 0x80 = 0 then
        { val := (acc * 128 % 2 ^ 32 + b % 128) % 2 ^ 32, err := none, r := r }
      else Amf3ReadU29.loop k ((acc * 128 % 2 ^ 32 + b % 128) % 2 ^ 32) r := by
  simp only [Amf3ReadU29.loop, ReadByte, Nat.shiftLeft_eq, and_7F]

theorem readU29_eof (k acc : Nat) : (Amf3ReadU29.loop k acc []).err = some Error.eof := by
  cases k <;> simp [Amf3ReadU29.loop, ReadByte]

/-- C22: for every byte source (a sequence of bytes, each below 256), whenever Amf3ReadU29
succeeds its result is strictly less than 2^29, so it is not a value in
0x20000000..0x3FFFFFFF, and it has consumed between 1 and 4 bytes: the source before the call
is the bytes consumed followed by the source after the call. -/
theorem Amf3ReadU29_below_2_pow_29 (r : Reader) (hb : ∀ b ∈ r, b < 256)
    (he : (Amf3ReadU29 r).err = none) :
    (Amf3ReadU29 r).val < 2 ^ 29 ∧
    ¬ (0x20000000 ≤ (Amf3ReadU29 r).val ∧ (Amf3ReadU29 r).val ≤ 0x3FFFFFFF) ∧
    ∃ consumed : Bytes, r = consumed ++ (Amf3ReadU29 r).r ∧
      1 ≤ consumed.length ∧ consumed.length ≤ 4 := by
  have key : (Amf3ReadU29 r).val < 2 ^ 29 ∧
      ∃ consumed : Bytes, r = consumed ++ (Amf3ReadU29 r).r ∧
        1 ≤ consumed.length ∧ consumed.length ≤ 4 := by
    unfold Amf3ReadU29 at he ⊢
    rcases r with _ | ⟨b1, _ | ⟨b2, _ | ⟨b3, _ | ⟨b4, r4⟩⟩⟩⟩
    · rw [readU29_eof] at he; cases he
    · rw [readU29_step] at he ⊢
      split_ifs at he ⊢ with h1
      · exact ⟨by norm_num; omega, [b1], rfl, by simp, by simp⟩
      · rw [readU29_eof] at he; cases he
    · rw [readU29_step] at he ⊢
      split_ifs at he ⊢ with h1
      · exact ⟨by norm_num; omega, [b1], rfl, by simp, by simp⟩
      · rw [readU29_step] at he ⊢
        split_ifs at he ⊢ with h2
        · exact ⟨by norm_num; omega, [b1, b2], rfl, by simp, by simp⟩
        · rw [readU29_eof] at he; cases he
    · rw [readU29_step] at he ⊢
      split_ifs at he ⊢ with h1
      · exact ⟨by norm_num; omega, [b1], rfl, by simp, by simp⟩
      · rw [readU29_step] at he ⊢
        split_ifs at he ⊢ with h2
        · exact ⟨by norm_num; omega, [b1, b2], rfl, by simp, by simp⟩
        · rw [readU29_step] at he ⊢
          split_ifs at he ⊢ with h3
          · exact ⟨by norm_num; omega, [b1, b2, b3], rfl, by simp, by simp⟩
          · rw [readU29_eof] at he; cases he
    · have hb4 : b4 < 256 := hb b4 (by simp)
      rw [readU29_step]
      split_ifs with h1
      · exact ⟨by norm_num; omega, [b1], rfl, by simp, by simp⟩
      · rw [readU29_step]
        split_ifs with h2
        · exact ⟨by norm_num; omega, [b1, b2], rfl, by simp, by simp⟩
        · rw [readU29_step]
          split_ifs with h3
          · exact ⟨by norm_num; omega, [b1, b2, b3], rfl, by simp, by simp⟩
          · rw [readU29_last]
            exact ⟨by norm_num; omega, [b1, b2, b3, b4], rfl, by simp, by simp⟩
  refine ⟨key.1, ?_, key.2⟩
  intro h
  have := key.1
  norm_num at this
  omega

/-- Witness of C22 at the source FF FF FF FF 07: the four bytes FF FF FF FF are consumed and
the result is 0x1FFFFFFF. -/
theorem Amf3ReadU29_below_2_pow_29_witness :
    (Amf3ReadU29 [0xFF, 0xFF, 0xFF, 0xFF, 0x07]).val < 2 ^ 29 ∧
    ¬ (0x20000000 ≤ (Amf3ReadU29 [0xFF, 0xFF, 0xFF, 0xFF, 0x07]).val ∧
      (Amf3ReadU29 [0xFF, 0xFF, 0xFF, 0xFF, 0x07]).val ≤ 0x3FFFFFFF) ∧
    ∃ consumed : Bytes,
      [0xFF, 0xFF, 0xFF, 0xFF, 0x07] =
        consumed ++ (Amf3ReadU29 [0xFF, 0xFF, 0xFF, 0xFF, 0x07]).r ∧
      1 ≤ consumed.length ∧ consumed.length ≤ 4 :=
  Amf3ReadU29_below_2_pow_29 [0xFF, 0xFF, 0xFF, 0xFF, 0x07] (by decide) (by decide)

/-- The example of C22 evaluated: the largest result, 0x1FFFFFFF, comes from FF FF FF FF. -/
theorem Amf3ReadU29_largest :
    Amf3ReadU29 [0xFF, 0xFF, 0xFF, 0xFF, 0x07] =
      { val := 0x1FFFFFFF, err := none, r := [0x07] } := by
  decide

/-! ## C23 : the end of decoding, and the slice of `ReadStrictArray` -/

theorem Uniform_Amf3WriteU29 (n : Nat) : Uniform (fun w => Amf3WriteU29 w n) := by
  by_cases h1 : n ≤ 0x7F
  · exact Uniform_intro 1 none [n % 256] (fun buf => by
      simp [Amf3WriteU29, h1, Writer.WriteByte])
  · by_cases h2 : n ≤ 0x3FFF
    · exact Uniform_intro 2 none [(n >>> 7 ||| 0x80) % 256, (n &&& 0x7F) % 256]
        (fun buf => by simp [Amf3WriteU29, h1, h2, Writer.Write])
    · by_cases h3 : n ≤ 0x1FFFFF
      · exact Uniform_intro 3 none
          [(n >>> 14 ||| 0x80) % 256, (n >>> 7 &&& 0x7F ||| 0x80) % 256, (n &&& 0x7F) % 256]
          (fun buf => by simp [Amf3WriteU29, h1, h2, h3, Writer.Write])
      · by_cases h4 : n ≤ 0x3FFFFFFF
        · exact Uniform_intro 4 none
            [(n >>> 22 ||| 0x80) % 256, (n >>> 15 &&& 0x7f ||| 0x80) % 256,
             (n >>> 8 &&& 0x7F ||| 0x80) % 256, (n &&& 0xFF) % 256]
            (fun buf => by simp [Amf3WriteU29, h1, h2, h3, h4, Writer.Write])
        · exact Uniform_intro 0 (some Error.outOfRange) [] (fun buf => by
            simp [Amf3WriteU29, h1, h2, h3, h4])

/-- On a sink that does not fail `Amf3WriteUTF8` reports no error, whatever the text. -/
theorem Amf3WriteUTF8_succeeds (s : Bytes) :
    ∃ (n : Nat) (bs : Bytes), ∀ buf : Bytes,
      Amf3WriteUTF8 { buf := buf, cap := none } s =
        { n := n, err := none, w := { buf := buf ++ bs, cap := none } } := by
  by_cases h0 : s.length = 0
  · exact ⟨1, [0x01], fun buf => by simp [Amf3WriteUTF8, h0, Writer.WriteByte]⟩
  · obtain ⟨m, e, bs, h⟩ := Uniform_Amf3WriteU29 (((s.length <<< 1) % 2 ^ 32) ||| 0x01)
    simp only at h
    cases e with
    | some e =>
      exact ⟨0, bs, fun buf => by
        simp only [Amf3WriteUTF8, h0, if_false, h { buf := buf, cap := none } rfl]⟩
    | none =>
      exact ⟨s.length + m, bs ++ s, fun buf => by
        simp only [Amf3WriteUTF8, h0, if_false, h { buf := buf, cap := none } rfl,
          Write_unbounded { buf := buf ++ bs, cap := none } s rfl, List.append_assoc]⟩

theorem Uniform_Amf3WriteUTF8 (s : Bytes) : Uniform (fun w => Amf3WriteUTF8 w s) := by
  obtain ⟨n, bs, h⟩ := Amf3WriteUTF8_succeeds s
  exact Uniform_intro n none bs h

theorem Amf3WriteObjectName_appends (s : Bytes) :
    Appends (fun w => Amf3WriteObjectName w s) (amf3NameBytes s) := by
  obtain ⟨n, bs, h⟩ := Amf3WriteUTF8_succeeds s
  have e : amf3NameBytes s = bs := by
    unfold amf3NameBytes Amf3WriteObjectName Writer.empty
    rw [h []]
    simp
  rw [e]
  intro w hw
  cases w with
  | mk buf cap =>
    simp only at hw
    subst hw
    simp only [Amf3WriteObjectName, h buf]
    exact ⟨trivial, trivial⟩

theorem Uniform_Amf3WriteString (s : Bytes) : Uniform (fun w => Amf3WriteString w s) := by
  obtain ⟨n, bs, h⟩ := Amf3WriteUTF8_succeeds s
  exact Uniform_intro (1 + n) none (0x06 :: bs) (fun buf => by
    simp [Amf3WriteString, Writer.WriteByte, Amf3StringMarker, h])

theorem Uniform_Amf3WriteDouble (num : Nat) : Uniform (fun w => Amf3WriteDouble w num) :=
  Uniform_intro 9 none (0x05 :: bigEndian 8 num) (fun buf => by
    simp [Amf3WriteDouble, Writer.WriteByte, binaryWrite_unbounded, Amf3DoubleMarker])

theorem Uniform_Amf3WriteBoolean (b : Bool) : Uniform (fun w => Amf3WriteBoolean w b) :=
  Uniform_intro 1 none [if b then 0x03 else 0x02] (fun buf => by
    cases b <;> simp [Amf3WriteBoolean, Writer.WriteByte, Amf3TrueMarker, Amf3FalseMarker])

theorem Uniform_Amf3WriteNull : Uniform Amf3WriteNull :=
  Uniform_intro 1 none [0x01] (fun buf => by
    simp [Amf3WriteNull, Writer.WriteByte, Amf3NullMarker])

theorem Uniform_Amf3WriteUndefined : Uniform Amf3WriteUndefined :=
  Uniform_intro 1 none [0x00] (fun buf => by
    simp [Amf3WriteUndefined, Writer.WriteByte, Amf3UndefinedMarker])

theorem Uniform_Amf3WriteObjectEndMarker : Uniform Amf3WriteObjectEndMarker :=
  Uniform_intro 1 none [0x01] (fun buf => by
    simp [Amf3WriteObjectEndMarker, Writer.WriteByte])

theorem Uniform_amf3ElemsLoop (fs : List (Writer → WRes)) (h : ∀ f ∈ fs, Uniform f)
    (n : Nat) : Uniform (amf3ElemsLoop fs n) := by
  induction fs generalizing n with
  | nil => exact Uniform_congr (fun _ => rfl) (Uniform_const n none)
  | cons f rest ih =>
    exact Uniform_congr (fun _ => rfl)
      (Uniform_then f (fun m => amf3ElemsLoop rest (n + m)) n (h f (List.mem_cons_self _ _))
        (fun m => ih (fun g hg => h g (List.mem_cons_of_mem _ hg)) (n + m)))

theorem Uniform_amf3ObjectBody (props : List (Bytes × (Writer → WRes)))
    (h : ∀ p ∈ props, Uniform p.2) : Uniform (fun w => amf3ObjectBody w props) := by
  obtain ⟨m, e, bs, hl⟩ := Uniform_propsLoop Amf3WriteObjectName Amf3WriteObjectEndMarker
    Uniform_Amf3WriteUTF8 Uniform_Amf3WriteObjectEndMarker props h (1 + 1 + 1)
  refine Uniform_intro m e (0x0a :: 0x0b :: 0x01 :: bs) (fun buf => ?_)
  have a := hl { buf := buf ++ [0x0a] ++ [0x0b] ++ [0x01], cap := none } rfl
  have hc : Amf3WriteUTF8 { buf := buf ++ [0x0a] ++ [0x0b], cap := none } [] =
      { n := 1, err := none,
        w := { buf := buf ++ [0x0a] ++ [0x0b] ++ [0x01], cap := none } } := by
    simp [Amf3WriteUTF8, Writer.WriteByte]
  simp only [amf3ObjectBody, Amf3WriteObjectMarker, WriteMarker_unbounded, Amf3ObjectMarker,
    WriteByte_unbounded { buf := buf ++ [0x0a], cap := none } _ rfl, hc, a]
  simp

theorem Uniform_amf3_bytes_body (b : Bytes) :
    Uniform (fun w =>
      let r1 := WriteMarker w Amf3ByteArrayMarker
      match r1.err with
      | some e => { n := r1.n, err := some e, w := r1.w }
      | none =>
        let u := ((b.length <<< 1) ||| 0x01) % 2 ^ 32
        let r2 := Amf3WriteU29 r1.w u
        match r2.err with
        | some e => { n := r1.n, err := some e, w := r2.w }
        | none =>
          let r3 := r2.w.Write b
          match r3.err with
          | some e => { n := r1.n + r2.n, err := some e, w := r3.w }
          | none => { n := r1.n + r2.n + r3.n, err := none, w := r3.w }) := by
  obtain ⟨m, e, bs, h⟩ := Uniform_Amf3WriteU29 (((b.length <<< 1) ||| 0x01) % 2 ^ 32)
  simp only at h
  have a := fun buf : Bytes => h { buf := buf ++ [0x0c], cap := none } rfl
  cases e with
  | some e =>
    refine Uniform_intro 1 (some e) (0x0c :: bs) (fun buf => ?_)
    simp only [WriteMarker_unbounded, Amf3ByteArrayMarker, a]
    simp
  | none =>
    refine Uniform_intro (1 + m + b.length) none (0x0c :: (bs ++ b)) (fun buf => ?_)
    simp only [WriteMarker_unbounded, Amf3ByteArrayMarker, a,
      Write_unbounded { buf := buf ++ [0x0c] ++ bs, cap := none } b rfl]
    simp

theorem Uniform_amf3_array_body (length : Nat) (fs : List (Writer → WRes))
    (hf : ∀ f ∈ fs, Uniform f) :
    Uniform (fun w =>
      let r1 := WriteMarker w Amf3ArrayMarker
      match r1.err with
      | some e => { n := r1.n, err := some e, w := r1.w }
      | none =>
        let u := ((length <<< 1) ||| 0x01) % 2 ^ 32
        let r2 := Amf3WriteU29 r1.w u
        match r2.err with
        | some e => { n := r1.n, err := some e, w := r2.w }
        | none =>
          let r3 := r2.w.WriteByte 0x01
          match r3.err with
          | some e => { n := r1.n + r2.n, err := some e, w := r3.w }
          | none => amf3ElemsLoop fs (r1.n + r2.n + 1) r3.w) := by
  obtain ⟨m, e, bs, h⟩ := Uniform_Amf3WriteU29 (((length <<< 1) ||| 0x01) % 2 ^ 32)
  simp only at h
  have a := fun buf : Bytes => h { buf := buf ++ [0x09], cap := none } rfl
  cases e with
  | some e =>
    refine Uniform_intro 1 (some e) (0x09 :: bs) (fun buf => ?_)
    simp only [WriteMarker_unbounded, Amf3ArrayMarker, a]
    simp
  | none =>
    obtain ⟨m3, e3, bs3, h3⟩ := Uniform_amf3ElemsLoop fs hf (1 + m + 1)
    refine Uniform_intro m3 e3 (0x09 :: (bs ++ 0x01 :: bs3)) (fun buf => ?_)
    have a3 := h3 { buf := buf ++ [0x09] ++ bs ++ [0x01], cap := none } rfl
    simp only [WriteMarker_unbounded, Amf3ArrayMarker, a,
      WriteByte_unbounded { buf := buf ++ [0x09] ++ bs, cap := none } _ rfl, a3]
    simp

theorem Uniform_amf3_byte_array_body :
    Uniform (fun w =>
      let r1 := WriteMarker w Amf3ByteArrayMarker
      match r1.err with
      | some e => { n := r1.n, err := some e, w := r1.w }
      | none =>
        { n := r1.n, err := some (Error.reflectPanic "Bytes of unaddressable byte array"),
          w := r1.w }) :=
  Uniform_intro 1 (some (Error.reflectPanic "Bytes of unaddressable byte array")) [0x0c]
    (fun buf => by simp [WriteMarker_unbounded, Amf3ByteArrayMarker])

mutual
/-- `Amf3WriteValue` treats all sinks that do not fail alike. -/
theorem Amf3WriteValue_uniform : ∀ (v : Value), Uniform (Amf3WriteValue v)
  | Value.nil => Uniform_congr (fun _ => rfl) Uniform_Amf3WriteNull
  | Value.string s => Uniform_congr (fun _ => rfl) (Uniform_Amf3WriteString s)
  | Value.bool b => Uniform_congr (fun _ => rfl) (Uniform_Amf3WriteBoolean b)
  | Value.int i => Uniform_congr (fun _ => rfl) (Uniform_Amf3WriteDouble (float64OfInt i))
  | Value.uint u => Uniform_congr (fun _ => rfl) (Uniform_Amf3WriteDouble (float64OfNat u))
  | Value.float bits => Uniform_congr (fun _ => rfl) (Uniform_Amf3WriteDouble bits)
  | Value.slice elemKind elems => by
    by_cases hk : elemKind = "uint8"
    · exact Uniform_congr
        (fun w => by conv => lhs; unfold Amf3WriteValue
                     rw [if_pos hk]
                     try rfl)
        (Uniform_amf3_bytes_body (elems.map byteOf))
    · exact Uniform_congr
        (fun w => by conv => lhs; unfold Amf3WriteValue
                     rw [if_neg hk]
                     try rfl)
        (Uniform_amf3_array_body elems.length (amf3WriteElems elems)
          (amf3WriteElems_uniform elems))
  | Value.array elemKind elems => by
    by_cases hk : elemKind = "uint8"
    · exact Uniform_congr
        (fun w => by conv => lhs; unfold Amf3WriteValue
                     rw [if_pos hk]
                     try rfl)
        Uniform_amf3_byte_array_body
    · exact Uniform_congr
        (fun w => by conv => lhs; unfold Amf3WriteValue
                     rw [if_neg hk]
                     try rfl)
        (Uniform_amf3_array_body elems.length (amf3WriteElems elems)
          (amf3WriteElems_uniform elems))
  | Value.map keyKind _ _ entries => by
    by_cases hk : keyKind ≠ "string"
    · exact Uniform_congr
        (fun w => by conv => lhs; unfold Amf3WriteValue
                     rw [if_pos hk])
        (Uniform_const 0 (some (Error.unsupportedType keyKind)))
    · exact Uniform_congr
        (fun w => by conv => lhs; unfold Amf3WriteValue
                     rw [if_neg hk])
        (Uniform_amf3ObjectBody _ (Uniform_sortedProps _ (amf3WriteEntries_uniform entries)))
  | Value.undefined => Uniform_congr (fun _ => rfl) Uniform_Amf3WriteUndefined
  | Value.nilPtr =>
    Uniform_congr (fun _ => rfl) (Uniform_const 0 (some (Error.unsupportedType "ptr")))
  | Value.ptr _ =>
    Uniform_congr (fun _ => rfl) (Uniform_const 0 (some (Error.unsupportedType "ptr")))
  | Value.struct _ =>
    Uniform_congr (fun _ => rfl) (Uniform_const 0 (some (Error.unsupportedType "struct")))
  | Value.time _ =>
    Uniform_congr (fun _ => rfl) (Uniform_const 0 (some (Error.unsupportedType "struct")))
  | Value.iface _ dyn => Uniform_congr (fun _ => rfl) (Amf3WriteValue_uniform dyn)
  | Value.unexported v => Uniform_congr (fun _ => rfl) (Amf3WriteValue_uniform v)
  | Value.other kind _ =>
    Uniform_congr (fun _ => rfl) (Uniform_const 0 (some (Error.unsupportedType kind)))
/-- The AMF3 writers of the elements of a slice. -/
theorem amf3WriteElems_uniform : ∀ (elems : List Value), ∀ f ∈ amf3WriteElems elems, Uniform f
  | [] => fun f hf => by simp [amf3WriteElems] at hf
  | v :: vs => fun f hf => by
    simp only [amf3WriteElems, List.mem_cons] at hf
    rcases hf with rfl | hf
    · exact Amf3WriteValue_uniform v
    · exact amf3WriteElems_uniform vs f hf
/-- The AMF3 writers of the entries of a map. -/
theorem amf3WriteEntries_uniform : ∀ (entries : List (Bytes × Value)),
    ∀ p ∈ amf3WriteEntries entries, Uniform p.2
  | [] => fun p hp => by simp [amf3WriteEntries] at hp
  | (_, v) :: es => fun p hp => by
    simp only [amf3WriteEntries, List.mem_cons] at hp
    rcases hp with rfl | hp
    · exact Amf3WriteValue_uniform v
    · exact amf3WriteEntries_uniform es p hp
end

/-- A value that `Amf3WriteValue` encodes without error on the empty sink is encoded in the
same way, as `amf3Bytes`, on every sink that does not fail. -/
theorem amf3_encodable_appends (v : Value) (h : (Amf3WriteValue v Writer.empty).err = none) :
    Appends (Amf3WriteValue v) (amf3Bytes v) :=
  Uniform_appends (Amf3WriteValue_uniform v) h

/-! ## C24 : the empty string as a key of an AMF3 object -/

theorem strLess_nil_left (k : Bytes) (h : strLess [] k = false) : k = [] := by
  cases k with
  | nil => rfl
  | cons a as => simp [strLess] at h

/-- In a map that has the empty string among its keys, the entry listed first in ascending
order of key is the one of the empty string. -/
theorem sortedEntries_head_empty (es : List (Bytes × Value))
    (hmem : ([] : Bytes) ∈ es.map Prod.fst) :
    ∃ v others, sortedEntries es = (([] : Bytes), v) :: others := by
  have hp : (sortedEntries es).Perm es := List.perm_insertionSort entryLE es
  have hs : List.Pairwise (fun a b : Bytes × Value => strLE a.1 b.1) (sortedEntries es) := by
    have := (sortKeys_spec (es.map Prod.fst)).2.1
    rw [← sortedEntries_keys] at this
    exact List.pairwise_map.mp this
  obtain ⟨e0, he0, hk0⟩ := List.mem_map.mp hmem
  have hin : e0 ∈ sortedEntries es := hp.mem_iff.mpr he0
  cases hl : sortedEntries es with
  | nil => rw [hl] at hin; simp at hin
  | cons e others =>
    obtain ⟨k, v⟩ := e
    rw [hl] at hin hs
    refine ⟨v, others, ?_⟩
    have hk : k = [] := by
      rcases List.mem_cons.mp hin with h | h
      · rw [h] at hk0; exact hk0
      · have h1 := List.rel_of_pairwise_cons hs h
        unfold strLE at h1
        simp only at h1
        rw [hk0] at h1
        exact strLess_nil_left k h1
    rw [hk]

theorem amf3NameBytes_nil : amf3NameBytes [] = [0x01] := by decide

theorem amf3_propsLoop_appends_any (es : List (Bytes × Value))
    (hv : ∀ e ∈ es, Appends (Amf3WriteValue e.2) (amf3Bytes e.2)) (n : Nat) :
    Appends (propsLoop Amf3WriteObjectName Amf3WriteObjectEndMarker
      (es.map (fun e => (e.1, Amf3WriteValue e.2))) n) (amf3EntriesBytes es) := by
  induction es generalizing n with
  | nil =>
    intro w hw
    simp [propsLoop, Amf3WriteObjectEndMarker, WriteByte_unbounded w _ hw, amf3EntriesBytes]
  | cons e rest ih =>
    obtain ⟨k, v⟩ := e
    intro w hw
    have h1 := Amf3WriteObjectName_appends k w hw
    simp only at h1
    have h2 := hv (k, v) (List.mem_cons_self _ _) (Amf3WriteObjectName w k).w (by rw [h1.2])
    have h3 := ih (fun e he => hv e (List.mem_cons_of_mem _ he))
      (n + (Amf3WriteObjectName w k).n + (Amf3WriteValue v (Amf3WriteObjectName w k).w).n)
      (Amf3WriteValue v (Amf3WriteObjectName w k).w).w (by rw [h2.2])
    simp only [List.map_cons, propsLoop, h1.1, h2.1]
    refine ⟨h3.1, ?_⟩
    rw [h3.2, h2.2, h1.2]
    simp [amf3EntriesBytes, List.append_assoc]

theorem Appends_amf3_map (typeName : String) (isNil : Bool) (es : List (Bytes × Value))
    (hnd : (es.map Prod.fst).Nodup)
    (hv : ∀ e ∈ es, Appends (Amf3WriteValue e.2) (amf3Bytes e.2)) :
    Appends (Amf3WriteValue (Value.map "string" typeName isNil es))
      (0x0a :: 0x0b :: 0x01 :: amf3EntriesBytes (sortedEntries es)) := by
  intro w hw
  have hmem : ∀ e ∈ sortedEntries es, e ∈ es :=
    fun e he => (List.perm_insertionSort entryLE es).mem_iff.mp he
  have hm : Amf3WriteObjectMarker w =
      { n := 1, err := none, w := { buf := w.buf ++ [0x0a], cap := none } } := by
    simp [Amf3WriteObjectMarker, WriteMarker, WriteByte_unbounded w _ hw, Amf3ObjectMarker]
  have hc : Amf3WriteUTF8 { buf := w.buf ++ [0x0a] ++ [0x0b], cap := none } [] =
      { n := 1, err := none,
        w := { buf := w.buf ++ [0x0a] ++ [0x0b] ++ [0x01], cap := none } } := by
    simp [Amf3WriteUTF8, Writer.WriteByte]
  have h3 := amf3_propsLoop_appends_any (sortedEntries es) (fun e he => hv e (hmem e he))
    (1 + 1 + 1) { buf := w.buf ++ [0x0a] ++ [0x0b] ++ [0x01], cap := none } rfl
  simp only [Amf3WriteValue, amf3WriteEntries_eq_map, sortedProps_map _ es hnd, amf3ObjectBody,
    hm, WriteByte_unbounded { buf := w.buf ++ [0x0a], cap := none } _ rfl, hc]
  simp only [ne_eq, not_true_eq_false, if_false]
  refine ⟨h3.1, ?_⟩
  rw [h3.2]
  simp

/-- An AMF3 object whose first name is empty is read as the empty Object: the sentinel ends
the object and the bytes after it stay unread. -/
theorem Amf3ReadValue_empty_name (tail : Bytes) :
    Amf3ReadValue (0x0a :: 0x0b :: 0x01 :: 0x01 :: tail) =
      some { val := Value.object [], err := none, r := tail } := by
  simp [Amf3ReadValue, Amf3ReadValueFuel, Amf3ReadObjectPropertyFuel,
    Amf3ReadObjectPropertyLoop, amf3ReadTraits, ReadMarker, ReadByte, Amf3UndefinedMarker,
    Amf3NullMarker, Amf3FalseMarker, Amf3TrueMarker, Amf3IntegerMarker, Amf3DoubleMarker,
    Amf3StringMarker, Amf3ArrayMarker, Amf3ObjectMarker, Amf3ReadObjectName, Amf3ReadUTF8_end,
    objectValue]

/-- C24 (as amended): for every string-keyed map m that contains the empty string as a key
and whose values Amf3WriteValue encodes without error, Amf3WriteValue(m) on a sink that does
not fail succeeds and appends 0a 0b 01 followed by the pairs in ascending order of key and
the terminator; the empty string is the first key, so the empty-name sentinel 0x01 stands
immediately after the traits byte and the class name, followed by the value of the empty
key and the remaining pairs (`tail`). Amf3ReadValue applied to the emitted bytes, followed
by any bytes rest, returns the empty Object with no error: it drops every property of m and
leaves the emitted bytes after the sentinel, and rest, unread. -/
theorem empty_key_truncates_object (typeName : String) (entries : List (Bytes × Value))
    (w : Writer) (rest : Bytes) (hw : w.cap = none) (hnd : (entries.map Prod.fst).Nodup)
    (hmem : ([] : Bytes) ∈ entries.map Prod.fst)
    (hv : ∀ e ∈ entries, (Amf3WriteValue e.2 Writer.empty).err = none) :
    (Amf3WriteValue (Value.map "string" typeName false entries) w).err = none ∧
    ∃ (v : Value) (others : List (Bytes × Value)) (tail : Bytes),
      sortedEntries entries = (([] : Bytes), v) :: others ∧
      tail = amf3Bytes v ++ amf3EntriesBytes others ∧
      (Amf3WriteValue (Value.map "string" typeName false entries) w).w =
        { buf := w.buf ++ (0x0a :: 0x0b :: 0x01 :: 0x01 :: tail), cap := none } ∧
      Amf3ReadValue (0x0a :: 0x0b :: 0x01 :: 0x01 :: (tail ++ rest)) =
        some { val := Value.object [], err := none, r := tail ++ rest } := by
  have ha := Appends_amf3_map typeName false entries hnd
    (fun e he => amf3_encodable_appends e.2 (hv e he)) w hw
  obtain ⟨v, others, hs⟩ := sortedEntries_head_empty entries hmem
  refine ⟨ha.1, v, others, _, hs, rfl, ?_, Amf3ReadValue_empty_name _⟩
  rw [ha.2, hs]
  simp [amf3EntriesBytes, amf3NameBytes_nil]

/-- Witness of C24 (as amended) at the map {"a": "x", "": true}, written to the empty
sink. -/
theorem empty_key_truncates_object_witness :
    (Amf3WriteValue (Value.map "string" "" false
      [([97], Value.string [120]), ([], Value.bool true)]) Writer.empty).err = none ∧
    ∃ (v : Value) (others : List (Bytes × Value)) (tail : Bytes),
      sortedEntries [([97], Value.string [120]), ([], Value.bool true)] =
        (([] : Bytes), v) :: others ∧
      tail = amf3Bytes v ++ amf3EntriesBytes others ∧
      (Amf3WriteValue (Value.map "string" "" false
        [([97], Value.string [120]), ([], Value.bool true)]) Writer.empty).w =
        { buf := Writer.empty.buf ++ (0x0a :: 0x0b :: 0x01 :: 0x01 :: tail), cap := none } ∧
      Amf3ReadValue (0x0a :: 0x0b :: 0x01 :: 0x01 :: (tail ++ [])) =
        some { val := Value.object [], err := none, r := tail ++ [] } :=
  empty_key_truncates_object "" [([97], Value.string [120]), ([], Value.bool true)]
    Writer.empty [] rfl (by decide) (by decide) (by decide)

/-- The example of C24 evaluated: the map {"a": "x", "": true} is written as 0a 0b 01, the
sentinel 01 that is the empty name, 03 for true, the name "a" with the String "x", and 01;
Amf3ReadValue reads the empty Object and leaves the seven bytes after the sentinel. -/
theorem empty_key_example :
    Amf3WriteValue (Value.map "string" "" false
        [([97], Value.string [120]), ([], Value.bool true)]) Writer.empty =
      { n := 11, err := none,
        w := { buf := [0x0a, 0x0b, 0x01, 0x01, 0x03, 0x03, 97, 0x06, 0x03, 120, 0x01],
               cap := none } } ∧
    Amf3ReadValue [0x0a, 0x0b, 0x01, 0x01, 0x03, 0x03, 97, 0x06, 0x03, 120, 0x01] =
      some { val := Value.object [], err := none,
             r := [0x03, 0x03, 97, 0x06, 0x03, 120, 0x01] } :=
  ⟨by decide, rfl⟩

/-- Counterexample to C24 as stated: for the map whose only key is the empty string, holding
a function value, Amf3WriteValue on the empty sink that does not fail writes 0a 0b 01 01 and
returns UnsupportedTypeError("func"): it does not succeed. -/
theorem empty_key_map_may_fail :
    Amf3WriteValue (Value.map "string" "" false [([], Value.other "func" "")]) Writer.empty =
      { n := 4, err := some (Error.unsupportedType "func"),
        w := { buf := [0x0a, 0x0b, 0x01, 0x01], cap := none } } := by
  decide

/-! ## C3 : the properties of a map are written in ascending order of key -/

theorem Uniform_at {f : Writer → WRes} (h : Uniform f) (buf : Bytes) :
    f { buf := buf, cap := none } =
      { n := (f Writer.empty).n, err := (f Writer.empty).err,
        w := { buf := buf ++ (f Writer.empty).w.buf, cap := none } } := by
  obtain ⟨n, e, bs, hf⟩ := h
  rw [hf { buf := buf, cap := none } rfl, hf Writer.empty rfl]
  simp [Writer.empty]

/-- The property loop of `WriteValue` on a sink that does not fail: the bytes appended, and
success when every value is encoded without error. -/
theorem propsLoop_written (es : List (Bytes × Value)) (n : Nat) (buf : Bytes) :
    (propsLoop WriteObjectName WriteObjectEndMarker
      (es.map (fun e => (e.1, writeValueAux true e.2))) n { buf := buf, cap := none }).w =
      { buf := buf ++ amf0WrittenProps es, cap := none } ∧
    ((∀ e ∈ es, (WriteValue Writer.empty e.2).err = none) →
      (propsLoop WriteObjectName WriteObjectEndMarker
        (es.map (fun e => (e.1, writeValueAux true e.2))) n { buf := buf, cap := none }).err =
        none) := by
  induction es generalizing n buf with
  | nil =>
    simp [propsLoop, WriteObjectEndMarker, Writer.Write, amf0WrittenProps, Amf0ObjectEndMarker]
  | cons e rest ih =>
    obtain ⟨k, v⟩ := e
    have h1 := WriteObjectName_unbounded { buf := buf, cap := none } k rfl
    have h2 := Uniform_at (writeValueAux_uniform true v)
      (buf ++ (bigEndian 2 (k.length % 2 ^ 16) ++ k))
    simp only [List.map_cons, propsLoop, h1.1, h1.2, h2]
    cases hv : (writeValueAux true v Writer.empty).err with
    | some err =>
      have hv2 : (WriteValue Writer.empty v).err = some err := hv
      simp [amf0WrittenProps, amf0Bytes, WriteValue, hv]
    | none =>
      have hv2 : (WriteValue Writer.empty v).err = none := hv
      have h3 := ih
        (n + (WriteObjectName { buf := buf, cap := none } k).n +
          (writeValueAux true v Writer.empty).n)
        (buf ++ (bigEndian 2 (k.length % 2 ^ 16) ++ k) ++ (writeValueAux true v Writer.empty).w.buf)
      simp only
      refine ⟨?_, fun hall => h3.2 (fun e he => hall e (List.mem_cons_of_mem _ he))⟩
      rw [h3.1]
      simp [amf0WrittenProps, amf0Bytes, WriteValue, hv, List.append_assoc]

/-- The property loop of `Amf3WriteValue` on a sink that does not fail: the bytes appended,
and success when every value is encoded without error. -/
theorem amf3_propsLoop_written (es : List (Bytes × Value)) (n : Nat) (buf : Bytes) :
    (propsLoop Amf3WriteObjectName Amf3WriteObjectEndMarker
      (es.map (fun e => (e.1, Amf3WriteValue e.2))) n { buf := buf, cap := none }).w =
      { buf := buf ++ amf3WrittenProps es, cap := none } ∧
    ((∀ e ∈ es, (Amf3WriteValue e.2 Writer.empty).err = none) →
      (propsLoop Amf3WriteObjectName Amf3WriteObjectEndMarker
        (es.map (fun e => (e.1, Amf3WriteValue e.2))) n { buf := buf, cap := none }).err =
        none) := by
  induction es generalizing n buf with
  | nil =>
    simp [propsLoop, Amf3WriteObjectEndMarker, Writer.WriteByte, amf3WrittenProps]
  | cons e rest ih =>
    obtain ⟨k, v⟩ := e
    have h1 := Amf3WriteObjectName_appends k { buf := buf, cap := none } rfl
    simp only at h1
    have h2 := Uniform_at (Amf3WriteValue_uniform v) (buf ++ amf3NameBytes k)
    simp only [List.map_cons, propsLoop, h1.1, h1.2, h2]
    cases hv : (Amf3WriteValue v Writer.empty).err with
    | some err =>
      simp [amf3WrittenProps, amf3Bytes, hv]
    | none =>
      have h3 := ih
        (n + (Amf3WriteObjectName { buf := buf, cap := none } k).n +
          (Amf3WriteValue v Writer.empty).n)
        (buf ++ amf3NameBytes k ++ (Amf3WriteValue v Writer.empty).w.buf)
      simp only
      refine ⟨?_, fun hall => h3.2 (fun e he => hall e (List.mem_cons_of_mem _ he))⟩
      rw [h3.1]
      simp [amf3WrittenProps, amf3Bytes, hv, List.append_assoc]

theorem amf0WrittenProps_encodable (es : List (Bytes × Value))
    (h : ∀ e ∈ es, (WriteValue Writer.empty e.2).err = none) :
    amf0WrittenProps es = amf0PropsBytes es := by
  induction es with
  | nil => rfl
  | cons e rest ih =>
    obtain ⟨k, v⟩ := e
    have hv := h (k, v) (List.mem_cons_self _ _)
    simp only at hv
    simp only [amf0WrittenProps, amf0PropsBytes, hv, if_true,
      ih (fun e he => h e (List.mem_cons_of_mem _ he))]

theorem amf3WrittenProps_encodable (es : List (Bytes × Value))
    (h : ∀ e ∈ es, (Amf3WriteValue e.2 Writer.empty).err = none) :
    amf3WrittenProps es = amf3EntriesBytes es := by
  induction es with
  | nil => rfl
  | cons e rest ih =>
    obtain ⟨k, v⟩ := e
    have hv := h (k, v) (List.mem_cons_self _ _)
    simp only at hv
    simp only [amf3WrittenProps, amf3EntriesBytes, hv, if_true,
      ih (fun e he => h e (List.mem_cons_of_mem _ he))]

theorem byteOf_canon (v : Value) : byteOf v.canon = byteOf v := by
  cases v <;> simp [Value.canon, byteOf]

mutual
/-- `Amf3WriteValue` writes a value as it writes the value with every map in it, at any
depth, listed in ascending order of key: under AMF3 the result depends on the contents of the
maps only, not on their iteration order. -/
theorem Amf3WriteValue_canon : ∀ (v : Value), v.DistinctKeys →
    Amf3WriteValue v.canon = Amf3WriteValue v
  | Value.map keyKind typeName isNil entries, h => by
    have h1 : (entries.map Prod.fst).Nodup ∧ distinctKeysEntries entries := by
      simpa [Value.DistinctKeys] using h
    have hndc : ((canonEntries entries).map Prod.fst).Nodup := by
      rw [canonEntries_eq_map]
      simpa [List.map_map, Function.comp_def] using h1.1
    have hsp : sortedProps (amf3WriteEntries (sortedEntries (canonEntries entries))) =
        sortedProps (amf3WriteEntries entries) := by
      rw [amf3WriteEntries_eq_map (sortedEntries (canonEntries entries)),
        sortedProps_perm Amf3WriteValue (canonEntries entries)
          (sortedEntries (canonEntries entries)) hndc (List.perm_insertionSort _ _),
        ← amf3WriteEntries_eq_map, amf3WriteEntries_canon entries h1.2]
    funext w
    simp only [Value.canon, Amf3WriteValue, hsp]
  | Value.slice elemKind elems, h => by
    have h1 : distinctKeysElems elems := by simpa [Value.DistinctKeys] using h
    obtain ⟨e1, e2, e3⟩ := amf3WriteElems_canon elems h1
    funext w
    simp only [Value.canon, Amf3WriteValue, e1, e2, e3]
  | Value.array elemKind elems, h => by
    have h1 : distinctKeysElems elems := by simpa [Value.DistinctKeys] using h
    obtain ⟨e1, e2, e3⟩ := amf3WriteElems_canon elems h1
    funext w
    simp only [Value.canon, Amf3WriteValue, e1, e2, e3]
  | Value.iface typeName dyn, h => by
    have h1 : dyn.DistinctKeys := by simpa [Value.DistinctKeys] using h
    have ih := Amf3WriteValue_canon dyn h1
    funext w
    simp only [Value.canon, Amf3WriteValue, ih]
  | Value.unexported v, h => by
    have h1 : v.DistinctKeys := by simpa [Value.DistinctKeys] using h
    have ih := Amf3WriteValue_canon v h1
    funext w
    simp only [Value.canon, Amf3WriteValue, ih]
  | Value.ptr _, _ => by funext w; simp only [Value.canon, Amf3WriteValue]
  | Value.struct _, _ => by funext w; simp only [Value.canon, Amf3WriteValue]
  | Value.nil, _ => by simp only [Value.canon]
  | Value.undefined, _ => by simp only [Value.canon]
  | Value.bool _, _ => by simp only [Value.canon]
  | Value.int _, _ => by simp only [Value.canon]
  | Value.uint _, _ => by simp only [Value.canon]
  | Value.float _, _ => by simp only [Value.canon]
  | Value.string _, _ => by simp only [Value.canon]
  | Value.nilPtr, _ => by simp only [Value.canon]
  | Value.time _, _ => by simp only [Value.canon]
  | Value.other _ _, _ => by simp only [Value.canon]
/-- The AMF3 writers of the elements in canonical listing. -/
theorem amf3WriteElems_canon : ∀ (elems : List Value), distinctKeysElems elems →
    amf3WriteElems (canonElems elems) = amf3WriteElems elems ∧
    (canonElems elems).map byteOf = elems.map byteOf ∧
    (canonElems elems).length = elems.length
  | [], _ => ⟨rfl, rfl, rfl⟩
  | v :: vs, h => by
    have h1 : v.DistinctKeys ∧ distinctKeysElems vs := by simpa [distinctKeysElems] using h
    obtain ⟨e1, e2, e3⟩ := amf3WriteElems_canon vs h1.2
    have ih := Amf3WriteValue_canon v h1.1
    refine ⟨?_, ?_, ?_⟩
    · simp only [canonElems, amf3WriteElems, ih, e1]
    · simp only [canonElems, List.map_cons, byteOf_canon, e2]
    · simp only [canonElems, List.length_cons, e3]
/-- The AMF3 writers of the entries in canonical listing. -/
theorem amf3WriteEntries_canon : ∀ (entries : List (Bytes × Value)),
    distinctKeysEntries entries →
    amf3WriteEntries (canonEntries entries) = amf3WriteEntries entries
  | [], _ => rfl
  | (k, v) :: es, h => by
    have h1 : v.DistinctKeys ∧ distinctKeysEntries es := by
      simpa [distinctKeysEntries] using h
    have ih := Amf3WriteValue_canon v h1.1
    simp only [canonEntries, amf3WriteEntries, ih, amf3WriteEntries_canon es h1.2]
end

/-- C3 at the failing input, and what holds for every string-keyed map. The map is given
by its entries in iteration order, with pairwise distinct keys. The entries in ascending
order of key are a rearrangement of the entries and their keys ascend strictly in the
byte-wise order. On every sink that does not fail WriteValue appends, for a map that is not
nil, the marker 03 and then, in that order and for each key once, the name (2-byte length,
bytes) and the bytes written for its value, up to the first value whose write fails, and the
terminator 00 00 09 when none fails; Amf3WriteValue appends 0a 0b 01 and then, in that
order, the name (the U29 of its flagged length, then its bytes) and the bytes written for
each value in the same way, and the terminator 01. When every value is encoded without error
the call succeeds. A nil map is written by WriteValue as Null. On every sink the result is the
same for every other iteration order of the map itself, and under AMF3 for every other
iteration order of the maps in it at any depth (the result is the same for every listing
with the same canonical listing). For {"b":1,"a":2} the order is a, b in both formats. The failing input is the map
{"k": T{F: Object{"b":1,"a":2}}} where `T` is a struct with the one field `F interface{}`:
the Object held in the field is written by `WriteObject`, which visits it in iteration
order, so the bytes written under AMF0 for this one map are b before a when the Object is
iterated in the order b, a and a before b when it is iterated in the order a, b. -/
theorem map_properties_sorted (typeName : String) (isNil : Bool)
    (entries entries' : List (Bytes × Value)) (buf : Bytes) (w : Writer)
    (hnd : (entries.map Prod.fst).Nodup) (hperm : entries'.Perm entries) :
    (sortedEntries entries).Perm entries ∧
    ((sortedEntries entries).map Prod.fst).Sorted (fun a b => strLess a b = true) ∧
    (WriteValue { buf := buf, cap := none } (Value.map "string" typeName false entries)).w =
      { buf := buf ++ 0x03 :: amf0WrittenProps (sortedEntries entries), cap := none } ∧
    (Amf3WriteValue (Value.map "string" typeName isNil entries) { buf := buf, cap := none }).w =
      { buf := buf ++ 0x0a :: 0x0b :: 0x01 :: amf3WrittenProps (sortedEntries entries),
        cap := none } ∧
    ((∀ e ∈ entries, (WriteValue Writer.empty e.2).err = none) →
      (WriteValue { buf := buf, cap := none }
        (Value.map "string" typeName false entries)).err = none ∧
      amf0WrittenProps (sortedEntries entries) = amf0PropsBytes (sortedEntries entries)) ∧
    ((∀ e ∈ entries, (Amf3WriteValue e.2 Writer.empty).err = none) →
      (Amf3WriteValue (Value.map "string" typeName isNil entries)
        { buf := buf, cap := none }).err = none ∧
      amf3WrittenProps (sortedEntries entries) = amf3EntriesBytes (sortedEntries entries)) ∧
    (∀ k : Bytes, 2 * k.length + 1 ≤ 0x3FFFFFFF →
      amf3NameBytes k = u29Bytes (2 * k.length + 1) ++ k) ∧
    WriteValue { buf := buf, cap := none } (Value.map "string" typeName true entries) =
      { n := 1, err := none, w := { buf := buf ++ [0x05], cap := none } } ∧
    WriteValue w (Value.map "string" typeName isNil entries') =
      WriteValue w (Value.map "string" typeName isNil entries) ∧
    Amf3WriteValue (Value.map "string" typeName isNil entries') w =
      Amf3WriteValue (Value.map "string" typeName isNil entries) w ∧
    (∀ m' : Value, m'.DistinctKeys →
      (Value.map "string" typeName isNil entries).DistinctKeys →
      m'.canon = (Value.map "string" typeName isNil entries).canon →
      Amf3WriteValue m' w = Amf3WriteValue (Value.map "string" typeName isNil entries) w) ∧
    (WriteValue Writer.empty
      (Value.map "string" "" false [([98], Value.int 1), ([97], Value.int 2)])).w.buf =
      [0x03, 0, 1, 97, 0, 0x40, 0, 0, 0, 0, 0, 0, 0, 0, 1, 98, 0, 0x3F, 0xF0, 0, 0, 0, 0, 0, 0,
       0, 0, 9] ∧
    (Amf3WriteValue (Value.map "string" "" false [([98], Value.int 1), ([97], Value.int 2)])
      Writer.empty).w.buf =
      [0x0a, 0x0b, 0x01, 3, 97, 0x05, 0x40, 0, 0, 0, 0, 0, 0, 0, 3, 98, 0x05, 0x3F, 0xF0, 0,
       0, 0, 0, 0, 0, 0x01] ∧
    WriteValue Writer.empty (Value.map "string" "" false
        [([107], Value.struct [([70], [], false,
          Value.iface "" (Value.object [([98], Value.int 1), ([97], Value.int 2)]))])]) =
      { n := 42, err := none,
        w := { buf := [0x03, 0, 1, 107, 0x03, 0, 1, 70,
                       0x03, 0, 1, 98, 0, 0x3F, 0xF0, 0, 0, 0, 0, 0, 0,
                       0, 1, 97, 0, 0x40, 0, 0, 0, 0, 0, 0, 0,
                       0, 0, 9, 0, 0, 9, 0, 0, 9],
               cap := none } } ∧
    WriteValue Writer.empty (Value.map "string" "" false
        [([107], Value.struct [([70], [], false,
          Value.iface "" (Value.object [([97], Value.int 2), ([98], Value.int 1)]))])]) =
      { n := 42, err := none,
        w := { buf := [0x03, 0, 1, 107, 0x03, 0, 1, 70,
                       0x03, 0, 1, 97, 0, 0x40, 0, 0, 0, 0, 0, 0, 0,
                       0, 1, 98, 0, 0x3F, 0xF0, 0, 0, 0, 0, 0, 0,
                       0, 0, 9, 0, 0, 9, 0, 0, 9],
               cap := none } } := by
  have hmem : ∀ e ∈ sortedEntries entries, e ∈ entries :=
    fun e he => (List.perm_insertionSort entryLE entries).mem_iff.mp he
  have h0 := propsLoop_written (sortedEntries entries) 1 (buf ++ [0x03])
  have h3 := amf3_propsLoop_written (sortedEntries entries) (1 + 1 + 1)
    (buf ++ [0x0a] ++ [0x0b] ++ [0x01])
  have e0 : WriteValue { buf := buf, cap := none }
      (Value.map "string" typeName false entries) =
      propsLoop WriteObjectName WriteObjectEndMarker
        ((sortedEntries entries).map (fun e => (e.1, writeValueAux true e.2))) 1
        { buf := buf ++ [0x03], cap := none } := by
    simp only [WriteValue, writeValueAux, writeEntries_eq_map, sortedProps_map _ entries hnd,
      WriteObjectMarker, WriteMarker_unbounded, Amf0ObjectMarker]
    simp
  have hc : Amf3WriteUTF8 { buf := buf ++ [0x0a] ++ [0x0b], cap := none } [] =
      { n := 1, err := none,
        w := { buf := buf ++ [0x0a] ++ [0x0b] ++ [0x01], cap := none } } := by
    simp [Amf3WriteUTF8, Writer.WriteByte]
  have e3 : Amf3WriteValue (Value.map "string" typeName isNil entries)
      { buf := buf, cap := none } =
      propsLoop Amf3WriteObjectName Amf3WriteObjectEndMarker
        ((sortedEntries entries).map (fun e => (e.1, Amf3WriteValue e.2))) (1 + 1 + 1)
        { buf := buf ++ [0x0a] ++ [0x0b] ++ [0x01], cap := none } := by
    simp only [Amf3WriteValue, amf3WriteEntries_eq_map, sortedProps_map _ entries hnd,
      amf3ObjectBody, Amf3WriteObjectMarker, WriteMarker_unbounded, Amf3ObjectMarker,
      WriteByte_unbounded { buf := buf ++ [0x0a], cap := none } _ rfl, hc]
    simp
  refine ⟨List.perm_insertionSort _ _, ?_, ?_, ?_, ?_, ?_, ?_, ?_, ?_, ?_, ?_, by decide,
    by decide, by decide, by decide⟩
  · rw [sortedEntries_keys]
    exact (sortKeys_spec _).2.2 hnd
  · rw [e0, h0.1]
    simp
  · rw [e3, h3.1]
    simp
  · intro hall
    refine ⟨?_, amf0WrittenProps_encodable _ (fun e he => hall e (hmem e he))⟩
    rw [e0]
    exact h0.2 (fun e he => hall e (hmem e he))
  · intro hall
    refine ⟨?_, amf3WrittenProps_encodable _ (fun e he => hall e (hmem e he))⟩
    rw [e3]
    exact h3.2 (fun e he => hall e (hmem e he))
  · intro k hk
    unfold amf3NameBytes Amf3WriteObjectName
    rw [Amf3WriteUTF8_unbounded Writer.empty k rfl hk]
    simp [Writer.empty]
  · simp [WriteValue, writeValueAux, WriteNull, Writer.WriteByte, Amf0NullMarker]
  · simp only [WriteValue, writeValueAux, writeEntries_eq_map,
      sortedProps_perm _ entries entries' hnd hperm]
  · simp only [Amf3WriteValue, amf3WriteEntries_eq_map,
      sortedProps_perm _ entries entries' hnd hperm]
  · intro m' h1 h2 hc
    rw [← Amf3WriteValue_canon m' h1, ← Amf3WriteValue_canon _ h2, hc]

/-- Witness of C3 at the map {"b": Object{"y":1,"x":2}, "a": 2}, listed as b, a with the
inner Object as y, x, on the sink that holds the byte 7; the other listing is a, b with the
inner Object as x, y. -/
theorem map_properties_sorted_witness :
    (sortedEntries [([98], Value.object [([121], Value.int 1), ([120], Value.int 2)]),
        ([97], Value.int 2)]).Perm
      [([98], Value.object [([121], Value.int 1), ([120], Value.int 2)]),
        ([97], Value.int 2)] ∧
    ((sortedEntries [([98], Value.object [([121], Value.int 1), ([120], Value.int 2)]),
        ([97], Value.int 2)]).map Prod.fst).Sorted (fun a b => strLess a b = true) ∧
    (WriteValue { buf := [7], cap := none }
      (Value.map "string" "" false
        [([98], Value.object [([121], Value.int 1), ([120], Value.int 2)]),
          ([97], Value.int 2)])).w =
      { buf := [7] ++ 0x03 ::
          amf0WrittenProps (sortedEntries
            [([98], Value.object [([121], Value.int 1), ([120], Value.int 2)]),
              ([97], Value.int 2)]),
        cap := none } ∧
    (Amf3WriteValue (Value.map "string" "" false
        [([98], Value.object [([121], Value.int 1), ([120], Value.int 2)]),
          ([97], Value.int 2)])
      { buf := [7], cap := none }).w =
      { buf := [7] ++ 0x0a :: 0x0b :: 0x01 ::
          amf3WrittenProps (sortedEntries
            [([98], Value.object [([121], Value.int 1), ([120], Value.int 2)]),
              ([97], Value.int 2)]),
        cap := none } ∧
    WriteValue { buf := [7], cap := none }
        (Value.map "string" "" false
          [([97], Value.int 2),
            ([98], Value.object [([121], Value.int 1), ([120], Value.int 2)])]) =
      WriteValue { buf := [7], cap := none }
        (Value.map "string" "" false
          [([98], Value.object [([121], Value.int 1), ([120], Value.int 2)]),
            ([97], Value.int 2)]) ∧
    Amf3WriteValue
        (Value.map "string" "" false
          [([97], Value.int 2),
            ([98], Value.object [([120], Value.int 2), ([121], Value.int 1)])])
        { buf := [7], cap := none } =
      Amf3WriteValue
        (Value.map "string" "" false
          [([98], Value.object [([121], Value.int 1), ([120], Value.int 2)]),
            ([97], Value.int 2)])
        { buf := [7], cap := none } :=
  have h := map_properties_sorted "" false
    [([98], Value.object [([121], Value.int 1), ([120], Value.int 2)]), ([97], Value.int 2)]
    [([97], Value.int 2), ([98], Value.object [([121], Value.int 1), ([120], Value.int 2)])]
    [7] { buf := [7], cap := none } (by decide) (List.Perm.swap _ _ _)
  ⟨h.1, h.2.1, h.2.2.1, h.2.2.2.1, h.2.2.2.2.2.2.2.2.1,
    h.2.2.2.2.2.2.2.2.2.2.1
      (Value.map "string" "" false
        [([97], Value.int 2),
          ([98], Value.object [([120], Value.int 2), ([121], Value.int 1)])])
      (by simp [Value.DistinctKeys, distinctKeysEntries])
      (by simp [Value.DistinctKeys, distinctKeysEntries])
      rfl⟩

end Goamf
